import Mathlib

/-!
fdm: the per-message match/deliver state machine

A shallow embedding of `mail-state.c` (`mail_match`, `mail_deliver`,
`fill_delivery_queue`, `find_delivery_users`, `start_action`, `finish_action`, and
`do_expr` from the part under `#if 0`) and of `match_actions` and `weed_users` from
`parse-fn.c`.

Conventions of the embedding:

* a pointer into a `TAILQ` is the list that starts at the pointed-to node (the node
  and everything after it); `NULL` is the empty list, `TAILQ_NEXT` is the tail;
* the `ARRAY` used as ancestor stack is a list whose head is the last array element;
* functions the sources call but do not define (`name_match`, `replacestr`, `add_tag`,
  `set_wrapped`, the matchers and deliverers, ...) are fields of `Env`;
* `fatalx` and a `NULL` dereference are outcomes of their own (`Outcome.fatalx`,
  `Outcome.fault`);
* effects that leave the process (matcher and deliverer calls, messages sent to the
  parent, warnings) are appended to `trace`;
* a label of `mail_match` is a function from the context at the label to the outcome;
  `mail_match` is `mail_match_to_skip` (the code above label `skip`) followed by `skip`.
-/

namespace Fdm

/-- Return codes of `mail_match` and `mail_deliver` (the `MAIL_*` constants). -/
inductive MailCode where
  | MAIL_CONTINUE | MAIL_DELIVER | MAIL_MATCH | MAIL_ERROR | MAIL_BLOCKED | MAIL_DONE
  deriving DecidableEq, Repr

/-- The `DECISION_*` constants. -/
inductive Decision where
  | DECISION_NONE | DECISION_KEEP | DECISION_DROP
  deriving DecidableEq, Repr

/-- The `MATCH_*` constants a matcher returns. -/
inductive MatchCode where
  | MATCH_FALSE | MATCH_TRUE | MATCH_ERROR | MATCH_PARENT
  deriving DecidableEq, Repr

/-- The `OP_*` constants of an expression item. -/
inductive Op where
  | OP_NONE | OP_OR | OP_AND
  deriving DecidableEq, Repr

/-- What a deliverer function returns. -/
inductive DeliverCode where
  | DELIVER_SUCCESS | DELIVER_FAILURE
  deriving DecidableEq, Repr

/-- The `ACTION_*` constants of mail-state.c. -/
inductive ActionCode where
  | ACTION_DONE | ACTION_ERROR | ACTION_PARENT
  deriving DecidableEq, Repr

/-- The `DELIVER_*` deliverer types. -/
inductive DeliverType where
  | DELIVER_INCHILD | DELIVER_ASUSER | DELIVER_WRBACK
  deriving DecidableEq, Repr

/-- Message types on the privsep channel; `MSG_OTHER` stands for the types of other
subsystems. -/
inductive MsgType where
  | MSG_ACTION | MSG_DONE | MSG_OTHER (n : Nat)
  deriving DecidableEq, Repr

/-- The tag store (`m->tags`), a string to string mapping kept in a buffer. -/
abbrev Tags := List (String × String)

/-- The type `struct replstr`: a template string, `str` may be `NULL`. -/
structure ReplStr where
  str : Option String
  deriving DecidableEq, Repr

/-- The type `struct expritem`: operator, inverted flag, the matcher (`match`) and its
private data. The matcher function itself is `Env.match_fn`. -/
structure ExprItem where
  op : Op
  inverted : Bool
  matcher : String
  data : String
  deriving DecidableEq, Repr

/-- The type `struct rule`. `rules` is the nested rule list, `actions` the array of
action name templates (a `NULL` array and an empty one are both `[]`, as
`ARRAY_EMPTY` does not tell them apart). -/
inductive Rule where
  | mk (idx : Nat) (accounts : Option (List String)) (users : Option (List Nat))
      (find_uid : Bool) (expr : Option (List ExprItem)) (key : ReplStr) (value : ReplStr)
      (actions : List ReplStr) (rules : List Rule) (stop : Bool)

namespace Rule

/-- Field `idx`. -/
def idx : Rule → Nat
  | mk i _ _ _ _ _ _ _ _ _ => i

/-- Field `accounts`. -/
def accounts : Rule → Option (List String)
  | mk _ a _ _ _ _ _ _ _ _ => a

/-- Field `users`. -/
def users : Rule → Option (List Nat)
  | mk _ _ u _ _ _ _ _ _ _ => u

/-- Field `find_uid`. -/
def find_uid : Rule → Bool
  | mk _ _ _ f _ _ _ _ _ _ => f

/-- Field `expr`. -/
def expr : Rule → Option (List ExprItem)
  | mk _ _ _ _ e _ _ _ _ _ => e

/-- Field `key`. -/
def key : Rule → ReplStr
  | mk _ _ _ _ _ k _ _ _ _ => k

/-- Field `value`. -/
def value : Rule → ReplStr
  | mk _ _ _ _ _ _ v _ _ _ => v

/-- Field `actions`. -/
def actions : Rule → List ReplStr
  | mk _ _ _ _ _ _ _ a _ _ => a

/-- Field `rules` (the nested rules). -/
def rules : Rule → List Rule
  | mk _ _ _ _ _ _ _ _ r _ => r

/-- Field `stop`. -/
def stop : Rule → Bool
  | mk _ _ _ _ _ _ _ _ _ s => s

end Rule

/-- A non-`NULL` pointer to a rule inside its `TAILQ`: the rule and its later
siblings. This is what the ancestor stack stores. -/
structure RuleNode where
  rule : Rule
  next : List Rule

/-- The type `struct account`. -/
structure Account where
  name : String
  users : Option (List Nat)
  find_uid : Bool
  keep : Bool
  deriving DecidableEq, Repr

/-- The type `struct deliver`: `deliver_fn` tells whether the `deliver` function
pointer is set; the function is `Env.deliver`. -/
structure Deliver where
  name : String
  type : DeliverType
  deliver_fn : Bool
  deriving DecidableEq, Repr

/-- The type `struct action`. -/
structure Action where
  name : String
  users : Option (List Nat)
  find_uid : Bool
  deliver : Deliver
  deriving DecidableEq, Repr

/-- The type `struct mail`, as far as the state machine reads or writes it. `addr`
is the identity of the object (what a `struct mail *` holds). -/
structure Mail where
  addr : Nat
  idx : Nat
  tags : Tags
  decision : Decision
  body : String
  deriving DecidableEq, Repr

/-- The type `struct deliver_ctx`. `mail` is a pointer (the `addr` of the mail); the
timestamp `tim` and the scratch slot `wr_mail` are left out. -/
structure DeliverCtx where
  action : Action
  account : Account
  rule : Rule
  mail : Nat
  uid : Nat

/-- The fields of `msg->data` used here. -/
structure MsgData where
  error : Int
  account : Option Account
  action : Option Action
  uid : Nat
  mail : Option String
  deriving DecidableEq, Repr

/-- The type `struct msg`. -/
structure Msg where
  type : MsgType
  id : Nat
  data : MsgData
  deriving DecidableEq, Repr

/-- The type `struct msgbuf`: `buf` may be `NULL`. -/
structure Msgbuf where
  buf : Option Tags
  len : Nat
  deriving DecidableEq, Repr

/-- What a call lets the outside world see, in order. -/
inductive Event where
  | matcher (ei : ExprItem)
  | deliverer (dctx : DeliverCtx)
  | send (msg : Msg) (msgbuf : Msgbuf)
  | warn (text : String)

/-- The type `struct mail_ctx`. -/
structure MailCtx where
  mail : Mail
  account : Account
  rule : List Rule
  stack : List RuleNode
  expritem : List ExprItem
  result : Bool
  done : Bool
  matched : Bool
  dqueue : List DeliverCtx
  msgid : Nat
  trace : List Event

/-- What a matcher hands back: its return code and the value `mctx->msgid` has when
it returns (a matcher that asks the parent stores the id of its request there). -/
structure MatchOutcome where
  code : MatchCode
  msgid : Nat

/-- The configuration (`conf`) and the functions called but not defined in the two
source files. A matcher writes nothing but `msgid`; a deliverer run in the child may
rewrite the mail; `set_wrapped`, `mail_receive`, `trim_from` and `fill_wrapped` touch
the body only. -/
structure Env where
  impl_act : Decision
  def_user : Nat
  actions : List Action
  name_match : Option String → String → Bool
  replacestr : ReplStr → Tags → Mail → Option String
  add_tag : Tags → String → String → Tags
  set_wrapped : String → Char → String
  find_users : Mail → Option (List Nat)
  match_fn : ExprItem → MailCtx → MatchOutcome
  match_code : Int → Option MatchCode
  deliver : DeliverCtx → Action → Mail → DeliverCode × Mail
  update_tags : Tags → Tags
  STRB_SIZE : Tags → Nat
  mail_send : Mail → Option String
  privsep_send : Msg → Msgbuf → Int
  mail_receive : String → Msg → String
  trim_from : String → String
  fill_wrapped : String → String

/-- How a call of `start_action` or `finish_action` ends. -/
inductive ActionOutcome where
  | ret (code : ActionCode) (mctx : MailCtx)
  | fatalx (why : String)

/-- How a call of `mail_match` or `mail_deliver` ends. -/
inductive Outcome where
  | ret (code : MailCode) (mctx : MailCtx)
  | fatalx (why : String)
  | fault

namespace Outcome

/-- The returned code, when the call returns. -/
def code? : Outcome → Option MailCode
  | ret c _ => some c
  | _ => none

/-- The context after the call, when the call returns. -/
def mctx? : Outcome → Option MailCtx
  | ret _ m => some m
  | _ => none

end Outcome

/-- Function `match_actions` of parse-fn.c: the actions of `conf.actions` whose name
matches `name`, in table order. -/
def match_actions (env : Env) (name : Option String) : List Action :=
  env.actions.filter (fun t => env.name_match name t.name)

/-- Function `find_delivery_users`. The outer `none` is the dereference of a `NULL`
`mctx->rule`; `should_free` only steers deallocation and is left out. -/
def find_delivery_users (env : Env) (mctx : MailCtx) (t : Action) : Option (List Nat) :=
  match mctx.rule with
  | [] => none
  | r :: _ =>
    let a := mctx.account
    let m := mctx.mail
    let users : Option (List Nat) :=
      if r.find_uid then env.find_users m
      else if r.users.isSome then r.users
      else if t.find_uid then env.find_users m
      else if t.users.isSome then t.users
      else if a.find_uid then env.find_users m
      else if a.users.isSome then a.users
      else none
    match users with
    | none => some [env.def_user]
    | some us => some us

/-- The loop over `k` in `fill_delivery_queue`: one `dctx` per uid, each inserted at
the tail of the queue. -/
def fill_users (t : Action) (a : Account) (r : Rule) (m : Mail) :
    List Nat → List DeliverCtx → List DeliverCtx
  | [], q => q
  | uid :: users, q => fill_users t a r m users (q ++ [⟨t, a, r, m.addr, uid⟩])

/-- The loop over `j` in `fill_delivery_queue`: for each matched action resolve the
users and enqueue. `none` is the fault of `find_delivery_users`. -/
def fill_actions (env : Env) (mctx : MailCtx) (r : Rule) :
    List Action → List DeliverCtx → Option (List DeliverCtx)
  | [], q => some q
  | t :: ta, q =>
    match find_delivery_users env mctx t with
    | none => none
    | some users => fill_actions env mctx r ta (fill_users t mctx.account r mctx.mail users q)

/-- The loop over `i` in `fill_delivery_queue`, from template `rs` on. Returns the C
return value (0, or 1 at label `empty`) and the context. -/
def fill_templates (env : Env) (r : Rule) : List ReplStr → MailCtx → Option (Nat × MailCtx)
  | [], mctx => some (0, mctx)
  | rs :: rest, mctx =>
    let s := env.replacestr rs mctx.mail.tags mctx.mail
    let ta := match_actions env s
    if ta.isEmpty then
      some (1, { mctx with trace := mctx.trace ++ [Event.warn "no actions matching"] })
    else
      match fill_actions env mctx r ta mctx.dqueue with
      | none => none
      | some q => fill_templates env r rest { mctx with dqueue := q }

/-- Function `fill_delivery_queue`. -/
def fill_delivery_queue (env : Env) (mctx : MailCtx) (r : Rule) : Option (Nat × MailCtx) :=
  fill_templates env r r.actions mctx

/-- The `while (mctx->rule == NULL)` loop at label `next_rule`: while the rule is
`NULL` and the stack is not empty, take the sibling after the last stacked rule and
drop that rule from the stack. -/
def pop_stack : List Rule → List RuleNode → List Rule × List RuleNode
  | [], top :: stack => pop_stack top.next stack
  | rule, stack => (rule, stack)

/-- Label `next_rule` of `mail_match`; `error` is the pending return code. -/
def next_rule (mctx : MailCtx) (error : MailCode) : Outcome :=
  match mctx.rule with
  | [] => Outcome.fault
  | _ :: next =>
    let p := pop_stack next mctx.stack
    Outcome.ret error { mctx with rule := p.1, stack := p.2 }

/-- The block "Tag mail if necessary" of `mail_match`. -/
def tag_mail (env : Env) (mctx : MailCtx) (r : Rule) : MailCtx :=
  let m := mctx.mail
  if r.key.str.isSome then
    let tkey := env.replacestr r.key m.tags m
    let tvalue := env.replacestr r.value m.tags m
    match tkey, tvalue with
    | some k, some v =>
      if k ≠ "" then { mctx with mail := { m with tags := env.add_tag m.tags k v } }
      else mctx
    | _, _ => mctx
  else mctx

/-- Label `skip` of `mail_match` to the end of the function: the test of the result,
the stop flag, the descent into nested rules, tagging, the delivery queue, and the
jump to `next_rule`. -/
def skip (env : Env) (mctx : MailCtx) : Outcome :=
  if !mctx.result then next_rule mctx MailCode.MAIL_CONTINUE
  else
    let mctx := { mctx with matched := true }
    match mctx.rule with
    | [] => Outcome.fault
    | r :: next =>
      let mctx := if r.stop then { mctx with done := true } else mctx
      if !r.rules.isEmpty then
        Outcome.ret MailCode.MAIL_CONTINUE
          { mctx with stack := ⟨r, next⟩ :: mctx.stack, rule := r.rules }
      else
        let mctx := tag_mail env mctx r
        if !r.actions.isEmpty then
          match fill_delivery_queue env mctx r with
          | none => Outcome.fault
          | some (rc, mctx) =>
            if rc ≠ 0 then Outcome.ret MailCode.MAIL_ERROR mctx
            else next_rule mctx MailCode.MAIL_DELIVER
        else next_rule mctx MailCode.MAIL_CONTINUE

/-- Where control stands when the part of `mail_match` above label `skip` is over:
the function has ended (`ret`), or control is at label `skip` with the given
context (by `goto skip` or by falling through from `next_expritem`). -/
inductive Jump where
  | ret (o : Outcome)
  | skip (mctx : MailCtx)

/-- Label `next_expritem` of `mail_match`: move to the next item and return if there
is one, else fall through to `skip`. -/
def next_expritem (mctx : MailCtx) : Jump :=
  match mctx.expritem with
  | [] => Jump.ret Outcome.fault
  | _ :: next =>
    let mctx := { mctx with expritem := next }
    if !next.isEmpty then Jump.ret (Outcome.ret MailCode.MAIL_CONTINUE mctx)
    else Jump.skip mctx

/-- The two `switch` statements of `mail_match` adjust the result alike: `TRUE` sets it
under `OP_NONE` and `OP_OR`, `FALSE` clears it under `OP_AND`. The inverted flag of
the item is not read. -/
def adjust_result (ei : ExprItem) (code : MatchCode) (mctx : MailCtx) : MailCtx :=
  match code with
  | MatchCode.MATCH_TRUE =>
    if ei.op = Op.OP_NONE ∨ ei.op = Op.OP_OR then { mctx with result := true } else mctx
  | MatchCode.MATCH_FALSE =>
    if ei.op = Op.OP_AND then { mctx with result := false } else mctx
  | _ => mctx

/-- The block "Check this expression item and adjust the result" of `mail_match`,
followed by label `next_expritem`. -/
def check_expritem (env : Env) (mctx : MailCtx) : Jump :=
  match mctx.expritem with
  | [] => Jump.ret Outcome.fault
  | ei :: _ =>
    let out := env.match_fn ei mctx
    let mctx := { mctx with msgid := out.msgid, trace := mctx.trace ++ [Event.matcher ei] }
    match out.code with
    | MatchCode.MATCH_ERROR => Jump.ret (Outcome.ret MailCode.MAIL_ERROR mctx)
    | MatchCode.MATCH_PARENT => Jump.ret (Outcome.ret MailCode.MAIL_BLOCKED mctx)
    | MatchCode.MATCH_TRUE => next_expritem (adjust_result ei MatchCode.MATCH_TRUE mctx)
    | MatchCode.MATCH_FALSE => next_expritem (adjust_result ei MatchCode.MATCH_FALSE mctx)

/-- The block "If blocked, check for msgs from parent" of `mail_match`, entered with
`mctx->msgid != 0`. -/
def match_blocked (env : Env) (mctx : MailCtx) (msg : Option Msg) (msgbuf : Option Msgbuf) :
    Jump :=
  match msg with
  | none => Jump.ret (Outcome.ret MailCode.MAIL_BLOCKED mctx)
  | some msg =>
    if msg.id ≠ mctx.msgid then Jump.ret (Outcome.ret MailCode.MAIL_BLOCKED mctx)
    else
      let mctx := { mctx with msgid := 0 }
      if msg.type ≠ MsgType.MSG_DONE then Jump.ret (Outcome.fatalx "child: unexpected message")
      else
        match msgbuf with
        | none => Jump.ret Outcome.fault
        | some mb =>
          match mb.buf with
          | none => Jump.ret (Outcome.fatalx "child: bad tags")
          | some buf =>
            if mb.len = 0 then Jump.ret (Outcome.fatalx "child: bad tags")
            else
              let mctx := { mctx with mail := { mctx.mail with tags := buf } }
              match env.match_code msg.data.error with
              | some MatchCode.MATCH_ERROR => Jump.ret (Outcome.ret MailCode.MAIL_ERROR mctx)
              | some MatchCode.MATCH_TRUE =>
                match mctx.expritem with
                | [] => Jump.ret Outcome.fault
                | ei :: _ => next_expritem (adjust_result ei MatchCode.MATCH_TRUE mctx)
              | some MatchCode.MATCH_FALSE =>
                match mctx.expritem with
                | [] => Jump.ret Outcome.fault
                | ei :: _ => next_expritem (adjust_result ei MatchCode.MATCH_FALSE mctx)
              | _ => Jump.ret (Outcome.fatalx "child: unexpected response")

/-- The block "Check for completion and end of ruleset" of `mail_match` when
`mctx->rule == NULL`: the decision comes from `conf.impl_act`. -/
def end_of_ruleset (env : Env) (mctx : MailCtx) : Outcome :=
  match env.impl_act with
  | Decision.DECISION_NONE =>
    Outcome.ret MailCode.MAIL_DONE
      { mctx with
        mail := { mctx.mail with decision := Decision.DECISION_KEEP },
        trace := mctx.trace ++ [Event.warn "reached end of ruleset"] }
  | Decision.DECISION_KEEP =>
    Outcome.ret MailCode.MAIL_DONE
      { mctx with mail := { mctx.mail with decision := Decision.DECISION_KEEP } }
  | Decision.DECISION_DROP =>
    Outcome.ret MailCode.MAIL_DONE
      { mctx with mail := { mctx.mail with decision := Decision.DECISION_DROP } }

/-- The test of the rule's account list in `mail_match`: the list is there, is not
empty, and the loop over it ends without a `name_match`. -/
def account_excluded (env : Env) (mctx : MailCtx) (r : Rule) : Bool :=
  match r.accounts with
  | none => false
  | some aa => !aa.isEmpty && !aa.any (fun an => env.name_match (some an) mctx.account.name)

/-- The block "Expression not started. Start it." of `mail_match`, entered with a
rule `r` and `mctx->expritem == NULL`, followed by the check of the first item. -/
def start_expr (env : Env) (mctx : MailCtx) (r : Rule) : Jump :=
  if account_excluded env mctx r then Jump.skip { mctx with result := false }
  else
    match r.expr with
    | none => Jump.skip { mctx with result := true }
    | some [] => Jump.skip { mctx with result := true }
    | some (ei :: items) =>
      check_expritem env { mctx with result := false, expritem := ei :: items }

/-- The call `set_wrapped(m, ch)` at the head of `mail_match` and `mail_deliver`. -/
def wrap (env : Env) (mctx : MailCtx) (ch : Char) : MailCtx :=
  { mctx with mail := { mctx.mail with body := env.set_wrapped mctx.mail.body ch } }

/-- Function `mail_match` from its start to label `skip`. -/
def mail_match_to_skip (env : Env) (mctx : MailCtx) (msg : Option Msg)
    (msgbuf : Option Msgbuf) : Jump :=
  let mctx := wrap env mctx ' '
  if mctx.msgid ≠ 0 then match_blocked env mctx msg msgbuf
  else if mctx.done then Jump.ret (Outcome.ret MailCode.MAIL_DONE mctx)
  else
    match mctx.rule with
    | [] => Jump.ret (end_of_ruleset env mctx)
    | r :: _ =>
      match mctx.expritem with
      | [] => start_expr env mctx r
      | _ :: _ => check_expritem env mctx

/-- Function `mail_match` (the spec calls it `step_match`). -/
def mail_match (env : Env) (mctx : MailCtx) (msg : Option Msg) (msgbuf : Option Msgbuf) :
    Outcome :=
  match mail_match_to_skip env mctx msg msgbuf with
  | Jump.ret o => o
  | Jump.skip mctx => skip env mctx

/-- Function `start_action`. The mail of the `dctx` is the mail of the context (the
only producer of a `dctx`, `fill_delivery_queue`, stores `mctx->mail`). -/
def start_action (env : Env) (mctx : MailCtx) (dctx : DeliverCtx) : ActionOutcome :=
  let t := dctx.action
  let m := mctx.mail
  if !t.deliver.deliver_fn then ActionOutcome.ret ActionCode.ACTION_DONE mctx
  else
    let m := { m with tags := env.add_tag m.tags "action" t.name }
    match t.deliver.type with
    | DeliverType.DELIVER_INCHILD =>
      let d := env.deliver dctx t m
      let mctx := { mctx with mail := d.2, trace := mctx.trace ++ [Event.deliverer dctx] }
      if d.1 ≠ DeliverCode.DELIVER_SUCCESS then ActionOutcome.ret ActionCode.ACTION_ERROR mctx
      else ActionOutcome.ret ActionCode.ACTION_DONE mctx
    | _ =>
      let msg : Msg :=
        { type := MsgType.MSG_ACTION, id := m.idx,
          data := { error := 0, account := some dctx.account, action := some t, uid := dctx.uid,
                    mail := env.mail_send m } }
      let msgbuf : Msgbuf := { buf := some m.tags, len := env.STRB_SIZE m.tags }
      if env.privsep_send msg msgbuf ≠ 0 then ActionOutcome.fatalx "child: privsep_send error"
      else
        ActionOutcome.ret ActionCode.ACTION_PARENT
          { mctx with mail := m, msgid := msg.id, trace := mctx.trace ++ [Event.send msg msgbuf] }

/-- Function `finish_action`, entered with a `dctx` and a `msgbuf` that are not
`NULL`. -/
def finish_action (env : Env) (mctx : MailCtx) (dctx : DeliverCtx) (msg : Msg)
    (msgbuf : Msgbuf) : ActionOutcome :=
  let t := dctx.action
  match msgbuf.buf with
  | none => ActionOutcome.fatalx "child: bad tags"
  | some buf =>
    if msgbuf.len = 0 then ActionOutcome.fatalx "child: bad tags"
    else
      let m := { mctx.mail with tags := env.update_tags buf }
      let mctx := { mctx with mail := m }
      if msg.data.error ≠ 0 then ActionOutcome.ret ActionCode.ACTION_ERROR mctx
      else if t.deliver.type ≠ DeliverType.DELIVER_WRBACK then
        ActionOutcome.ret ActionCode.ACTION_DONE mctx
      else
        let body := env.fill_wrapped (env.trim_from (env.mail_receive m.body msg))
        ActionOutcome.ret ActionCode.ACTION_DONE { mctx with mail := { m with body := body } }

/-- Label `done` of `mail_deliver`: the head of the queue is removed. -/
def deliver_done (mctx : MailCtx) : Outcome :=
  Outcome.ret MailCode.MAIL_CONTINUE { mctx with dqueue := mctx.dqueue.tail }

/-- Function `mail_deliver` (the spec calls it `step_deliver`). -/
def mail_deliver (env : Env) (mctx : MailCtx) (msg : Option Msg) (msgbuf : Option Msgbuf) :
    Outcome :=
  let mctx := wrap env mctx '\n'
  if mctx.msgid ≠ 0 then
    match msg with
    | none => Outcome.ret MailCode.MAIL_BLOCKED mctx
    | some msg =>
      if msg.id ≠ mctx.msgid then Outcome.ret MailCode.MAIL_BLOCKED mctx
      else
        let mctx := { mctx with msgid := 0 }
        match mctx.dqueue, msgbuf with
        | dctx :: _, some mb =>
          match finish_action env mctx dctx msg mb with
          | ActionOutcome.fatalx why => Outcome.fatalx why
          | ActionOutcome.ret ActionCode.ACTION_ERROR mctx =>
            Outcome.ret MailCode.MAIL_ERROR mctx
          | ActionOutcome.ret _ mctx => deliver_done mctx
        | _, _ => Outcome.fault
  else
    match mctx.dqueue with
    | [] => Outcome.ret MailCode.MAIL_MATCH mctx
    | dctx :: _ =>
      match start_action env mctx dctx with
      | ActionOutcome.fatalx why => Outcome.fatalx why
      | ActionOutcome.ret ActionCode.ACTION_ERROR mctx => Outcome.ret MailCode.MAIL_ERROR mctx
      | ActionOutcome.ret ActionCode.ACTION_PARENT mctx =>
        Outcome.ret MailCode.MAIL_BLOCKED mctx
      | ActionOutcome.ret ActionCode.ACTION_DONE mctx => deliver_done mctx

/-- The loop of `do_expr` (the earlier evaluator kept under `#if 0` in mail-state.c):
`fres` is the result so far; the value is -1 on a matcher error, else `fres` as 0 or 1.
Here the inverted flag negates the matcher's verdict before it is combined. -/
def do_expr_items (env : Env) (mctx : MailCtx) : List ExprItem → Bool → Int
  | [], fres => if fres then 1 else 0
  | ei :: rest, fres =>
    let code := (env.match_fn ei mctx).code
    if code = MatchCode.MATCH_ERROR then -1
    else
      let cres : Bool := decide (code = MatchCode.MATCH_TRUE)
      let cres := if ei.inverted then !cres else cres
      let fres :=
        match ei.op with
        | Op.OP_NONE => fres || cres
        | Op.OP_OR => fres || cres
        | Op.OP_AND => fres && cres
      do_expr_items env mctx rest fres

/-- Function `do_expr` of the `#if 0` part, on the items of the rule's expression. -/
def do_expr (env : Env) (items : List ExprItem) (mctx : MailCtx) : Int :=
  do_expr_items env mctx items false

/-! ## A small configuration used to run the definitions -/

/-- A matcher for patterns `^c`: true when the body starts with the character `c`. It
stores no message id. -/
def first_char_matcher (ei : ExprItem) (mctx : MailCtx) : MatchOutcome :=
  match ei.data.data, mctx.mail.body.data with
  | ['^', p], b :: _ =>
    ⟨if p = b then MatchCode.MATCH_TRUE else MatchCode.MATCH_FALSE, mctx.msgid⟩
  | _, _ => ⟨MatchCode.MATCH_FALSE, mctx.msgid⟩

/-- An in-child action `keep`. -/
def keep_action : Action :=
  { name := "keep", users := none, find_uid := false,
    deliver := { name := "keep", type := DeliverType.DELIVER_INCHILD, deliver_fn := true } }

/-- An action `mbox` run as the user by the parent. -/
def mbox_action : Action :=
  { name := "mbox", users := some [1000, 1001], find_uid := false,
    deliver := { name := "mbox", type := DeliverType.DELIVER_ASUSER, deliver_fn := true } }

/-- A configuration with the actions `keep` and `mbox`, names matched literally,
templates without substitutions, and tags kept as a list of pairs. -/
def sample_env : Env :=
  { impl_act := Decision.DECISION_NONE
    def_user := 0
    actions := [keep_action, mbox_action]
    name_match := fun pat name => pat == some name
    replacestr := fun rs _ _ => rs.str
    add_tag := fun tags k v => tags ++ [(k, v)]
    set_wrapped := fun body _ => body
    find_users := fun _ => none
    match_fn := first_char_matcher
    match_code := fun n =>
      if n = 0 then some MatchCode.MATCH_FALSE
      else if n = 1 then some MatchCode.MATCH_TRUE
      else if n = 2 then some MatchCode.MATCH_ERROR
      else if n = 3 then some MatchCode.MATCH_PARENT
      else none
    deliver := fun _ _ m => (DeliverCode.DELIVER_SUCCESS, m)
    update_tags := fun tags => tags
    STRB_SIZE := fun tags => tags.length + 1
    mail_send := fun m => some m.body
    privsep_send := fun _ _ => 0
    mail_receive := fun body msg => msg.data.mail.getD body
    trim_from := fun body => body
    fill_wrapped := fun body => body }

/-- A mail whose body starts with `Y`. -/
def sample_mail : Mail :=
  { addr := 1, idx := 7, tags := [], decision := Decision.DECISION_DROP, body := "Y: 1" }

/-- The account `a1`. -/
def sample_account : Account :=
  { name := "a1", users := none, find_uid := false, keep := false }

/-- A fresh context for `sample_mail` at the head of the ruleset `rules`. -/
def fresh_mctx (rules : List Rule) : MailCtx :=
  { mail := sample_mail, account := sample_account, rule := rules, stack := [],
    expritem := [], result := false, done := false, matched := false, dqueue := [],
    msgid := 0, trace := [] }

/-- The item `not regexp "^X"` with operator `OP_NONE`. -/
def item_not_x : ExprItem :=
  { op := Op.OP_NONE, inverted := true, matcher := "regexp", data := "^X" }

/-- The item `or regexp "^Y"`. -/
def item_or_y : ExprItem :=
  { op := Op.OP_OR, inverted := false, matcher := "regexp", data := "^Y" }

/-- The rule `match not regexp "^X" or regexp "^Y" action "keep"`. -/
def rule_not_x_or_y : Rule :=
  Rule.mk 1 none none false (some [item_not_x, item_or_y]) ⟨none⟩ ⟨none⟩ [⟨some "keep"⟩] [] false

/-- The rule `match not regexp "^X" action "keep"`. -/
def rule_not_x : Rule :=
  Rule.mk 1 none none false (some [item_not_x]) ⟨none⟩ ⟨none⟩ [⟨some "keep"⟩] [] false

/-- The context `fresh_mctx` of a message whose stop rule has matched (`done` set)
and whose decision nobody has assigned. -/
def stopped_undecided_mctx : MailCtx :=
  { fresh_mctx [] with
    done := true, mail := { sample_mail with decision := Decision.DECISION_NONE } }

/-! ## Specification-side definitions -/

/-- Spec §4.5, one link of the operator chain: `OP_NONE` means `result = item`, the
other two are the boolean connectives. -/
def apply_op (op : Op) (r item : Bool) : Bool :=
  match op with
  | Op.OP_NONE => item
  | Op.OP_OR => r || item
  | Op.OP_AND => r && item

/-- Spec §4.5, the left-to-right fold `r_k = r_(k-1) op_k item_k` over the items, with
`v` the verdict of each item's matcher. There is no operator precedence. -/
def expr_fold (v : ExprItem → Bool) (items : List ExprItem) : Bool :=
  items.foldl (fun r ei => apply_op ei.op r (v ei)) false

/-- The matcher code for a boolean verdict. -/
def code_of (b : Bool) : MatchCode :=
  if b then MatchCode.MATCH_TRUE else MatchCode.MATCH_FALSE

/-- Up to `n` successive calls of `mail_match` without a reply: the calls go on while
they return `MAIL_CONTINUE`; the value is the outcome of the last call made. -/
def match_calls (env : Env) : Nat → MailCtx → Outcome
  | 0, mctx => Outcome.ret MailCode.MAIL_CONTINUE mctx
  | n + 1, mctx =>
    match mail_match env mctx none none with
    | Outcome.ret MailCode.MAIL_CONTINUE mctx1 => match_calls env n mctx1
    | o => o

/-- The `dctx` that `fill_delivery_queue` builds for action `t` and user `uid`. -/
def new_dctx (mctx : MailCtx) (r : Rule) (t : Action) (uid : Nat) : DeliverCtx :=
  ⟨t, mctx.account, r, mctx.mail.addr, uid⟩

/-- Spec §4.3: the entries to append for the templates `tpl` of rule `r`: one per
(template, matching action, uid), templates in order, then actions in table order,
then the resolved users in order. -/
def expected_dctxs (env : Env) (mctx : MailCtx) (r : Rule) (tpl : List ReplStr) :
    List DeliverCtx :=
  tpl.flatMap (fun rs =>
    (match_actions env (env.replacestr rs mctx.mail.tags mctx.mail)).flatMap (fun t =>
      ((find_delivery_users env mctx t).getD []).map (fun uid => new_dctx mctx r t uid)))

/-- Spec §4.1 "Next rule": where evaluation resumes when the ancestors `popped` have
been taken off the stack (nearest first): at the sibling after the last one popped,
or at the current rule's own sibling `next` when nothing was popped. -/
def resume_rule (next : List Rule) (popped : List RuleNode) : List Rule :=
  match popped.getLast? with
  | none => next
  | some a => a.next

/-- The context `fresh_mctx []` after `mail_match` has reached the end of the ruleset
under `sample_env`: the mail is kept and the warning is in the trace. -/
def kept_mctx : MailCtx :=
  { fresh_mctx [] with
    mail := { sample_mail with decision := Decision.DECISION_KEEP },
    trace := [Event.warn "reached end of ruleset"] }

/-- A rule `match all` with the given index, nested rules and stop flag, and without
actions of its own. -/
def rule_all (idx : Nat) (rules : List Rule) (stop : Bool) : Rule :=
  Rule.mk idx none none false none ⟨none⟩ ⟨none⟩ [] rules stop

/-- A rule `match all action "keep"` with the given index and account list. -/
def rule_keep (idx : Nat) (accounts : Option (List String)) : Rule :=
  Rule.mk idx accounts none false none ⟨none⟩ ⟨none⟩ [⟨some "keep"⟩] [] false

/-- A context in the middle of a nested ruleset: the current rule is the last of its
list, its parent (index 2) is the last of its list too, and the grandparent (index 1)
is followed by rule 9. -/
def nested_mctx : MailCtx :=
  { fresh_mctx [rule_keep 5 (some ["other"])] with
    stack := [⟨rule_all 2 [] false, []⟩, ⟨rule_all 1 [] false, [rule_keep 9 none]⟩] }

/-- The rule `match all actions "keep" "mbox"`. -/
def rule_keep_mbox : Rule :=
  Rule.mk 4 none none false none ⟨none⟩ ⟨none⟩ [⟨some "keep"⟩, ⟨some "mbox"⟩] [] false

/-- The value `adjust_result` leaves in `result` when the matcher's verdict is `b` and
the result so far is `r`. -/
def combine (ei : ExprItem) (b r : Bool) : Bool :=
  if b then (if ei.op = Op.OP_NONE ∨ ei.op = Op.OP_OR then true else r)
  else (if ei.op = Op.OP_AND then false else r)

/-- The items `regexp "^Y" and regexp "^X" or regexp "^Y"`, none inverted. -/
def items_y_and_x_or_y : List ExprItem :=
  [{ op := Op.OP_NONE, inverted := false, matcher := "regexp", data := "^Y" },
   { op := Op.OP_AND, inverted := false, matcher := "regexp", data := "^X" },
   { op := Op.OP_OR, inverted := false, matcher := "regexp", data := "^Y" }]

/-- The rule `match regexp "^Y" and regexp "^X" or regexp "^Y" action "keep"`. -/
def rule_y_and_x_or_y : Rule :=
  Rule.mk 1 none none false (some items_y_and_x_or_y) ⟨none⟩ ⟨none⟩ [⟨some "keep"⟩] [] false

/-- The verdict of `first_char_matcher` on a mail that starts with `Y`. -/
def starts_with_y (ei : ExprItem) : Bool :=
  match ei.data.data with
  | ['^', p] => p = 'Y'
  | _ => false

/-- One call the scheduler makes on a context, with the reply it hands in. -/
inductive Call where
  | step_match (msg : Option Msg) (msgbuf : Option Msgbuf)
  | step_deliver (msg : Option Msg) (msgbuf : Option Msgbuf)

/-- What a run shows about the rules: the evaluation of a rule starts, a rule
matches. -/
inductive Visit where
  | start (r : Rule)
  | matched (r : Rule)

/-- The visits of one call of `mail_match`: the evaluation of the current rule starts
when the call is not on the reply path, `done` is unset and no expression is in
progress; the current rule matches when control reaches label `skip` with the result
set. -/
def visits_of_call (env : Env) (mctx : MailCtx) (msg : Option Msg) (msgbuf : Option Msgbuf) :
    List Visit :=
  (match mctx.rule with
    | r :: _ =>
      if mctx.msgid = 0 ∧ mctx.done = false ∧ mctx.expritem = [] then [Visit.start r] else []
    | [] => []) ++
  (match mail_match_to_skip env mctx msg msgbuf, mctx.rule with
    | Jump.skip c1, r :: _ => if c1.result then [Visit.matched r] else []
    | _, _ => [])

/-- The visits of a run: the calls are made one after the other on the context the
previous call left; the run is over when a call returns `MAIL_ERROR`, when
`mail_match` returns `MAIL_DONE`, or when the process ends. -/
def run_visits (env : Env) : List Call → MailCtx → List Visit
  | [], _ => []
  | Call.step_match msg msgbuf :: calls, mctx =>
    visits_of_call env mctx msg msgbuf ++
      (match mail_match env mctx msg msgbuf with
        | Outcome.ret code c =>
          if code = MailCode.MAIL_ERROR ∨ code = MailCode.MAIL_DONE then []
          else run_visits env calls c
        | _ => [])
  | Call.step_deliver msg msgbuf :: calls, mctx =>
    (match mail_deliver env mctx msg msgbuf with
      | Outcome.ret code c =>
        if code = MailCode.MAIL_ERROR then [] else run_visits env calls c
      | _ => [])

/-- The rules whose evaluation starts, in the order of the run. -/
def started : List Visit → List Rule
  | [] => []
  | Visit.start r :: vs => r :: started vs
  | Visit.matched _ :: vs => started vs

mutual
/-- The pre-order (source order) listing of a rule and the rules nested in it. -/
def Rule.preorder : Rule → List Rule
  | Rule.mk i a u f e k v ac rules s => Rule.mk i a u f e k v ac rules s :: preorder_list rules
/-- The pre-order listing of a list of rules. -/
def preorder_list : List Rule → List Rule
  | [] => []
  | r :: rs => r.preorder ++ preorder_list rs
end

/-- The visit sequences that a walk over the rule list `fs` admits: the walk may end
anywhere; a rule that is started and does not match is followed by its next sibling,
its nested rules being passed over; a rule that is started and matches is followed
by its nested rules and then by its next sibling. -/
inductive Trav : List Rule → List Visit → Prop
  | stop (fs : List Rule) : Trav fs []
  | pass (r : Rule) (rest : List Rule) (vs : List Visit) :
      Trav rest vs → Trav (r :: rest) (Visit.start r :: vs)
  | enter (r : Rule) (rest : List Rule) (vs : List Visit) :
      Trav (r.rules ++ rest) vs → Trav (r :: rest) (Visit.start r :: Visit.matched r :: vs)

/-- The rules still to come, as a rule list: the current rule and its later siblings,
then the later siblings of each stacked ancestor, nearest first. -/
def to_go (rule : List Rule) (stack : List RuleNode) : List Rule :=
  rule ++ stack.flatMap (fun a => a.next)

/-- The visit sequences a run may still show from the context `c`: between rules those
of a walk over the rules still to come; inside a rule (an expression is in progress)
those that, put after the start of the current rule, make such a walk. -/
def admits (c : MailCtx) (vs : List Visit) : Prop :=
  (c.expritem = [] → Trav (to_go c.rule c.stack) vs) ∧
  (∀ r rest, c.expritem ≠ [] → c.rule = r :: rest →
    Trav (to_go c.rule c.stack) (Visit.start r :: vs))

/-- A ruleset with nested rules: rule 1 (`match all`, nested rules 2 and 3), then
rule 4. -/
def nested_rules : List Rule :=
  [rule_all 1 [rule_keep 2 none, rule_keep 3 (some ["other"])] false, rule_keep 4 none]

/-- A run on `nested_rules`: each `mail_match` that returns `MAIL_DELIVER` is followed
by the two `mail_deliver` calls that drain the queue. -/
def nested_run : List Call :=
  [Call.step_match none none, Call.step_match none none, Call.step_deliver none none,
   Call.step_deliver none none, Call.step_match none none, Call.step_match none none,
   Call.step_deliver none none, Call.step_deliver none none, Call.step_match none none]

/-- The three levels of user resolution in the order rule, action, account; each
level is its `find_uid` flag and its `users` list (`none` when the list is absent). -/
def user_levels (r : Rule) (t : Action) (a : Account) : List (Bool × Option (List Nat)) :=
  [(r.find_uid, r.users), (t.find_uid, t.users), (a.find_uid, a.users)]

/-- User resolution as the code does it, told by levels: the first level that has
`find_uid` set or has a users list is taken, whether that list is empty or not. With
`find_uid` the users are those derived from the message, or the default user when
none is derived; otherwise they are the level's list. Without such a level the
result is the default user. -/
def resolved_users (env : Env) (m : Mail) (levels : List (Bool × Option (List Nat))) :
    List Nat :=
  match levels.find? (fun lv => lv.1 || lv.2.isSome) with
  | none => [env.def_user]
  | some lv =>
    if lv.1 then (env.find_users m).getD [env.def_user] else lv.2.getD [env.def_user]

/-- User resolution in the words of spec §4.3 and §8: a level counts when `find_uid`
is set or its users list is not empty; a level with an empty list is passed over
like one without a list. -/
def claimed_users (env : Env) (m : Mail) (levels : List (Bool × Option (List Nat))) :
    List Nat :=
  match levels.find? (fun lv => lv.1 || decide (lv.2.getD [] ≠ [])) with
  | none => [env.def_user]
  | some lv => if lv.1 then (env.find_users m).getD [] else lv.2.getD []

/-- The rule `match all users (none) action "mbox"`: its users list is there and is
empty. -/
def rule_no_users : Rule :=
  Rule.mk 7 none (some []) false none ⟨none⟩ ⟨none⟩ [⟨some "mbox"⟩] [] false

/-- The rule `match all action "nosuch"`: no action of `sample_env` has that name. -/
def rule_nosuch : Rule :=
  Rule.mk 8 none none false none ⟨none⟩ ⟨none⟩ [⟨some "nosuch"⟩] [] false

/-- The rule `match all tag "k" value "" action "keep"`: the value template is there
and substitutes to the empty string. -/
def rule_tag_empty_value : Rule :=
  Rule.mk 9 none none false none ⟨some "k"⟩ ⟨some ""⟩ [⟨some "keep"⟩] [] false

/-- The tag store after the block "Tag mail if necessary" for a rule with a key
template: the tag is added when the substituted key is not `NULL` and not empty and
the substituted value is not `NULL`. -/
def tagged (env : Env) (m : Mail) (r : Rule) : Tags :=
  match env.replacestr r.key m.tags m, env.replacestr r.value m.tags m with
  | some k, some v => if k ≠ "" then env.add_tag m.tags k v else m.tags
  | _, _ => m.tags

/-- The context after the block "Tag mail if necessary", for a rule `r` that has
matched at label `skip` with context `c1`: the matched flag, the done flag of a stop
rule, and the tag of a rule with a key template. -/
def after_tag (env : Env) (c1 : MailCtx) (r : Rule) : MailCtx :=
  { c1 with
    matched := true, done := (c1.done || r.stop),
    mail := { c1.mail with
      tags := if r.key.str.isSome then tagged env c1.mail r else c1.mail.tags } }

/-- The context `fresh_mctx [rule_keep 1 none]` after the call in which the rule has
matched: one entry for the action `keep` and the default user is queued. -/
def queued_keep_mctx : MailCtx :=
  { fresh_mctx [] with
    matched := true, result := true,
    dqueue := [⟨keep_action, sample_account, rule_keep 1 none, 1, 0⟩] }

/-- Up to `n` successive calls of `mail_deliver` without a reply: the calls go on while
they return `MAIL_CONTINUE`; the value is the outcome of the last call made. -/
def deliver_calls (env : Env) : Nat → MailCtx → Outcome
  | 0, mctx => Outcome.ret MailCode.MAIL_CONTINUE mctx
  | n + 1, mctx =>
    match mail_deliver env mctx none none with
    | Outcome.ret MailCode.MAIL_CONTINUE mctx1 => deliver_calls env n mctx1
    | o => o

/-- The mail as the deliverer of `dctx` sees it: lines wrapped with newlines and the
tag `action` set to the name of the action. -/
def mail_for_action (env : Env) (m : Mail) (dctx : DeliverCtx) : Mail :=
  { m with
    tags := env.add_tag m.tags "action" dctx.action.name,
    body := env.set_wrapped m.body '\n' }

/-- A context blocked on a reply with id 5. -/
def blocked_mctx : MailCtx :=
  { fresh_mctx [rule_keep 1 none] with
    msgid := 5, dqueue := [⟨mbox_action, sample_account, rule_keep_mbox, 1, 1000⟩] }

/-- A `MSG_DONE` reply with the given id and error field. -/
def done_msg (id : Nat) (error : Int) : Msg :=
  { type := MsgType.MSG_DONE, id := id,
    data := { error := error, account := none, action := none, uid := 0, mail := none } }

/-- A tag buffer with one tag, as it comes with a reply. -/
def reply_msgbuf : Msgbuf :=
  { buf := some [("seen", "1")], len := 2 }

/-- A context whose queue holds two in-child `keep` deliveries. -/
def two_keeps_mctx : MailCtx :=
  { fresh_mctx [] with
    dqueue := [⟨keep_action, sample_account, rule_keep 1 none, 1, 0⟩,
               ⟨keep_action, sample_account, rule_keep 2 none, 1, 0⟩] }

/-- A context whose queue holds one `mbox` delivery, to be run by the parent. -/
def mbox_queued_mctx : MailCtx :=
  { fresh_mctx [] with
    dqueue := [⟨mbox_action, sample_account, rule_keep_mbox, 1, 1000⟩] }

/-- The configuration `sample_env` with deliverers that fail. -/
def failing_env : Env :=
  { sample_env with deliver := fun _ _ m => (DeliverCode.DELIVER_FAILURE, m) }

/-- The context `mbox_queued_mctx` for a mail whose index is 0. -/
def mbox_queued_idx0_mctx : MailCtx :=
  { mbox_queued_mctx with mail := { sample_mail with idx := 0 } }

/-- An outcome without the record of the calls made: the trace of the context is
emptied, the code and every other field are kept. -/
def forget_trace : Outcome → Outcome
  | Outcome.ret code c => Outcome.ret code { c with trace := [] }
  | o => o

/-- The context once a reply with tag buffer `buf` has been taken: `msgid` is 0 and
the tag store of the mail is `buf`. -/
def unblocked (mctx : MailCtx) (buf : Tags) : MailCtx :=
  { mctx with msgid := 0, mail := { mctx.mail with tags := buf } }

/-- A context blocked on the only item of `rule_not_x`, awaiting the reply with
id 5. -/
def blocked_on_item_mctx : MailCtx :=
  { fresh_mctx [rule_not_x] with msgid := 5, expritem := [item_not_x] }

/-- An action `rewrite` that the parent runs and that hands back a new body. -/
def wrback_action : Action :=
  { name := "rewrite", users := none, find_uid := false,
    deliver := { name := "rewrite", type := DeliverType.DELIVER_WRBACK, deliver_fn := true } }

/-- A context blocked on the reply with id 5 for a queued `rewrite` delivery. -/
def blocked_wrback_mctx : MailCtx :=
  { fresh_mctx [] with
    msgid := 5, dqueue := [⟨wrback_action, sample_account, rule_keep 1 none, 1, 0⟩] }

/-- A `MSG_DONE` reply with the given id and error field that brings the mail
`body`. -/
def body_msg (id : Nat) (error : Int) (body : String) : Msg :=
  { type := MsgType.MSG_DONE, id := id,
    data := { error := error, account := none, action := none, uid := 0, mail := some body } }

/-- A message with the given id whose type is `MSG_ACTION`, not `MSG_DONE`. -/
def action_msg (id : Nat) : Msg :=
  { type := MsgType.MSG_ACTION, id := id,
    data := { error := 0, account := none, action := none, uid := 0, mail := none } }

/-- A tag update hook for `Env.update_tags` (the function `update_tags` is not in
the two source files; spec §4.4 calls it "an external collaborator that refreshes
derived tags such as delivery counts"): it sets the derived tag `deliveries`. -/
def counting_hook (tags : Tags) : Tags :=
  tags.filter (fun kv => kv.1 ≠ "deliveries") ++ [("deliveries", "1")]

/-- The configuration `sample_env` with `counting_hook` as tag update hook. -/
def counting_env : Env :=
  { sample_env with update_tags := counting_hook }

/-- One dispatch and its answer: `mail_deliver` sends the action at the head of the
queue, and the reply with the id of the message sent, error field 0 and the buffer
exactly as it was sent is handed to a second call. The value is the tag store before
the first call, the tag store as sent and the tag store after the second call. -/
def round_trip (env : Env) (mctx : MailCtx) : Option (Tags × Tags × Tags) :=
  match mail_deliver env mctx none none with
  | Outcome.ret MailCode.MAIL_BLOCKED c1 =>
    match c1.trace.getLast? with
    | some (Event.send m payload) =>
      match mail_deliver env c1 (some (done_msg m.id 0)) (some payload) with
      | Outcome.ret _ c2 => some (mctx.mail.tags, c1.mail.tags, c2.mail.tags)
      | _ => none
    | _ => none
  | _ => none

/-! ## `weed_users` of parse-fn.c -/

/-- The loop over `j` in `weed_users`: from index `j` on, every item equal to `uid` is
overwritten by `NOUSR`. `fuel` bounds the number of iterations; `none` when it runs
out before the loop ends. -/
def weed_inner (NOUSR uid : Nat) : Nat → Nat → List Nat → Option (List Nat)
  | 0, j, up => if j < up.length then none else some up
  | fuel + 1, j, up =>
    if j < up.length then
      weed_inner NOUSR uid fuel (j + 1) (if up[j]? = some uid then up.set j NOUSR else up)
    else some up

/-- The loop over `i` in `weed_users`, `i < ARRAY_LENGTH(up) - 1`: an item that is
`NOUSR` is passed over, the later copies of any other item are overwritten by
`NOUSR`. Entered with a non-empty array. -/
def weed_outer (NOUSR : Nat) : Nat → Nat → List Nat → Option (List Nat)
  | 0, i, up => if i < up.length - 1 then none else some up
  | fuel + 1, i, up =>
    if i < up.length - 1 then
      match up[i]? with
      | none => none
      | some uid =>
        if uid = NOUSR then weed_outer NOUSR fuel (i + 1) up
        else
          match weed_inner NOUSR uid up.length (i + 1) up with
          | none => none
          | some up1 => weed_outer NOUSR fuel (i + 1) up1
    else some up

/-- The `while` loop of `weed_users`: an item that is `NOUSR` is removed
(`ARRAY_REMOVE`) and the index stays, otherwise the index moves on. -/
def weed_remove (NOUSR : Nat) : Nat → Nat → List Nat → Option (List Nat)
  | 0, i, up => if i < up.length then none else some up
  | fuel + 1, i, up =>
    if i < up.length then
      if up[i]? = some NOUSR then weed_remove NOUSR fuel i (up.eraseIdx i)
      else weed_remove NOUSR fuel (i + 1) up
    else some up

/-- Function `weed_users` of parse-fn.c on the array `up`; `NOUSR` is the constant of
that name. Each loop gets as fuel the length of the array it starts on. -/
def weed_users (NOUSR : Nat) (up : List Nat) : Option (List Nat) :=
  if up.length = 0 then some up
  else
    match weed_outer NOUSR up.length 0 up with
    | none => none
    | some up1 => weed_remove NOUSR up1.length 0 up1

/-- The uids of a list, each once, in the order of their first occurrence. -/
def first_occurrences : List Nat → List Nat
  | [] => []
  | x :: xs => x :: (first_occurrences xs).filter (fun y => y ≠ x)

/-- The expression cursor is `NULL` or stands at an item of the expression of the
current rule: `expritem` is empty or a suffix of the rule's item list. -/
def in_expression (c : MailCtx) : Prop :=
  c.expritem = [] ∨
    ∃ r rest items, c.rule = r :: rest ∧ r.expr = some items ∧ c.expritem <:+ items

/-- How a call that returns before label `skip` may move the expression cursor: not
at all, one item on, or from `NULL` to the first or the second item of the current
rule's expression. -/
def cursor_step (c c1 : MailCtx) : Prop :=
  c1.expritem = c.expritem ∨ (∃ e, c.expritem = e :: c1.expritem) ∨
    (c.expritem = [] ∧ ∃ r rest items, c.rule = r :: rest ∧ r.expr = some items ∧
      (c1.expritem = items ∨ ∃ e, items = e :: c1.expritem))

/-- A run of `mail_deliver` calls, each with the reply (if any) handed to it, made one
after the other on the context the previous call left; `none` when a call does not
return. -/
def deliver_seq (env : Env) : List (Option Msg × Option Msgbuf) → MailCtx → Option MailCtx
  | [], c => some c
  | (msg, msgbuf) :: calls, c =>
    match mail_deliver env c msg msgbuf with
    | Outcome.ret _ c1 => deliver_seq env calls c1
    | _ => none

/-- A blocked context awaits the reply for the entry at the head of its queue: when
`msgid` is not 0 the queue is not empty and the last thing the context did was to
send the action, account and uid of the head entry under the id `msgid`. -/
def awaits_head (c : MailCtx) : Prop :=
  c.msgid ≠ 0 →
    ∃ d q sent payload tr, c.dqueue = d :: q ∧ c.trace = tr ++ [Event.send sent payload] ∧
      sent.type = MsgType.MSG_ACTION ∧ sent.id = c.msgid ∧
      sent.data.action = some d.action ∧ sent.data.account = some d.account ∧
      sent.data.uid = d.uid

/-- The stop rule `match all tag "k" value "v" actions "keep" "nosuch" "mbox"`: the
second template matches no action of `sample_env`. -/
def rule_keep_nosuch_mbox : Rule :=
  Rule.mk 10 none none false none ⟨some "k"⟩ ⟨some "v"⟩
    [⟨some "keep"⟩, ⟨some "nosuch"⟩, ⟨some "mbox"⟩] [] true

/-- The entry point the scheduler calls next for a context: `mail_match` while the
context is on the match queue, `mail_deliver` while it is on the deliver queue. -/
inductive Phase where
  | matching
  | delivering

/-- The scheduler loop for one context, after spec §6 "Return-code surfaces to the
scheduler" (the scheduler itself is not in the two source files): call `mail_match`;
on `MAIL_CONTINUE` call it again, on `MAIL_DELIVER` go over to `mail_deliver`; there,
on `MAIL_CONTINUE` call it again, on `MAIL_MATCH` go back to `mail_match`; every
other outcome ends the run (no reply ever comes here). `fuel` bounds the number of
calls; the value is `none` when it runs out, else how the last call ended. -/
def scheduler (env : Env) : Nat → Phase → MailCtx → Option Outcome
  | 0, _, _ => none
  | fuel + 1, Phase.matching, c =>
    match mail_match env c none none with
    | Outcome.ret MailCode.MAIL_CONTINUE c1 => scheduler env fuel Phase.matching c1
    | Outcome.ret MailCode.MAIL_DELIVER c1 => scheduler env fuel Phase.delivering c1
    | o => some o
  | fuel + 1, Phase.delivering, c =>
    match mail_deliver env c none none with
    | Outcome.ret MailCode.MAIL_CONTINUE c1 => scheduler env fuel Phase.delivering c1
    | Outcome.ret MailCode.MAIL_MATCH c1 => scheduler env fuel Phase.matching c1
    | o => some o

mutual
/-- The work a rule can cause: two calls' worth for the rule itself, one per item of
its expression, and the work of the rules nested in it. -/
def rule_weight : Rule → Nat
  | Rule.mk _ _ _ _ e _ _ _ rules _ => 2 + (e.getD []).length + rules_weight rules
/-- The work of a list of rules. -/
def rules_weight : List Rule → Nat
  | [] => 0
  | r :: rs => rule_weight r + rules_weight rs
end

/-- A bound on the calls of `mail_match` still to come for a context: the items left
of the current rule, its nested rules, and the rules still to go. -/
def work_left (c : MailCtx) : Nat :=
  match c.rule with
  | [] => 0
  | r :: rest =>
    (if c.expritem = [] then 2 + (r.expr.getD []).length else 1 + c.expritem.length) +
      rules_weight r.rules + rules_weight (to_go rest c.stack)

/-- Every action template of every rule of the list, nested rules included, matches
some action of the action table, whatever the tag store and the mail. -/
def templates_match (env : Env) (rules : List Rule) : Prop :=
  ∀ r ∈ preorder_list rules, ∀ rs ∈ r.actions, ∀ (tags : Tags) (m : Mail),
    match_actions env (env.replacestr rs tags m) ≠ []

/-- A ruleset with a nested rule and an expression: rule 1 (`match all`, nested rule
2 with action `keep`), then rule `rule_y_and_x_or_y`. -/
def nested_keep_rules : List Rule :=
  [rule_all 1 [rule_keep 2 none] false, rule_y_and_x_or_y]

/-- The configuration `sample_env` with the in-child action `keep` only. -/
def inchild_env : Env :=
  { sample_env with actions := [keep_action] }

end Fdm

namespace Fdm

/-! ## Frame lemmas -/

theorem fill_users_eq (t : Action) (a : Account) (r : Rule) (m : Mail) (users : List Nat)
    (q : List DeliverCtx) :
    fill_users t a r m users q = q ++ users.map (fun uid => ⟨t, a, r, m.addr, uid⟩) := by
  induction users generalizing q with
  | nil => simp [fill_users]
  | cons u us ih => simp [fill_users, ih]

theorem find_delivery_users_congr (env : Env) (c d : MailCtx) (t : Action)
    (hr : d.rule = c.rule) (ha : d.account = c.account) (hm : d.mail = c.mail) :
    find_delivery_users env d t = find_delivery_users env c t := by
  simp only [find_delivery_users, hr, ha, hm]

theorem find_delivery_users_isSome (env : Env) (c : MailCtx) (t : Action) (r : Rule)
    (rest : List Rule) (hr : c.rule = r :: rest) :
    ∃ us, find_delivery_users env c t = some us := by
  simp only [find_delivery_users, hr]
  split <;> simp

theorem fill_actions_eq (env : Env) (c : MailCtx) (r r0 : Rule) (rest : List Rule)
    (hr : c.rule = r0 :: rest) (ta : List Action) (q : List DeliverCtx) :
    fill_actions env c r ta q =
      some (q ++ ta.flatMap (fun t =>
        ((find_delivery_users env c t).getD []).map (fun uid => new_dctx c r t uid))) := by
  induction ta generalizing q with
  | nil => simp [fill_actions]
  | cons t ta ih =>
    obtain ⟨us, hus⟩ := find_delivery_users_isSome env c t r0 rest hr
    simp [fill_actions, hus, ih, fill_users_eq, new_dctx]

theorem expected_dctxs_congr (env : Env) (c d : MailCtx) (r : Rule) (tpl : List ReplStr)
    (hr : d.rule = c.rule) (ha : d.account = c.account) (hm : d.mail = c.mail) :
    expected_dctxs env d r tpl = expected_dctxs env c r tpl := by
  simp only [expected_dctxs, new_dctx, find_delivery_users, hr, ha, hm]

theorem fill_actions_queue (env : Env) (c : MailCtx) (r r0 : Rule) (rest : List Rule)
    (hr : c.rule = r0 :: rest) (ta : List Action) (q0 q : List DeliverCtx) :
    fill_actions env { c with dqueue := q0 } r ta q =
      some (q ++ ta.flatMap (fun t =>
        ((find_delivery_users env c t).getD []).map (fun uid => new_dctx c r t uid))) := by
  rw [fill_actions_eq env { c with dqueue := q0 } r r0 rest hr]
  simp only [find_delivery_users, new_dctx]

theorem fill_templates_frame_queue (env : Env) (r r0 : Rule) (rest : List Rule)
    (c : MailCtx) (hr : c.rule = r0 :: rest) (tpl : List ReplStr) (q0 : List DeliverCtx)
    (tr0 : List Event) :
    ∃ rc q tr, fill_templates env r tpl { c with dqueue := q0, trace := tr0 } =
      some (rc, { c with dqueue := q, trace := tr0 ++ tr }) := by
  induction tpl generalizing q0 with
  | nil => exact ⟨0, q0, [], by simp [fill_templates]⟩
  | cons rs tpl ih =>
    simp only [fill_templates]
    split
    · exact ⟨1, q0, _, rfl⟩
    · have h := fill_actions_queue env { c with trace := tr0 } r r0 rest hr
        (match_actions env (env.replacestr rs c.mail.tags c.mail)) q0 q0
      simp only at h
      rw [h]
      simp only
      exact ih _

theorem fill_templates_frame (env : Env) (r r0 : Rule) (rest : List Rule)
    (tpl : List ReplStr) (c : MailCtx) (hr : c.rule = r0 :: rest) :
    ∃ rc q tr, fill_templates env r tpl c =
      some (rc, { c with dqueue := q, trace := c.trace ++ tr }) :=
  fill_templates_frame_queue env r r0 rest c hr tpl c.dqueue c.trace

theorem fill_templates_all_matched_queue (env : Env) (r r0 : Rule) (rest : List Rule)
    (c : MailCtx) (hr : c.rule = r0 :: rest) (tpl : List ReplStr) (q0 : List DeliverCtx)
    (hall : ∀ rs ∈ tpl, match_actions env (env.replacestr rs c.mail.tags c.mail) ≠ []) :
    fill_templates env r tpl { c with dqueue := q0 } =
      some (0, { c with dqueue := q0 ++ expected_dctxs env c r tpl }) := by
  induction tpl generalizing q0 with
  | nil => simp [fill_templates, expected_dctxs]
  | cons rs tpl ih =>
    have h1 : match_actions env (env.replacestr rs c.mail.tags c.mail) ≠ [] :=
      hall rs (List.mem_cons_self _ _)
    have h2 : ∀ x ∈ tpl, match_actions env (env.replacestr x c.mail.tags c.mail) ≠ [] :=
      fun x hx => hall x (List.mem_cons_of_mem _ hx)
    simp only [fill_templates, List.isEmpty_iff, h1, if_false]
    have h := fill_actions_queue env c r r0 rest hr
      (match_actions env (env.replacestr rs c.mail.tags c.mail)) q0 q0
    simp only at h
    rw [h]
    simp only
    rw [ih _ h2]
    simp [expected_dctxs, List.append_assoc]

theorem fill_templates_all_matched (env : Env) (r r0 : Rule) (rest : List Rule)
    (tpl : List ReplStr) (c : MailCtx) (hr : c.rule = r0 :: rest)
    (hall : ∀ rs ∈ tpl, match_actions env (env.replacestr rs c.mail.tags c.mail) ≠ []) :
    fill_templates env r tpl c =
      some (0, { c with dqueue := c.dqueue ++ expected_dctxs env c r tpl }) :=
  fill_templates_all_matched_queue env r r0 rest c hr tpl c.dqueue hall

theorem tag_mail_frame (env : Env) (c : MailCtx) (r : Rule) :
    ∃ tags, tag_mail env c r = { c with mail := { c.mail with tags := tags } } := by
  unfold tag_mail
  dsimp only
  split
  · split
    · split
      · exact ⟨_, rfl⟩
      · exact ⟨c.mail.tags, rfl⟩
    · exact ⟨c.mail.tags, rfl⟩
  · exact ⟨c.mail.tags, rfl⟩

theorem next_rule_eq (c : MailCtx) (e : MailCode) (r : Rule) (rest : List Rule)
    (hr : c.rule = r :: rest) :
    next_rule c e =
      Outcome.ret e
        { c with rule := (pop_stack rest c.stack).1, stack := (pop_stack rest c.stack).2 } := by
  simp [next_rule, hr]

theorem skip_nomatch (env : Env) (c : MailCtx) (hres : c.result = false) :
    skip env c = next_rule c MailCode.MAIL_CONTINUE := by
  simp [skip, hres]

theorem skip_nested (env : Env) (c : MailCtx) (r : Rule) (rest : List Rule)
    (hres : c.result = true) (hr : c.rule = r :: rest) (hn : r.rules ≠ []) :
    skip env c =
      Outcome.ret MailCode.MAIL_CONTINUE
        { c with matched := true, done := (c.done || r.stop),
                 stack := ⟨r, rest⟩ :: c.stack, rule := r.rules } := by
  cases hs : r.stop <;> simp [skip, hres, hr, hn, hs]

theorem skip_leaf (env : Env) (c : MailCtx) (r : Rule) (rest : List Rule)
    (hres : c.result = true) (hr : c.rule = r :: rest) (hn : r.rules = []) :
    ∃ tags q tr code,
      skip env c =
        (if code = MailCode.MAIL_ERROR then
          Outcome.ret MailCode.MAIL_ERROR
            { c with matched := true, done := (c.done || r.stop),
                     mail := { c.mail with tags := tags }, dqueue := q,
                     trace := c.trace ++ tr }
        else
          next_rule
            { c with matched := true, done := (c.done || r.stop),
                     mail := { c.mail with tags := tags }, dqueue := q,
                     trace := c.trace ++ tr } code) ∧
      (code = MailCode.MAIL_ERROR ∨ code = MailCode.MAIL_DELIVER ∨
        code = MailCode.MAIL_CONTINUE) := by
  obtain ⟨mail, acct, rule, stack, ei, result, done, matched, dq, msgid, tr0⟩ := c
  simp only at hres hr
  subst hres hr
  obtain ⟨tags, htag⟩ := tag_mail_frame env
    ⟨mail, acct, r :: rest, stack, ei, true, (done || r.stop), true, dq, msgid, tr0⟩ r
  have hskip : skip env ⟨mail, acct, r :: rest, stack, ei, true, done, matched, dq, msgid, tr0⟩ =
      (if !r.actions.isEmpty then
        match fill_delivery_queue env
            ⟨{ mail with tags := tags }, acct, r :: rest, stack, ei, true, (done || r.stop), true,
              dq, msgid, tr0⟩ r with
        | none => Outcome.fault
        | some (rc, mctx) =>
          if rc ≠ 0 then Outcome.ret MailCode.MAIL_ERROR mctx
          else next_rule mctx MailCode.MAIL_DELIVER
      else next_rule
        ⟨{ mail with tags := tags }, acct, r :: rest, stack, ei, true, (done || r.stop), true,
          dq, msgid, tr0⟩ MailCode.MAIL_CONTINUE) := by
    rw [← htag]
    cases hs : r.stop <;> simp [skip, hn, hs]
  rw [hskip]
  by_cases ha : r.actions.isEmpty = true
  · refine ⟨tags, dq, [], MailCode.MAIL_CONTINUE, ?_, by simp⟩
    simp [ha]
  · obtain ⟨rc, q, tr, hfill⟩ := fill_templates_frame env r r rest r.actions
      ⟨{ mail with tags := tags }, acct, r :: rest, stack, ei, true, (done || r.stop), true,
        dq, msgid, tr0⟩ rfl
    by_cases hrc : rc = 0
    · refine ⟨tags, q, tr, MailCode.MAIL_DELIVER, ?_, by simp⟩
      simp [ha, fill_delivery_queue, hfill, hrc]
    · refine ⟨tags, q, tr, MailCode.MAIL_ERROR, ?_, by simp⟩
      simp [ha, fill_delivery_queue, hfill, hrc]

theorem adjust_result_frame (ei : ExprItem) (code : MatchCode) (c : MailCtx) :
    ∃ b, adjust_result ei code c = { c with result := b } := by
  unfold adjust_result
  split
  · split
    · exact ⟨true, rfl⟩
    · exact ⟨c.result, rfl⟩
  · split
    · exact ⟨false, rfl⟩
    · exact ⟨c.result, rfl⟩
  · exact ⟨c.result, rfl⟩

theorem next_expritem_skip (c c1 : MailCtx) (h : next_expritem c = Jump.skip c1) :
    c1 = { c with expritem := [] } := by
  unfold next_expritem at h
  split at h
  · cases h
  · rename_i e next hnext
    by_cases hn : next = []
    · subst hn
      simp at h
      exact h.symm
    · simp [hn] at h

theorem check_expritem_skip (env : Env) (c c1 : MailCtx)
    (h : check_expritem env c = Jump.skip c1) :
    ∃ b id tr, c1 = { c with result := b, expritem := [], msgid := id, trace := tr } := by
  unfold check_expritem at h
  split at h
  · cases h
  · rename_i ei rest hei
    dsimp only at h
    split at h
    · cases h
    · cases h
    · obtain ⟨b, hb⟩ := adjust_result_frame ei MatchCode.MATCH_TRUE
        { c with msgid := (env.match_fn ei c).msgid, trace := c.trace ++ [Event.matcher ei] }
      rw [hb] at h
      exact ⟨b, _, _, next_expritem_skip _ _ h⟩
    · obtain ⟨b, hb⟩ := adjust_result_frame ei MatchCode.MATCH_FALSE
        { c with msgid := (env.match_fn ei c).msgid, trace := c.trace ++ [Event.matcher ei] }
      rw [hb] at h
      exact ⟨b, _, _, next_expritem_skip _ _ h⟩

theorem match_blocked_skip (env : Env) (c c1 : MailCtx) (msg : Option Msg)
    (msgbuf : Option Msgbuf) (h : match_blocked env c msg msgbuf = Jump.skip c1) :
    ∃ b tags, c1 = { c with result := b, expritem := [], msgid := 0,
                            mail := { c.mail with tags := tags } } := by
  unfold match_blocked at h
  split at h
  · cases h
  · split at h
    · cases h
    · dsimp only at h
      split at h
      · cases h
      · split at h
        · cases h
        · split at h
          · cases h
          · split at h
            · cases h
            · split at h
              · cases h
              · split at h
                · cases h
                · rename_i ei rest hei
                  obtain ⟨b, hb⟩ := adjust_result_frame ei MatchCode.MATCH_TRUE
                    { c with msgid := 0, mail := { c.mail with tags := _ } }
                  rw [hb] at h
                  exact ⟨b, _, next_expritem_skip _ _ h⟩
              · split at h
                · cases h
                · rename_i ei rest hei
                  obtain ⟨b, hb⟩ := adjust_result_frame ei MatchCode.MATCH_FALSE
                    { c with msgid := 0, mail := { c.mail with tags := _ } }
                  rw [hb] at h
                  exact ⟨b, _, next_expritem_skip _ _ h⟩
              · cases h

theorem start_expr_skip (env : Env) (c c1 : MailCtx) (r : Rule) (hei : c.expritem = [])
    (h : start_expr env c r = Jump.skip c1) :
    ∃ b id tr, c1 = { c with result := b, expritem := [], msgid := id, trace := tr } := by
  obtain ⟨mail, acct, rule, stack, ei, result, done, matched, dq, msgid, tr0⟩ := c
  simp only at hei
  subst hei
  unfold start_expr at h
  split at h
  · cases h
    exact ⟨false, msgid, tr0, rfl⟩
  · split at h
    · cases h
      exact ⟨true, msgid, tr0, rfl⟩
    · cases h
      exact ⟨true, msgid, tr0, rfl⟩
    · obtain ⟨b, id, tr, hc⟩ := check_expritem_skip env _ c1 h
      exact ⟨b, id, tr, hc⟩

/-- The context at label `skip` differs from the context on entry at most in the
result, the expression cursor (now `NULL`), `msgid`, the trace, the tag store and the
wrapped body; without a pending reply the tag store is the one on entry. -/
theorem to_skip_frame (env : Env) (c c1 : MailCtx) (msg : Option Msg) (msgbuf : Option Msgbuf)
    (h : mail_match_to_skip env c msg msgbuf = Jump.skip c1) :
    ∃ b id tr tags,
      c1 = { c with result := b, expritem := [], msgid := id, trace := tr,
                    mail := { c.mail with tags := tags,
                                          body := env.set_wrapped c.mail.body ' ' } } ∧
      (c.msgid = 0 → tags = c.mail.tags) := by
  obtain ⟨mail, acct, rule, stack, ei, result, done, matched, dq, msgid, tr0⟩ := c
  unfold mail_match_to_skip at h
  simp only [wrap] at h
  split at h
  · rename_i hid
    obtain ⟨b, tags, hc⟩ := match_blocked_skip env _ c1 msg msgbuf h
    exact ⟨b, 0, tr0, tags, hc, fun h0 => absurd h0 hid⟩
  · split at h
    · cases h
    · split at h
      · unfold end_of_ruleset at h
        split at h <;> cases h
      · split at h
        · obtain ⟨b, id, tr, hc⟩ := start_expr_skip env _ c1 _ rfl h
          exact ⟨b, id, tr, mail.tags, hc, fun _ => rfl⟩
        · obtain ⟨b, id, tr, hc⟩ := check_expritem_skip env _ c1 h
          exact ⟨b, id, tr, mail.tags, hc, fun _ => rfl⟩

theorem resume_rule_cons_cons (r1 r2 : List Rule) (t p : RuleNode) (ps : List RuleNode) :
    resume_rule r1 (t :: p :: ps) = resume_rule r2 (p :: ps) := by
  have hl : (p :: ps).getLast? = some ((p :: ps).getLast (by simp)) :=
    List.getLast?_eq_getLast _ _
  simp [resume_rule, List.getLast?_cons_cons, hl]

theorem pop_stack_spec (rule : List Rule) (stack : List RuleNode) :
    ∃ popped kept, stack = popped ++ kept ∧ (rule ≠ [] → popped = []) ∧
      (∀ a ∈ popped.dropLast, a.next = []) ∧
      pop_stack rule stack = (resume_rule rule popped, kept) ∧
      (resume_rule rule popped = [] → kept = []) := by
  induction stack generalizing rule with
  | nil =>
    refine ⟨[], [], rfl, fun _ => rfl, by simp, ?_, fun _ => rfl⟩
    cases rule <;> simp [pop_stack, resume_rule]
  | cons top st ih =>
    cases rule with
    | cons x xs =>
      exact ⟨[], top :: st, rfl, fun _ => rfl, by simp, by simp [pop_stack, resume_rule],
        by simp [resume_rule]⟩
    | nil =>
      obtain ⟨popped, kept, hst, hne, hall, hpop, hres⟩ := ih top.next
      refine ⟨top :: popped, kept, by simp [hst], by simp, ?_, ?_, ?_⟩
      · intro a ha
        cases popped with
        | nil => simp at ha
        | cons p ps =>
          have htop : top.next = [] := by
            by_contra hcon
            exact absurd (hne hcon) (by simp)
          simp only [List.dropLast_cons₂, List.mem_cons] at ha
          rcases ha with ha | ha
          · rw [ha]; exact htop
          · exact hall a ha
      · simp only [pop_stack, hpop]
        cases popped with
        | nil => simp [resume_rule]
        | cons p ps => rw [resume_rule_cons_cons [] top.next]
      · cases popped with
        | nil => simpa [resume_rule] using hres
        | cons p ps =>
          rw [resume_rule_cons_cons [] top.next]
          exact hres

theorem skip_code (env : Env) (c c1 : MailCtx) (code : MailCode)
    (h : skip env c = Outcome.ret code c1) :
    code = MailCode.MAIL_CONTINUE ∨ code = MailCode.MAIL_DELIVER ∨
      code = MailCode.MAIL_ERROR := by
  cases hrule : c.rule with
  | nil =>
    cases hres : c.result <;> simp [skip, next_rule, hrule, hres] at h
  | cons r rest =>
    cases hres : c.result with
    | false =>
      rw [skip_nomatch env c hres, next_rule_eq c _ r rest hrule] at h
      cases h
      exact Or.inl rfl
    | true =>
      by_cases hn : r.rules = []
      · obtain ⟨tags, q, tr, code1, hs, hcode⟩ := skip_leaf env c r rest hres hrule hn
        rw [hs] at h
        split at h
        · cases h
          exact Or.inr (Or.inr rfl)
        · simp only [next_rule, hrule, Outcome.ret.injEq] at h
          obtain ⟨h1, _⟩ := h
          subst h1
          rcases hcode with hc | hc | hc
          · exact Or.inr (Or.inr hc)
          · exact Or.inr (Or.inl hc)
          · exact Or.inl hc
      · rw [skip_nested env c r rest hres hrule hn] at h
        cases h
        exact Or.inl rfl

theorem next_expritem_ret (c c1 : MailCtx) (code : MailCode)
    (h : next_expritem c = Jump.ret (Outcome.ret code c1)) : code = MailCode.MAIL_CONTINUE := by
  unfold next_expritem at h
  split at h
  · cases h
  · dsimp only at h
    split at h
    · cases h
      rfl
    · cases h

theorem check_expritem_ret (env : Env) (c c1 : MailCtx) (code : MailCode)
    (h : check_expritem env c = Jump.ret (Outcome.ret code c1)) :
    code ≠ MailCode.MAIL_DONE := by
  unfold check_expritem at h
  split at h
  · cases h
  · dsimp only at h
    split at h
    · cases h
      simp
    · cases h
      simp
    · rw [next_expritem_ret _ _ _ h]
      simp
    · rw [next_expritem_ret _ _ _ h]
      simp

theorem match_blocked_ret (env : Env) (c c1 : MailCtx) (msg : Option Msg)
    (msgbuf : Option Msgbuf) (code : MailCode)
    (h : match_blocked env c msg msgbuf = Jump.ret (Outcome.ret code c1)) :
    code ≠ MailCode.MAIL_DONE := by
  unfold match_blocked at h
  split at h
  · cases h
    simp
  · split at h
    · cases h
      simp
    · dsimp only at h
      split at h
      · cases h
      · split at h
        · cases h
        · split at h
          · cases h
          · split at h
            · cases h
            · split at h
              · cases h
                simp
              · split at h
                · cases h
                · rw [next_expritem_ret _ _ _ h]
                  simp
              · split at h
                · cases h
                · rw [next_expritem_ret _ _ _ h]
                  simp
              · cases h

theorem start_expr_ret (env : Env) (c c1 : MailCtx) (r : Rule) (code : MailCode)
    (h : start_expr env c r = Jump.ret (Outcome.ret code c1)) :
    code ≠ MailCode.MAIL_DONE := by
  unfold start_expr at h
  split at h
  · cases h
  · split at h
    · cases h
    · cases h
    · exact check_expritem_ret env _ c1 code h

theorem end_of_ruleset_spec (env : Env) (c : MailCtx) :
    ∃ d tr, end_of_ruleset env c =
        Outcome.ret MailCode.MAIL_DONE
          { c with mail := { c.mail with decision := d }, trace := tr } ∧
      (d = Decision.DECISION_KEEP ∨ d = Decision.DECISION_DROP) ∧
      (env.impl_act = Decision.DECISION_NONE ∨ env.impl_act = Decision.DECISION_KEEP →
        d = Decision.DECISION_KEEP) ∧
      (env.impl_act = Decision.DECISION_DROP → d = Decision.DECISION_DROP) := by
  unfold end_of_ruleset
  split
  · rename_i h
    exact ⟨_, _, rfl, Or.inl rfl, fun _ => rfl, fun h2 => by rw [h] at h2; cases h2⟩
  · rename_i h
    exact ⟨_, c.trace, rfl, Or.inl rfl, fun _ => rfl, fun h2 => by rw [h] at h2; cases h2⟩
  · rename_i h
    refine ⟨_, c.trace, rfl, Or.inr rfl, fun h2 => ?_, fun _ => rfl⟩
    rw [h] at h2
    rcases h2 with h2 | h2 <;> cases h2

/-! ## The claims -/

/-- C3: with `msgid = 0`, `done` unset and no rule left, `mail_match` returns
`MAIL_DONE`; the decision is `KEEP` when the implicit action is `NONE` or `KEEP` and
`DROP` when it is `DROP`; rule, stack, delivery queue and tag store are as before. -/
theorem mail_match_end_of_ruleset (env : Env) (mctx : MailCtx) (msg : Option Msg)
    (msgbuf : Option Msgbuf) (hmsgid : mctx.msgid = 0) (hdone : mctx.done = false)
    (hrule : mctx.rule = []) :
    ∃ c, mail_match env mctx msg msgbuf = Outcome.ret MailCode.MAIL_DONE c ∧
      (env.impl_act = Decision.DECISION_NONE ∨ env.impl_act = Decision.DECISION_KEEP →
        c.mail.decision = Decision.DECISION_KEEP) ∧
      (env.impl_act = Decision.DECISION_DROP → c.mail.decision = Decision.DECISION_DROP) ∧
      c.rule = mctx.rule ∧ c.stack = mctx.stack ∧ c.dqueue = mctx.dqueue ∧
      c.mail.tags = mctx.mail.tags := by
  obtain ⟨d, tr, he, _, hk, hd⟩ := end_of_ruleset_spec env (wrap env mctx ' ')
  refine ⟨{ wrap env mctx ' ' with
            mail := { (wrap env mctx ' ').mail with decision := d }, trace := tr },
    ?_, hk, hd, rfl, rfl, rfl, rfl⟩
  rw [← he]
  simp [mail_match, mail_match_to_skip, wrap, hmsgid, hdone, hrule]

/-- Witness of C3: the empty ruleset under the implicit action `NONE`. -/
theorem mail_match_end_of_ruleset_witness :
    (fresh_mctx []).msgid = 0 ∧ (fresh_mctx []).done = false ∧ (fresh_mctx []).rule = [] ∧
    ∃ c, mail_match sample_env (fresh_mctx []) none none = Outcome.ret MailCode.MAIL_DONE c ∧
      (sample_env.impl_act = Decision.DECISION_NONE ∨
        sample_env.impl_act = Decision.DECISION_KEEP →
          c.mail.decision = Decision.DECISION_KEEP) ∧
      (sample_env.impl_act = Decision.DECISION_DROP →
        c.mail.decision = Decision.DECISION_DROP) ∧
      c.rule = (fresh_mctx []).rule ∧ c.stack = (fresh_mctx []).stack ∧
      c.dqueue = (fresh_mctx []).dqueue ∧ c.mail.tags = (fresh_mctx []).mail.tags :=
  ⟨rfl, rfl, rfl, mail_match_end_of_ruleset sample_env (fresh_mctx []) none none rfl rfl rfl⟩

theorem to_skip_ret_done (env : Env) (c c1 : MailCtx) (msg : Option Msg)
    (msgbuf : Option Msgbuf)
    (h : mail_match_to_skip env c msg msgbuf = Jump.ret (Outcome.ret MailCode.MAIL_DONE c1)) :
    c.msgid = 0 ∧
      ((c.done = true ∧ c1 = wrap env c ' ') ∨
        (c.done = false ∧ c.rule = [] ∧
          end_of_ruleset env (wrap env c ' ') = Outcome.ret MailCode.MAIL_DONE c1)) := by
  unfold mail_match_to_skip at h
  dsimp only at h
  split at h
  · exact absurd rfl (match_blocked_ret env _ c1 msg msgbuf _ h)
  · rename_i hid
    have hid0 : c.msgid = 0 := by simpa [wrap] using hid
    refine ⟨hid0, ?_⟩
    split at h
    · rename_i hd
      cases h
      exact Or.inl ⟨by simpa [wrap] using hd, rfl⟩
    · rename_i hd
      have hd0 : c.done = false := by simpa [wrap] using hd
      split at h
      · rename_i hr
        simp only [Jump.ret.injEq] at h
        exact Or.inr ⟨hd0, by simpa [wrap] using hr, h⟩
      · split at h
        · exact absurd rfl (start_expr_ret env _ c1 _ _ h)
        · exact absurd rfl (check_expritem_ret env _ c1 _ h)

/-- C4 (as amended): when `mail_match` returns `MAIL_DONE`, either `done` was unset on
entry and the end of the ruleset was reached, and then the decision is `KEEP` or
`DROP`; or `done` was set on entry, and then the decision is the one the mail had on
entry. -/
theorem mail_match_done_decision (env : Env) (mctx : MailCtx) (msg : Option Msg)
    (msgbuf : Option Msgbuf) (c : MailCtx)
    (h : mail_match env mctx msg msgbuf = Outcome.ret MailCode.MAIL_DONE c) :
    (mctx.done = false ∧ mctx.rule = [] ∧
        (c.mail.decision = Decision.DECISION_KEEP ∨
          c.mail.decision = Decision.DECISION_DROP)) ∨
      (mctx.done = true ∧ c.mail.decision = mctx.mail.decision) := by
  unfold mail_match at h
  split at h
  · rename_i o ho
    subst h
    obtain ⟨_, hcase⟩ := to_skip_ret_done env mctx c msg msgbuf ho
    rcases hcase with ⟨hd, hc⟩ | ⟨hd, hr, he⟩
    · exact Or.inr ⟨hd, by rw [hc]; rfl⟩
    · obtain ⟨d, tr, he2, hd2, _, _⟩ := end_of_ruleset_spec env (wrap env mctx ' ')
      rw [he2] at he
      cases he
      exact Or.inl ⟨hd, hr, hd2⟩
  · rcases skip_code env _ c _ h with hc | hc | hc <;> cases hc

/-- Witness of C4 as amended: the empty ruleset, where the end of the ruleset assigns
`KEEP`. -/
theorem mail_match_done_decision_witness :
    mail_match sample_env (fresh_mctx []) none none = Outcome.ret MailCode.MAIL_DONE kept_mctx ∧
    (((fresh_mctx []).done = false ∧ (fresh_mctx []).rule = [] ∧
        (kept_mctx.mail.decision = Decision.DECISION_KEEP ∨
          kept_mctx.mail.decision = Decision.DECISION_DROP)) ∨
      ((fresh_mctx []).done = true ∧
        kept_mctx.mail.decision = (fresh_mctx []).mail.decision)) :=
  ⟨rfl, mail_match_done_decision sample_env (fresh_mctx []) none none kept_mctx rfl⟩

/-- C4 (counterexample to the claim as written): with `done` set and a mail whose
decision is still `DECISION_NONE`, `mail_match` returns `MAIL_DONE` and the decision
is `DECISION_NONE` afterwards. -/
theorem done_flag_leaves_decision_unassigned :
    (mail_match sample_env stopped_undecided_mctx none none).code? =
        some MailCode.MAIL_DONE ∧
      (mail_match sample_env stopped_undecided_mctx none none).mctx?.map
          (fun c => c.mail.decision) = some Decision.DECISION_NONE :=
  ⟨rfl, rfl⟩

/-- C5: (a) when a rule with `stop` set matches (control reaches label `skip` with the
result set), the call returns with `done` set, nested rules or not; (b) with `done`
set and `msgid = 0` a call returns `MAIL_DONE`, calls no matcher (the trace is as
before) and leaves rule, stack, expression cursor, delivery queue, tag store and
decision alone; `done` and `msgid` stay as they are, so the same holds for every
later call. -/
theorem stop_rule_ends_matching (env : Env) (mctx : MailCtx) (msg : Option Msg)
    (msgbuf : Option Msgbuf) :
    (∀ c1 r rest, mail_match_to_skip env mctx msg msgbuf = Jump.skip c1 →
      c1.result = true → mctx.rule = r :: rest → r.stop = true →
      ∃ code c, mail_match env mctx msg msgbuf = Outcome.ret code c ∧ c.done = true) ∧
    (mctx.done = true → mctx.msgid = 0 →
      ∃ c, mail_match env mctx msg msgbuf = Outcome.ret MailCode.MAIL_DONE c ∧
        c.trace = mctx.trace ∧ c.rule = mctx.rule ∧ c.stack = mctx.stack ∧
        c.expritem = mctx.expritem ∧ c.dqueue = mctx.dqueue ∧
        c.mail.tags = mctx.mail.tags ∧ c.mail.decision = mctx.mail.decision ∧
        c.done = true ∧ c.msgid = 0) := by
  constructor
  · intro c1 r rest hskip hres hrule hstop
    obtain ⟨b, id, tr, tags, hc1, _⟩ := to_skip_frame env mctx c1 msg msgbuf hskip
    have hrule1 : c1.rule = r :: rest := by rw [hc1]; exact hrule
    simp only [mail_match, hskip]
    by_cases hn : r.rules = []
    · obtain ⟨tags2, q, tr2, code, hs, _⟩ := skip_leaf env c1 r rest hres hrule1 hn
      rw [hs]
      split
      · exact ⟨_, _, rfl, by simp [hstop]⟩
      · simp only [next_rule, hrule1]
        exact ⟨_, _, rfl, by simp [hstop]⟩
    · rw [skip_nested env c1 r rest hres hrule1 hn]
      exact ⟨_, _, rfl, by simp [hstop]⟩
  · intro hdone hid
    refine ⟨wrap env mctx ' ', ?_, rfl, rfl, rfl, rfl, rfl, rfl, rfl, hdone, hid⟩
    simp [mail_match, mail_match_to_skip, wrap, hdone, hid]

/-- Witness of C5: a `match all` stop rule with one nested rule sets `done`, and the
next call returns `MAIL_DONE`. -/
theorem stop_rule_ends_matching_witness :
    (∃ code c, mail_match sample_env (fresh_mctx [rule_all 1 [rule_keep 2 none] true])
        none none = Outcome.ret code c ∧ c.done = true) ∧
    (∃ c, mail_match sample_env stopped_undecided_mctx none none =
        Outcome.ret MailCode.MAIL_DONE c ∧
      c.trace = stopped_undecided_mctx.trace ∧ c.rule = stopped_undecided_mctx.rule ∧
      c.stack = stopped_undecided_mctx.stack ∧
      c.expritem = stopped_undecided_mctx.expritem ∧
      c.dqueue = stopped_undecided_mctx.dqueue ∧
      c.mail.tags = stopped_undecided_mctx.mail.tags ∧
      c.mail.decision = stopped_undecided_mctx.mail.decision ∧
      c.done = true ∧ c.msgid = 0) :=
  ⟨(stop_rule_ends_matching sample_env (fresh_mctx [rule_all 1 [rule_keep 2 none] true])
      none none).1 _ (rule_all 1 [rule_keep 2 none] true) [] rfl rfl rfl rfl,
   (stop_rule_ends_matching sample_env stopped_undecided_mctx none none).2 rfl rfl⟩

/-- C6: when a rule with at least one nested rule matches (control reaches label `skip`
with the result set), `mail_match` returns `MAIL_CONTINUE` with the rule on top of the
stack and `rule` at its first child; the delivery queue is as on entry and no tag is
added: the tag store is the one at label `skip`, which without a pending reply is the
one on entry. -/
theorem nested_descent (env : Env) (mctx : MailCtx) (msg : Option Msg)
    (msgbuf : Option Msgbuf) (c1 : MailCtx) (r : Rule) (rest : List Rule)
    (hskip : mail_match_to_skip env mctx msg msgbuf = Jump.skip c1)
    (hres : c1.result = true) (hrule : mctx.rule = r :: rest) (hnested : r.rules ≠ []) :
    ∃ c, mail_match env mctx msg msgbuf = Outcome.ret MailCode.MAIL_CONTINUE c ∧
      c.stack = ⟨r, rest⟩ :: mctx.stack ∧ c.rule = r.rules ∧
      c.dqueue = mctx.dqueue ∧ c.mail.tags = c1.mail.tags ∧
      (mctx.msgid = 0 → c.mail.tags = mctx.mail.tags) ∧ c.trace = c1.trace := by
  obtain ⟨b, id, tr, tags, hc1, htags⟩ := to_skip_frame env mctx c1 msg msgbuf hskip
  have hrule1 : c1.rule = r :: rest := by rw [hc1]; exact hrule
  simp only [mail_match, hskip]
  rw [skip_nested env c1 r rest hres hrule1 hnested]
  refine ⟨_, rfl, ?_, rfl, ?_, rfl, ?_, rfl⟩
  · rw [hc1]
  · rw [hc1]
  · intro h0
    rw [hc1, htags h0]

/-- Witness of C6: a `match all` rule with one nested rule. -/
theorem nested_descent_witness :
    ∃ c, mail_match sample_env (fresh_mctx [rule_all 1 [rule_keep 2 none] false, rule_keep 3 none])
        none none = Outcome.ret MailCode.MAIL_CONTINUE c ∧
      c.stack = ⟨rule_all 1 [rule_keep 2 none] false, [rule_keep 3 none]⟩ ::
        (fresh_mctx [rule_all 1 [rule_keep 2 none] false, rule_keep 3 none]).stack ∧
      c.rule = (rule_all 1 [rule_keep 2 none] false).rules ∧
      c.dqueue = (fresh_mctx [rule_all 1 [rule_keep 2 none] false, rule_keep 3 none]).dqueue ∧
      c.mail.tags = sample_mail.tags ∧
      ((fresh_mctx [rule_all 1 [rule_keep 2 none] false, rule_keep 3 none]).msgid = 0 →
        c.mail.tags =
          (fresh_mctx [rule_all 1 [rule_keep 2 none] false, rule_keep 3 none]).mail.tags) ∧
      c.trace = [] :=
  nested_descent sample_env (fresh_mctx [rule_all 1 [rule_keep 2 none] false, rule_keep 3 none])
    none none
    { fresh_mctx [rule_all 1 [rule_keep 2 none] false, rule_keep 3 none] with result := true }
    (rule_all 1 [rule_keep 2 none] false) [rule_keep 3 none] rfl rfl rfl (by simp [rule_all, Rule.rules])

/-- C7: the step at label `next_rule`. Some ancestors `popped` (nearest first) leave
the stack and `kept` stays. Nothing is popped when the current rule has a next
sibling; every popped ancestor but the last has no next sibling; evaluation resumes
at the sibling after the last popped ancestor (at the current rule's own sibling when
nothing is popped), never at a popped ancestor; and `rule` is `NULL` afterwards only
if the stack is empty afterwards. -/
theorem next_rule_step (mctx : MailCtx) (error : MailCode) (cur : Rule) (next : List Rule)
    (hrule : mctx.rule = cur :: next) :
    ∃ popped kept, mctx.stack = popped ++ kept ∧
      (next ≠ [] → popped = []) ∧
      (∀ a ∈ popped.dropLast, a.next = []) ∧
      next_rule mctx error =
        Outcome.ret error { mctx with rule := resume_rule next popped, stack := kept } ∧
      (resume_rule next popped = [] → kept = []) := by
  obtain ⟨popped, kept, hst, hne, hall, hpop, hres⟩ := pop_stack_spec next mctx.stack
  refine ⟨popped, kept, hst, hne, hall, ?_, hres⟩
  rw [next_rule_eq mctx error cur next hrule, hpop]

/-- Witness of C7: the current rule and its parent are last in their lists, the
grandparent has a next sibling; two ancestors are popped and evaluation resumes at
rule 9. -/
theorem next_rule_step_witness :
    nested_mctx.rule = rule_keep 5 (some ["other"]) :: [] ∧
    ∃ popped kept, nested_mctx.stack = popped ++ kept ∧
      (([] : List Rule) ≠ [] → popped = []) ∧
      (∀ a ∈ popped.dropLast, a.next = []) ∧
      next_rule nested_mctx MailCode.MAIL_CONTINUE =
        Outcome.ret MailCode.MAIL_CONTINUE
          { nested_mctx with rule := resume_rule [] popped, stack := kept } ∧
      (resume_rule [] popped = [] → kept = []) :=
  ⟨rfl, next_rule_step nested_mctx MailCode.MAIL_CONTINUE (rule_keep 5 (some ["other"])) [] rfl⟩

/-- C9: at the start of a rule (`msgid = 0`, `done` unset, no expression in progress):
(a) when the rule's account list is not empty and none of its patterns matches the
account name, `mail_match` returns `MAIL_CONTINUE` having called no matcher (trace
unchanged), leaves `matched`, `done`, tag store and delivery queue alone, pushes
nothing, and moves to the next rule; (b) when the list is absent or empty the account
is not excluded: a rule without expression reaches label `skip` with the result set,
and a rule with an expression has its first item checked. -/
theorem account_filter (env : Env) (mctx : MailCtx) (msg : Option Msg)
    (msgbuf : Option Msgbuf) (r : Rule) (rest : List Rule)
    (hmsgid : mctx.msgid = 0) (hdone : mctx.done = false) (hrule : mctx.rule = r :: rest)
    (hexpr : mctx.expritem = []) :
    (∀ aa, r.accounts = some aa → aa ≠ [] →
      (∀ an ∈ aa, env.name_match (some an) mctx.account.name = false) →
      ∃ c, mail_match env mctx msg msgbuf = Outcome.ret MailCode.MAIL_CONTINUE c ∧
        c.trace = mctx.trace ∧ c.matched = mctx.matched ∧ c.done = mctx.done ∧
        c.mail.tags = mctx.mail.tags ∧ c.dqueue = mctx.dqueue ∧
        (c.rule, c.stack) = pop_stack rest mctx.stack ∧ c.expritem = []) ∧
    ((r.accounts = none ∨ r.accounts = some []) →
      ((r.expr = none ∨ r.expr = some []) →
        mail_match_to_skip env mctx msg msgbuf =
          Jump.skip { wrap env mctx ' ' with result := true }) ∧
      (∀ ei items, r.expr = some (ei :: items) →
        mail_match_to_skip env mctx msg msgbuf =
          check_expritem env
            { wrap env mctx ' ' with result := false, expritem := ei :: items })) := by
  obtain ⟨mail, acct, rule, stack, ei0, result, done, matched, dq, msgid, tr0⟩ := mctx
  simp only at hmsgid hdone hrule hexpr
  subst hmsgid hdone hrule hexpr
  constructor
  · intro aa haa hne hall
    have hany : aa.any (fun an => env.name_match (some an) acct.name) = false := by
      rw [List.any_eq_false]
      intro an han
      simpa using hall an han
    have h1 : mail_match_to_skip env
        ⟨mail, acct, r :: rest, stack, [], result, false, matched, dq, 0, tr0⟩ msg msgbuf =
        Jump.skip ⟨{ mail with body := env.set_wrapped mail.body ' ' }, acct, r :: rest, stack,
          [], false, false, matched, dq, 0, tr0⟩ := by
      simp [mail_match_to_skip, wrap, start_expr, account_excluded, haa, hne, hany]
    simp only [mail_match, h1]
    rw [skip_nomatch env _ rfl]
    simp only [next_rule]
    exact ⟨_, rfl, rfl, rfl, rfl, rfl, rfl, rfl, rfl⟩
  · intro hacc
    constructor
    · intro he
      rcases hacc with h | h <;> rcases he with he | he <;>
        simp [mail_match_to_skip, wrap, start_expr, account_excluded, h, he]
    · intro ei items he
      rcases hacc with h | h <;>
        simp [mail_match_to_skip, wrap, start_expr, account_excluded, h, he]

/-- Witness of C9: the account `a1` against the account list `["other"]`, and a rule
without account list. -/
theorem account_filter_witness :
    (∃ c, mail_match sample_env
        (fresh_mctx [rule_keep 5 (some ["other"]), rule_keep 6 none]) none none =
          Outcome.ret MailCode.MAIL_CONTINUE c ∧
      c.trace = [] ∧ c.matched = false ∧ c.done = false ∧ c.mail.tags = [] ∧ c.dqueue = [] ∧
      (c.rule, c.stack) = pop_stack [rule_keep 6 none] [] ∧ c.expritem = []) ∧
    (((rule_keep 6 none).expr = none ∨ (rule_keep 6 none).expr = some []) →
      mail_match_to_skip sample_env (fresh_mctx [rule_keep 6 none]) none none =
        Jump.skip { wrap sample_env (fresh_mctx [rule_keep 6 none]) ' ' with result := true }) :=
  ⟨(account_filter sample_env (fresh_mctx [rule_keep 5 (some ["other"]), rule_keep 6 none])
      none none (rule_keep 5 (some ["other"])) [rule_keep 6 none] rfl rfl rfl rfl).1
      ["other"] rfl (by simp) (by decide),
   ((account_filter sample_env (fresh_mctx [rule_keep 6 none]) none none (rule_keep 6 none) []
      rfl rfl rfl rfl).2 (Or.inl rfl)).1⟩

/-- C10: when every action template of the current rule `r` matches at least one named
action, `fill_delivery_queue` returns 0 and the queue is the old queue followed by
`expected_dctxs`: one entry per (template, matching action, uid), by template, then
by the action's place in the action table, then by the uid's place in the resolved
user set; each new entry carries the rule, the account and the mail of the context. -/
theorem fill_delivery_queue_appends (env : Env) (mctx : MailCtx) (r : Rule) (rest : List Rule)
    (hrule : mctx.rule = r :: rest)
    (hall : ∀ rs ∈ r.actions,
      match_actions env (env.replacestr rs mctx.mail.tags mctx.mail) ≠ []) :
    fill_delivery_queue env mctx r =
        some (0, { mctx with dqueue := mctx.dqueue ++ expected_dctxs env mctx r r.actions }) ∧
      (∀ d ∈ expected_dctxs env mctx r r.actions,
        d.rule = r ∧ d.account = mctx.account ∧ d.mail = mctx.mail.addr) := by
  refine ⟨fill_templates_all_matched env r r rest r.actions mctx hrule hall, ?_⟩
  intro d hd
  simp only [expected_dctxs, List.mem_flatMap, List.mem_map] at hd
  obtain ⟨rs, _, t, _, uid, _, hd⟩ := hd
  subst hd
  exact ⟨rfl, rfl, rfl⟩

/-- Witness of C10: the templates `keep` and `mbox`; `keep` has no users of its own
(the default user 0 is taken), `mbox` has the users 1000 and 1001. -/
theorem fill_delivery_queue_appends_witness :
    (∀ rs ∈ rule_keep_mbox.actions,
      match_actions sample_env
        (sample_env.replacestr rs (fresh_mctx [rule_keep_mbox]).mail.tags
          (fresh_mctx [rule_keep_mbox]).mail) ≠ []) ∧
    (fill_delivery_queue sample_env (fresh_mctx [rule_keep_mbox]) rule_keep_mbox =
        some (0, { fresh_mctx [rule_keep_mbox] with
          dqueue := (fresh_mctx [rule_keep_mbox]).dqueue ++
            expected_dctxs sample_env (fresh_mctx [rule_keep_mbox]) rule_keep_mbox
              rule_keep_mbox.actions }) ∧
      (∀ d ∈ expected_dctxs sample_env (fresh_mctx [rule_keep_mbox]) rule_keep_mbox
          rule_keep_mbox.actions,
        d.rule = rule_keep_mbox ∧ d.account = (fresh_mctx [rule_keep_mbox]).account ∧
          d.mail = (fresh_mctx [rule_keep_mbox]).mail.addr)) :=
  ⟨by decide,
   fill_delivery_queue_appends sample_env (fresh_mctx [rule_keep_mbox]) rule_keep_mbox [] rfl
     (by decide)⟩

/-- C1 (the code at the failing input): for `not regexp "^X" or regexp "^Y"` on a mail
that starts with `Y`, the first call of `mail_match` checks item 1, whose matcher
says `FALSE`; the call returns `MAIL_CONTINUE` with `result` still unset, the inverted
flag notwithstanding. For the one-item rule `not regexp "^X"` the rule then does not
match (nothing is queued), whereas `do_expr` yields 1 on the same item. -/
theorem inverted_item_is_not_negated :
    (sample_env.match_fn item_not_x (fresh_mctx [rule_not_x_or_y])).code =
        MatchCode.MATCH_FALSE ∧
      item_not_x.inverted = true ∧
      (mail_match sample_env (fresh_mctx [rule_not_x_or_y]) none none).code? =
        some MailCode.MAIL_CONTINUE ∧
      (mail_match sample_env (fresh_mctx [rule_not_x_or_y]) none none).mctx?.map
          (fun c => (c.result, c.expritem)) = some (false, [item_or_y]) ∧
      (mail_match sample_env (fresh_mctx [rule_not_x]) none none).mctx?.map
          (fun c => (c.result, c.matched, c.dqueue.length)) = some (false, false, 0) ∧
      do_expr sample_env [item_not_x] (fresh_mctx [rule_not_x]) = 1 := by
  decide


theorem adjust_result_code_of (ei : ExprItem) (b : Bool) (c : MailCtx) :
    adjust_result ei (code_of b) c = { c with result := combine ei b c.result } := by
  cases b
  · show adjust_result ei MatchCode.MATCH_FALSE c = _
    by_cases h : ei.op = Op.OP_AND <;> simp [adjust_result, combine, h]
  · show adjust_result ei MatchCode.MATCH_TRUE c = _
    by_cases h : ei.op = Op.OP_NONE ∨ ei.op = Op.OP_OR
    · simp only [adjust_result, combine, h, if_true]
    · simp only [adjust_result, combine, h, if_false, if_true]

theorem combine_eq_apply_op (ei : ExprItem) (b r : Bool)
    (h : ei.op = Op.OP_AND ∨ ei.op = Op.OP_OR) : combine ei b r = apply_op ei.op r b := by
  rcases h with h | h <;> cases b <;> cases r <;> simp [combine, apply_op, h]

theorem combine_none (ei : ExprItem) (b : Bool) (h : ei.op = Op.OP_NONE) :
    combine ei b false = apply_op ei.op false b := by
  cases b <;> simp [combine, apply_op, h]

theorem foldl_combine_eq (v : ExprItem → Bool) (items : List ExprItem) (r : Bool)
    (h : ∀ x ∈ items, x.op = Op.OP_AND ∨ x.op = Op.OP_OR) :
    items.foldl (fun ρ x => combine x (v x) ρ) r =
      items.foldl (fun ρ x => apply_op x.op ρ (v x)) r := by
  induction items generalizing r with
  | nil => rfl
  | cons x xs ih =>
    simp only [List.foldl_cons]
    rw [combine_eq_apply_op x (v x) r (h x (List.mem_cons_self _ _))]
    exact ih _ (fun y hy => h y (List.mem_cons_of_mem _ hy))

theorem match_calls_one (env : Env) (c : MailCtx) :
    match_calls env 1 c = mail_match env c none none := by
  simp only [match_calls]
  split <;> simp_all [match_calls]

/-- The check of item `e` when its matcher yields the verdict `b` and stores no id. -/
theorem check_expritem_verdict (env : Env) (c : MailCtx) (e : ExprItem)
    (es : List ExprItem) (b : Bool) (hei : c.expritem = e :: es)
    (hm : env.match_fn e c = ⟨code_of b, c.msgid⟩) :
    check_expritem env c =
      next_expritem
        { c with result := combine e b c.result, trace := c.trace ++ [Event.matcher e] } := by
  obtain ⟨mail, acct, rule, stack, ei0, result, done, matched, dq, msgid, tr0⟩ := c
  simp only at hei hm
  subst hei
  have h := adjust_result_code_of e b
    ⟨mail, acct, rule, stack, e :: es, result, done, matched, dq, msgid,
      tr0 ++ [Event.matcher e]⟩
  cases b
  · simp only [check_expritem, hm]
    exact congrArg next_expritem h
  · simp only [check_expritem, hm]
    exact congrArg next_expritem h

/-- A call in the middle of an expression, with a further item to come. -/
theorem check_step_more (env : Env) (v : ExprItem → Bool) (mail : Mail) (acct : Account)
    (r : Rule) (rest : List Rule) (stack : List RuleNode) (e e2 : ExprItem)
    (es : List ExprItem) (result matched : Bool) (dq : List DeliverCtx) (tr0 : List Event)
    (hm : env.match_fn e
        ⟨{ mail with body := env.set_wrapped mail.body ' ' }, acct, r :: rest, stack,
          e :: e2 :: es, result, false, matched, dq, 0, tr0⟩ = ⟨code_of (v e), 0⟩) :
    mail_match env ⟨mail, acct, r :: rest, stack, e :: e2 :: es, result, false, matched, dq,
        0, tr0⟩ none none =
      Outcome.ret MailCode.MAIL_CONTINUE
        ⟨{ mail with body := env.set_wrapped mail.body ' ' }, acct, r :: rest, stack, e2 :: es,
          combine e (v e) result, false, matched, dq, 0, tr0 ++ [Event.matcher e]⟩ := by
  have h := check_expritem_verdict env
    ⟨{ mail with body := env.set_wrapped mail.body ' ' }, acct, r :: rest, stack,
      e :: e2 :: es, result, false, matched, dq, 0, tr0⟩ e (e2 :: es) (v e) rfl hm
  simp only [mail_match, mail_match_to_skip, wrap]
  simp only [ne_eq, not_true_eq_false, if_false, Bool.false_eq_true]
  rw [h]
  simp [next_expritem]

/-- The call that checks the last item of an expression. -/
theorem check_step_last (env : Env) (v : ExprItem → Bool) (mail : Mail) (acct : Account)
    (r : Rule) (rest : List Rule) (stack : List RuleNode) (e : ExprItem)
    (result matched : Bool) (dq : List DeliverCtx) (tr0 : List Event)
    (hm : env.match_fn e
        ⟨{ mail with body := env.set_wrapped mail.body ' ' }, acct, r :: rest, stack,
          [e], result, false, matched, dq, 0, tr0⟩ = ⟨code_of (v e), 0⟩) :
    mail_match env ⟨mail, acct, r :: rest, stack, [e], result, false, matched, dq,
        0, tr0⟩ none none =
      skip env
        ⟨{ mail with body := env.set_wrapped mail.body ' ' }, acct, r :: rest, stack, [],
          combine e (v e) result, false, matched, dq, 0, tr0 ++ [Event.matcher e]⟩ := by
  have h := check_expritem_verdict env
    ⟨{ mail with body := env.set_wrapped mail.body ' ' }, acct, r :: rest, stack,
      [e], result, false, matched, dq, 0, tr0⟩ e [] (v e) rfl hm
  simp only [mail_match, mail_match_to_skip, wrap]
  simp only [ne_eq, not_true_eq_false, if_false, Bool.false_eq_true]
  rw [h]
  simp [next_expritem]

/-- From the middle of an expression, as many calls as there are items left end at
label `skip` with the items folded into the result. The body has been wrapped `j`
times so far. -/
theorem expr_run (env : Env) (v : ExprItem → Bool) (mail0 : Mail) (acct : Account)
    (r : Rule) (rest : List Rule) (stack : List RuleNode) (matched : Bool)
    (dq : List DeliverCtx) (items : List ExprItem) :
    ∀ (e : ExprItem) (j : Nat) (result : Bool) (tr0 : List Event),
      (∀ x ∈ e :: items, ∀ (k : Nat) (cur : List ExprItem) (res : Bool) (tr : List Event),
        env.match_fn x
            ⟨{ mail0 with body := (fun b => env.set_wrapped b ' ')^[k] mail0.body }, acct,
              r :: rest, stack, cur, res, false, matched, dq, 0, tr⟩ =
          ⟨code_of (v x), 0⟩) →
      match_calls env (items.length + 1)
          ⟨{ mail0 with body := (fun b => env.set_wrapped b ' ')^[j] mail0.body }, acct,
            r :: rest, stack, e :: items, result, false, matched, dq, 0, tr0⟩ =
        skip env
          ⟨{ mail0 with
              body := (fun b => env.set_wrapped b ' ')^[j + (items.length + 1)] mail0.body },
            acct, r :: rest, stack, [],
            (e :: items).foldl (fun ρ x => combine x (v x) ρ) result, false, matched, dq, 0,
            tr0 ++ (e :: items).map Event.matcher⟩ := by
  induction items with
  | nil =>
    intro e j result tr0 hm
    have hme := hm e (List.mem_cons_self _ _) (j + 1) [e] result tr0
    rw [Function.iterate_succ_apply'] at hme
    rw [List.length_nil, match_calls_one,
      check_step_last env v
        { mail0 with body := (fun b => env.set_wrapped b ' ')^[j] mail0.body }
        acct r rest stack e result matched dq tr0 hme]
    simp [Function.iterate_succ_apply']
  | cons e2 es ih =>
    intro e j result tr0 hm
    have hme := hm e (List.mem_cons_self _ _) (j + 1) (e :: e2 :: es) result tr0
    rw [Function.iterate_succ_apply'] at hme
    have h1 := check_step_more env v
      { mail0 with body := (fun b => env.set_wrapped b ' ')^[j] mail0.body }
      acct r rest stack e e2 es result matched dq tr0 hme
    have h2 := ih e2 (j + 1) (combine e (v e) result) (tr0 ++ [Event.matcher e])
      (fun x hx => hm x (List.mem_cons_of_mem _ hx))
    rw [Function.iterate_succ_apply'] at h2
    rw [List.length_cons, match_calls, h1]
    simp only
    rw [h2]
    simp [Nat.add_assoc, Nat.add_comm 1]

/-- What label `skip` does to the result, the matched flag and the trace, and what it
leaves alone when the result is unset. -/
theorem skip_spec (env : Env) (c : MailCtx) (r : Rule) (rest : List Rule)
    (hr : c.rule = r :: rest) :
    ∃ code c1 tr, skip env c = Outcome.ret code c1 ∧ c1.result = c.result ∧
      c1.matched = (c.matched || c.result) ∧ c1.trace = c.trace ++ tr ∧
      (c.result = false →
        code = MailCode.MAIL_CONTINUE ∧ c1.dqueue = c.dqueue ∧ c1.mail = c.mail ∧
          (c1.rule, c1.stack) = pop_stack rest c.stack) := by
  cases hres : c.result with
  | false =>
    rw [skip_nomatch env c hres, next_rule_eq c _ r rest hr]
    exact ⟨_, _, [], rfl, hres, by simp, by simp, fun _ => ⟨rfl, rfl, rfl, rfl⟩⟩
  | true =>
    by_cases hn : r.rules = []
    · obtain ⟨tags, q, tr, code, hs, _⟩ := skip_leaf env c r rest hres hr hn
      rw [hs]
      split
      · exact ⟨_, _, tr, rfl, hres, by simp, rfl, fun h => by cases h⟩
      · simp only [next_rule, hr]
        exact ⟨_, _, tr, rfl, hres, by simp, rfl, fun h => by cases h⟩
    · rw [skip_nested env c r rest hres hr hn]
      exact ⟨_, _, [], rfl, hres, by simp, by simp, fun h => by cases h⟩

/-- The first call on a rule whose account list lets the account pass and whose
expression is not empty is the check of the first item. -/
theorem start_is_check (env : Env) (mctx : MailCtx) (r : Rule) (rest : List Rule)
    (ei : ExprItem) (items : List ExprItem)
    (hmsgid : mctx.msgid = 0) (hdone : mctx.done = false) (hrule : mctx.rule = r :: rest)
    (hexpr : mctx.expritem = []) (hacc : account_excluded env mctx r = false)
    (hitems : r.expr = some (ei :: items)) :
    mail_match env mctx none none =
      mail_match env { mctx with result := false, expritem := ei :: items } none none := by
  obtain ⟨mail, acct, rule, stack, ei0, result, done, matched, dq, msgid, tr0⟩ := mctx
  simp only at hmsgid hdone hrule hexpr
  subst hmsgid hdone hrule hexpr
  simp only [account_excluded] at hacc
  simp [mail_match, mail_match_to_skip, wrap, start_expr, account_excluded, hacc, hitems]

/-- C2: for a rule whose account list lets the account pass and whose expression has
the items `ei :: items` (n of them), none inverted, the first with `OP_NONE` and the
others with `OP_AND` or `OP_OR`, each matcher yielding the verdict `v` of its item
and storing no message id in every context of the run: n calls of `mail_match` from
the start of the rule return, every item's matcher has been called in order, `result`
is the left-to-right fold `expr_fold` of the verdicts, and the rule counts as matched
(the matched flag is raised) exactly when the fold is true; when it is false the call
moves to the next rule with `MAIL_CONTINUE` and queues or tags nothing. -/
theorem expression_is_left_fold (env : Env) (mctx : MailCtx) (r : Rule) (rest : List Rule)
    (ei : ExprItem) (items : List ExprItem) (v : ExprItem → Bool)
    (hmsgid : mctx.msgid = 0) (hdone : mctx.done = false) (hrule : mctx.rule = r :: rest)
    (hexpr : mctx.expritem = []) (hacc : account_excluded env mctx r = false)
    (hitems : r.expr = some (ei :: items))
    (hfirst : ei.op = Op.OP_NONE)
    (hlater : ∀ x ∈ items, x.op = Op.OP_AND ∨ x.op = Op.OP_OR)
    (_hinv : ∀ x ∈ ei :: items, x.inverted = false)
    (hm : ∀ x ∈ ei :: items, ∀ (k : Nat) (cur : List ExprItem) (res : Bool)
      (tr : List Event),
      env.match_fn x
          { mctx with
            mail := { mctx.mail with
              body := (fun b => env.set_wrapped b ' ')^[k] mctx.mail.body },
            expritem := cur, result := res, trace := tr } =
        ⟨code_of (v x), 0⟩) :
    ∃ code c tr, match_calls env (items.length + 1) mctx = Outcome.ret code c ∧
      c.result = expr_fold v (ei :: items) ∧
      c.matched = (mctx.matched || expr_fold v (ei :: items)) ∧
      c.trace = mctx.trace ++ (ei :: items).map Event.matcher ++ tr ∧
      (expr_fold v (ei :: items) = false →
        code = MailCode.MAIL_CONTINUE ∧ c.dqueue = mctx.dqueue ∧
          c.mail.tags = mctx.mail.tags ∧ (c.rule, c.stack) = pop_stack rest mctx.stack) := by
  have hstart := start_is_check env mctx r rest ei items hmsgid hdone hrule hexpr hacc hitems
  have hcalls : match_calls env (items.length + 1) mctx =
      match_calls env (items.length + 1)
        { mctx with result := false, expritem := ei :: items } := by
    simp only [match_calls, hstart]
  obtain ⟨mail, acct, rule, stack, ei0, result, done, matched, dq, msgid, tr0⟩ := mctx
  simp only at hmsgid hdone hrule hexpr hm
  subst hmsgid hdone hrule hexpr
  have hrun := expr_run env v mail acct r rest stack matched dq items ei 0 false tr0 hm
  simp only [Function.iterate_zero, id_eq] at hrun
  rw [hcalls, hrun]
  have hfold : (ei :: items).foldl (fun ρ x => combine x (v x) ρ) false =
      expr_fold v (ei :: items) := by
    simp only [expr_fold, List.foldl_cons]
    rw [combine_none ei (v ei) hfirst]
    exact foldl_combine_eq v items _ hlater
  rw [hfold]
  obtain ⟨code, c1, tr, hs, hres, hmat, htr, hno⟩ := skip_spec env
    ⟨{ mail with body := (fun b => env.set_wrapped b ' ')^[0 + (items.length + 1)] mail.body },
      acct, r :: rest, stack, [], expr_fold v (ei :: items), false, matched, dq, 0,
      tr0 ++ (ei :: items).map Event.matcher⟩ r rest rfl
  refine ⟨code, c1, tr, hs, hres, hmat, htr, ?_⟩
  intro hf
  obtain ⟨h1, h2, h3, h4⟩ := hno hf
  exact ⟨h1, h2, by rw [h3], h4⟩

/-- Witness of C2: `regexp "^Y" and regexp "^X" or regexp "^Y"` on a mail that starts
with `Y`; read left to right the fold is `(Y and X) or Y`. -/
theorem expression_is_left_fold_witness :
    (∀ x ∈ items_y_and_x_or_y.tail, x.op = Op.OP_AND ∨ x.op = Op.OP_OR) ∧
    ∃ code c tr,
      match_calls sample_env 3 (fresh_mctx [rule_y_and_x_or_y]) = Outcome.ret code c ∧
      c.result = expr_fold starts_with_y items_y_and_x_or_y ∧
      c.matched = ((fresh_mctx [rule_y_and_x_or_y]).matched ||
        expr_fold starts_with_y items_y_and_x_or_y) ∧
      c.trace = (fresh_mctx [rule_y_and_x_or_y]).trace ++
        items_y_and_x_or_y.map Event.matcher ++ tr ∧
      (expr_fold starts_with_y items_y_and_x_or_y = false →
        code = MailCode.MAIL_CONTINUE ∧ c.dqueue = (fresh_mctx [rule_y_and_x_or_y]).dqueue ∧
          c.mail.tags = (fresh_mctx [rule_y_and_x_or_y]).mail.tags ∧
          (c.rule, c.stack) = pop_stack [] (fresh_mctx [rule_y_and_x_or_y]).stack) :=
  ⟨by decide,
   expression_is_left_fold sample_env (fresh_mctx [rule_y_and_x_or_y]) rule_y_and_x_or_y []
    { op := Op.OP_NONE, inverted := false, matcher := "regexp", data := "^Y" }
    items_y_and_x_or_y.tail starts_with_y rfl rfl rfl rfl rfl rfl rfl (by decide) (by decide)
    (by
      intro x hx k cur res tr
      have hb : (fun b => sample_env.set_wrapped b ' ')^[k] (fresh_mctx [rule_y_and_x_or_y]).mail.body
          = (fresh_mctx [rule_y_and_x_or_y]).mail.body := Function.iterate_fixed rfl k
      rw [hb]
      simp only [items_y_and_x_or_y, List.tail_cons, List.mem_cons, List.mem_singleton,
        List.not_mem_nil, or_false] at hx
      rcases hx with hx | hx | hx <;> subst hx <;> rfl)⟩

/-! ## The walk over the rules -/

theorem to_go_pop_stack (rule : List Rule) (stack : List RuleNode) :
    to_go (pop_stack rule stack).1 (pop_stack rule stack).2 = to_go rule stack := by
  induction stack generalizing rule with
  | nil => cases rule <;> simp [pop_stack]
  | cons top st ih =>
    cases rule with
    | nil =>
      simp only [pop_stack]
      rw [ih top.next]
      simp [to_go]
    | cons x xs => simp [pop_stack]

theorem preorder_list_cons (r : Rule) (rs : List Rule) :
    preorder_list (r :: rs) = r :: (preorder_list r.rules ++ preorder_list rs) := by
  cases r
  simp [preorder_list, Rule.preorder, Rule.rules]

theorem preorder_list_append (xs ys : List Rule) :
    preorder_list (xs ++ ys) = preorder_list xs ++ preorder_list ys := by
  induction xs with
  | nil => simp [preorder_list]
  | cons x xs ih => simp [preorder_list_cons, ih]

/-- A walk starts rules along the pre-order listing, each place at most once. -/
theorem Trav.started_sublist {fs : List Rule} {vs : List Visit} (h : Trav fs vs) :
    (started vs).Sublist (preorder_list fs) := by
  induction h with
  | stop fs => simp [started]
  | pass r rest vs _ ih =>
    rw [preorder_list_cons]
    simp only [started]
    exact List.Sublist.cons₂ r (ih.trans (List.sublist_append_right _ _))
  | enter r rest vs _ ih =>
    rw [preorder_list_cons]
    simp only [started]
    rw [preorder_list_append] at ih
    exact List.Sublist.cons₂ r ih

theorem admits_nil (c : MailCtx) : admits c [] := by
  refine ⟨fun _ => Trav.stop _, ?_⟩
  intro r rest _ hr
  rw [hr]
  exact Trav.pass r _ [] (Trav.stop _)

theorem admits_congr (c d : MailCtx) (vs : List Visit) (hr : d.rule = c.rule)
    (hs : d.stack = c.stack) (he : d.expritem = c.expritem) (h : admits d vs) :
    admits c vs := by
  unfold admits at h ⊢
  rw [hr, hs, he] at h
  exact h

theorem next_expritem_ret_nav (c c1 : MailCtx) (code : MailCode)
    (h : next_expritem c = Jump.ret (Outcome.ret code c1)) :
    c1.rule = c.rule ∧ c1.stack = c.stack ∧ c1.expritem ≠ [] ∧ c.expritem ≠ [] := by
  unfold next_expritem at h
  split at h
  · cases h
  · rename_i e next hnext
    dsimp only at h
    split at h
    · rename_i hne
      cases h
      refine ⟨rfl, rfl, ?_, by simp [hnext]⟩
      simpa using hne
    · cases h

theorem check_expritem_ret_nav (env : Env) (c c1 : MailCtx) (code : MailCode)
    (h : check_expritem env c = Jump.ret (Outcome.ret code c1))
    (hcode : code ≠ MailCode.MAIL_ERROR) :
    c1.rule = c.rule ∧ c1.stack = c.stack ∧ c1.expritem ≠ [] ∧ c.expritem ≠ [] := by
  unfold check_expritem at h
  split at h
  · cases h
  · rename_i ei rest hei
    dsimp only at h
    split at h
    · cases h
      exact absurd rfl hcode
    · cases h
      exact ⟨rfl, rfl, by simp [hei], by simp [hei]⟩
    · obtain ⟨b, hb⟩ := adjust_result_frame ei MatchCode.MATCH_TRUE
        { c with msgid := (env.match_fn ei c).msgid, trace := c.trace ++ [Event.matcher ei] }
      rw [hb] at h
      obtain ⟨h1, h2, h3, _⟩ := next_expritem_ret_nav _ _ _ h
      exact ⟨h1, h2, h3, by simp [hei]⟩
    · obtain ⟨b, hb⟩ := adjust_result_frame ei MatchCode.MATCH_FALSE
        { c with msgid := (env.match_fn ei c).msgid, trace := c.trace ++ [Event.matcher ei] }
      rw [hb] at h
      obtain ⟨h1, h2, h3, _⟩ := next_expritem_ret_nav _ _ _ h
      exact ⟨h1, h2, h3, by simp [hei]⟩

theorem match_blocked_ret_nav (env : Env) (c c1 : MailCtx) (msg : Option Msg)
    (msgbuf : Option Msgbuf) (code : MailCode)
    (h : match_blocked env c msg msgbuf = Jump.ret (Outcome.ret code c1))
    (hcode : code ≠ MailCode.MAIL_ERROR) :
    c1.rule = c.rule ∧ c1.stack = c.stack ∧
      (c1.expritem = c.expritem ∨ (c.expritem ≠ [] ∧ c1.expritem ≠ [])) := by
  unfold match_blocked at h
  split at h
  · cases h
    exact ⟨rfl, rfl, Or.inl rfl⟩
  · split at h
    · cases h
      exact ⟨rfl, rfl, Or.inl rfl⟩
    · dsimp only at h
      split at h
      · cases h
      · split at h
        · cases h
        · split at h
          · cases h
          · split at h
            · cases h
            · split at h
              · cases h
                exact absurd rfl hcode
              · split at h
                · cases h
                · rename_i ei rest hei
                  obtain ⟨b, hb⟩ := adjust_result_frame ei MatchCode.MATCH_TRUE
                    { c with msgid := 0, mail := { c.mail with tags := _ } }
                  rw [hb] at h
                  obtain ⟨h1, h2, h3, h4⟩ := next_expritem_ret_nav _ _ _ h
                  exact ⟨h1, h2, Or.inr ⟨h4, h3⟩⟩
              · split at h
                · cases h
                · rename_i ei rest hei
                  obtain ⟨b, hb⟩ := adjust_result_frame ei MatchCode.MATCH_FALSE
                    { c with msgid := 0, mail := { c.mail with tags := _ } }
                  rw [hb] at h
                  obtain ⟨h1, h2, h3, h4⟩ := next_expritem_ret_nav _ _ _ h
                  exact ⟨h1, h2, Or.inr ⟨h4, h3⟩⟩
              · cases h

theorem match_blocked_skip_cond (env : Env) (c c1 : MailCtx) (msg : Option Msg)
    (msgbuf : Option Msgbuf) (h : match_blocked env c msg msgbuf = Jump.skip c1) :
    c.expritem ≠ [] := by
  intro he
  unfold match_blocked at h
  split at h
  · cases h
  · split at h
    · cases h
    · dsimp only at h
      split at h
      · cases h
      · split at h
        · cases h
        · split at h
          · cases h
          · split at h
            · cases h
            · split at h
              · cases h
              · split at h
                · cases h
                · rename_i ei rest hei
                  simp [he] at hei
              · split at h
                · cases h
                · rename_i ei rest hei
                  simp [he] at hei
              · cases h

theorem start_expr_ret_nav (env : Env) (c c1 : MailCtx) (r : Rule) (code : MailCode)
    (h : start_expr env c r = Jump.ret (Outcome.ret code c1))
    (hcode : code ≠ MailCode.MAIL_ERROR) :
    c1.rule = c.rule ∧ c1.stack = c.stack ∧ c1.expritem ≠ [] := by
  unfold start_expr at h
  split at h
  · cases h
  · split at h
    · cases h
    · cases h
    · obtain ⟨h1, h2, h3, _⟩ := check_expritem_ret_nav env _ c1 code h hcode
      exact ⟨h1, h2, h3⟩

/-- A call that returns before label `skip` with a code other than `MAIL_ERROR` and
`MAIL_DONE` leaves rule and stack alone; on the reply path the expression cursor is
unchanged or stays inside the expression, otherwise an expression is in progress
afterwards. -/
theorem to_skip_ret_nav (env : Env) (c c1 : MailCtx) (msg : Option Msg)
    (msgbuf : Option Msgbuf) (code : MailCode)
    (h : mail_match_to_skip env c msg msgbuf = Jump.ret (Outcome.ret code c1))
    (hcode : code ≠ MailCode.MAIL_ERROR) (hdone : code ≠ MailCode.MAIL_DONE) :
    c1.rule = c.rule ∧ c1.stack = c.stack ∧
      ((c.msgid ≠ 0 ∧ (c1.expritem = c.expritem ∨ (c.expritem ≠ [] ∧ c1.expritem ≠ []))) ∨
        (c.msgid = 0 ∧ c.done = false ∧ c.rule ≠ [] ∧ c1.expritem ≠ [])) := by
  obtain ⟨mail, acct, rule, stack, ei, result, done, matched, dq, msgid, tr0⟩ := c
  unfold mail_match_to_skip at h
  simp only [wrap] at h
  split at h
  · rename_i hid
    obtain ⟨h1, h2, h3⟩ := match_blocked_ret_nav env _ c1 msg msgbuf code h hcode
    exact ⟨h1, h2, Or.inl ⟨hid, h3⟩⟩
  · rename_i hid
    have hid0 : msgid = 0 := by simpa using hid
    split at h
    · cases h
      exact absurd rfl hdone
    · rename_i hd
      have hd0 : done = false := by simpa using hd
      split at h
      · unfold end_of_ruleset at h
        split at h <;> cases h <;> exact absurd rfl hdone
      · split at h
        · obtain ⟨h1, h2, h3⟩ := start_expr_ret_nav env _ c1 _ code h hcode
          exact ⟨h1, h2, Or.inr ⟨hid0, hd0, by simp, h3⟩⟩
        · obtain ⟨h1, h2, h3, _⟩ := check_expritem_ret_nav env _ c1 code h hcode
          exact ⟨h1, h2, Or.inr ⟨hid0, hd0, by simp, h3⟩⟩

/-- Control reaches label `skip` either off the reply path with `done` unset and a
current rule, or on the reply path with an expression in progress. -/
theorem to_skip_skip_cond (env : Env) (c c1 : MailCtx) (msg : Option Msg)
    (msgbuf : Option Msgbuf) (h : mail_match_to_skip env c msg msgbuf = Jump.skip c1) :
    (c.msgid = 0 ∧ c.done = false ∧ c.rule ≠ []) ∨ (c.msgid ≠ 0 ∧ c.expritem ≠ []) := by
  obtain ⟨mail, acct, rule, stack, ei, result, done, matched, dq, msgid, tr0⟩ := c
  unfold mail_match_to_skip at h
  simp only [wrap] at h
  split at h
  · rename_i hid
    have hne := match_blocked_skip_cond env _ c1 msg msgbuf h
    exact Or.inr ⟨hid, hne⟩
  · rename_i hid
    have hid0 : msgid = 0 := by simpa using hid
    split at h
    · cases h
    · rename_i hd
      have hd0 : done = false := by simpa using hd
      split at h
      · unfold end_of_ruleset at h
        split at h <;> cases h
      · exact Or.inl ⟨hid0, hd0, by simp⟩

theorem to_go_cons (r : Rule) (rest : List Rule) (stack : List RuleNode) :
    to_go (r :: rest) stack = r :: to_go rest stack := by
  simp [to_go]

theorem to_go_push (r : Rule) (rest : List Rule) (stack : List RuleNode) :
    to_go r.rules (⟨r, rest⟩ :: stack) = r.rules ++ to_go rest stack := by
  simp [to_go]

/-- When a call returns before label `skip`, it shows at most the start of the current
rule, and what the run may show afterwards it may show after this call too. -/
theorem match_step_ret (env : Env) (c : MailCtx) (msg : Option Msg) (msgbuf : Option Msgbuf)
    (o : Outcome) (hinv : c.expritem ≠ [] → c.rule ≠ [])
    (hj : mail_match_to_skip env c msg msgbuf = Jump.ret o) :
    admits c (visits_of_call env c msg msgbuf) ∧
    (∀ code c1, o = Outcome.ret code c1 → code ≠ MailCode.MAIL_ERROR →
      code ≠ MailCode.MAIL_DONE →
      (c1.expritem ≠ [] → c1.rule ≠ []) ∧
        ∀ vs, admits c1 vs → admits c (visits_of_call env c msg msgbuf ++ vs)) := by
  have hv : visits_of_call env c msg msgbuf =
      (match c.rule with
        | r :: _ =>
          if c.msgid = 0 ∧ c.done = false ∧ c.expritem = [] then [Visit.start r] else []
        | [] => []) := by
    simp [visits_of_call, hj]
  rw [hv]
  constructor
  · cases hr : c.rule with
    | nil => exact admits_nil c
    | cons r rest =>
      simp only
      split
      · rename_i hcond
        refine ⟨fun _ => ?_, fun _ _ hne _ => absurd hcond.2.2 hne⟩
        rw [hr]
        exact Trav.pass r _ [] (Trav.stop _)
      · exact admits_nil c
  · intro code c1 ho hcode hdone
    subst ho
    obtain ⟨h1, h2, h3⟩ := to_skip_ret_nav env c c1 msg msgbuf code hj hcode hdone
    rcases h3 with ⟨hid, he⟩ | ⟨hid, hd, hrne, he⟩
    · have hnil : (match c.rule with
          | r :: _ =>
            if c.msgid = 0 ∧ c.done = false ∧ c.expritem = [] then [Visit.start r] else []
          | [] => []) = [] := by
        split
        · simp [hid]
        · rfl
      rw [hnil]
      rcases he with he | ⟨hce, hc1e⟩
      · refine ⟨fun hne => ?_, fun vs hvs => admits_congr c c1 vs h1 h2 he hvs⟩
        rw [h1]
        exact hinv (by rw [← he]; exact hne)
      · refine ⟨fun _ => by rw [h1]; exact hinv hce, fun vs hvs => ?_⟩
        refine ⟨fun hnil2 => absurd hnil2 hce, fun r rest _ hr => ?_⟩
        have := hvs.2 r rest hc1e (by rw [h1]; exact hr)
        rw [h1, h2] at this
        exact this
    · refine ⟨fun _ => by rw [h1]; exact hrne, fun vs hvs => ?_⟩
      cases hr : c.rule with
      | nil => exact absurd hr hrne
      | cons r rest =>
        have ht := hvs.2 r rest he (by rw [h1]; exact hr)
        rw [h1, h2] at ht
        simp only
        by_cases hce : c.expritem = []
        · simp only [hid, hd, hce, and_self, if_true, List.singleton_append]
          exact ⟨fun _ => hr ▸ ht, fun _ _ hne _ => absurd hce hne⟩
        · simp only [hce, and_false, if_false, List.nil_append]
          refine ⟨fun h => absurd h hce, fun r2 rest2 _ hr2 => ?_⟩
          rw [hr] at hr2
          cases hr2
          exact hr ▸ ht

/-- When a call reaches label `skip`, the current rule is shown as started (unless it
was started by an earlier call) and, with the result set, as matched; afterwards the
walk goes on with the nested rules of a matched rule and then with the rules that
were still to come after the current one. -/
theorem match_step_skip (env : Env) (c c1 : MailCtx) (msg : Option Msg)
    (msgbuf : Option Msgbuf) (hinv : c.expritem ≠ [] → c.rule ≠ [])
    (hj : mail_match_to_skip env c msg msgbuf = Jump.skip c1) :
    admits c (visits_of_call env c msg msgbuf) ∧
    (∀ code c2, skip env c1 = Outcome.ret code c2 → code ≠ MailCode.MAIL_ERROR →
      (c2.expritem ≠ [] → c2.rule ≠ []) ∧
        ∀ vs, admits c2 vs → admits c (visits_of_call env c msg msgbuf ++ vs)) := by
  obtain ⟨b, id, tr, tags, hc1, _⟩ := to_skip_frame env c c1 msg msgbuf hj
  have hcond := to_skip_skip_cond env c c1 msg msgbuf hj
  have hrne : c.rule ≠ [] := by
    rcases hcond with ⟨_, _, h⟩ | ⟨_, h⟩
    · exact h
    · exact hinv h
  cases hr : c.rule with
  | nil => exact absurd hr hrne
  | cons r rest =>
    have hres : c1.result = b := by rw [hc1]
    have hrule1 : c1.rule = r :: rest := by rw [hc1]; exact hr
    have hstack1 : c1.stack = c.stack := by rw [hc1]
    have hexpr1 : c1.expritem = [] := by rw [hc1]
    have hv : visits_of_call env c msg msgbuf =
        (if c.msgid = 0 ∧ c.done = false ∧ c.expritem = [] then [Visit.start r] else []) ++
          (if b then [Visit.matched r] else []) := by
      simp [visits_of_call, hj, hr, hres]
    -- what the call shows, put before `ws`, is admitted when a walk does so from the start of `r`
    have hpre : ∀ ws, Trav (to_go c.rule c.stack) (Visit.start r :: ws) →
        admits c ((if c.msgid = 0 ∧ c.done = false ∧ c.expritem = [] then [Visit.start r]
          else []) ++ ws) := by
      intro ws ht
      by_cases hce : c.expritem = []
      · have hunb : c.msgid = 0 ∧ c.done = false := by
          rcases hcond with ⟨h1, h2, _⟩ | ⟨_, h⟩
          · exact ⟨h1, h2⟩
          · exact absurd hce h
        simp only [hunb.1, hunb.2, hce, and_self, if_true, List.singleton_append]
        exact ⟨fun _ => ht, fun _ _ hne _ => absurd hce hne⟩
      · simp only [hce, and_false, if_false, List.nil_append]
        refine ⟨fun h => absurd h hce, fun r2 rest2 _ hr2 => ?_⟩
        rw [hr] at hr2
        cases hr2
        exact ht
    rw [hv]
    constructor
    · apply hpre
      rw [hr, to_go_cons]
      cases b
      · exact Trav.pass r _ _ (Trav.stop _)
      · exact Trav.enter r _ _ (Trav.stop _)
    · intro code c2 hs hcode
      cases b with
      | false =>
        rw [skip_nomatch env c1 hres, next_rule_eq c1 _ r rest hrule1] at hs
        cases hs
        refine ⟨fun h => absurd hexpr1 h, fun vs hvs => ?_⟩
        have ht := hvs.1 hexpr1
        simp only [to_go_pop_stack, hstack1] at ht
        simp only [Bool.false_eq_true, if_false, List.append_nil]
        apply hpre
        rw [hr, to_go_cons]
        exact Trav.pass r _ vs ht
      | true =>
        simp only [if_true, List.append_assoc, List.singleton_append]
        by_cases hn : r.rules = []
        · obtain ⟨tags2, q, tr2, code2, hsk, _⟩ := skip_leaf env c1 r rest hres hrule1 hn
          rw [hsk] at hs
          split at hs
          · cases hs
            exact absurd rfl hcode
          · simp only [next_rule, hrule1, Outcome.ret.injEq] at hs
            obtain ⟨_, hs⟩ := hs
            subst hs
            refine ⟨fun h => absurd hexpr1 h, fun vs hvs => ?_⟩
            have ht := hvs.1 hexpr1
            simp only [to_go_pop_stack, hstack1] at ht
            apply hpre
            rw [hr, to_go_cons]
            apply Trav.enter
            rw [hn]
            exact ht
        · rw [skip_nested env c1 r rest hres hrule1 hn] at hs
          cases hs
          refine ⟨fun h => absurd hexpr1 h, fun vs hvs => ?_⟩
          have ht := hvs.1 hexpr1
          simp only [to_go_push, hstack1] at ht
          apply hpre
          rw [hr, to_go_cons]
          exact Trav.enter r _ vs ht

theorem start_action_nav (env : Env) (c c1 : MailCtx) (dctx : DeliverCtx) (code : ActionCode)
    (h : start_action env c dctx = ActionOutcome.ret code c1) :
    c1.rule = c.rule ∧ c1.stack = c.stack ∧ c1.expritem = c.expritem := by
  unfold start_action at h
  dsimp only at h
  split at h
  · cases h
    exact ⟨rfl, rfl, rfl⟩
  · split at h
    · split at h <;> cases h <;> exact ⟨rfl, rfl, rfl⟩
    · split at h
      · cases h
      · cases h
        exact ⟨rfl, rfl, rfl⟩

theorem finish_action_nav (env : Env) (c c1 : MailCtx) (dctx : DeliverCtx) (msg : Msg)
    (msgbuf : Msgbuf) (code : ActionCode)
    (h : finish_action env c dctx msg msgbuf = ActionOutcome.ret code c1) :
    c1.rule = c.rule ∧ c1.stack = c.stack ∧ c1.expritem = c.expritem := by
  unfold finish_action at h
  dsimp only at h
  split at h
  · cases h
  · split at h
    · cases h
    · split at h
      · cases h
        exact ⟨rfl, rfl, rfl⟩
      · split at h <;> cases h <;> exact ⟨rfl, rfl, rfl⟩

/-- A call of `mail_deliver` leaves rule, stack and expression cursor alone. -/
theorem mail_deliver_nav (env : Env) (c c1 : MailCtx) (msg : Option Msg)
    (msgbuf : Option Msgbuf) (code : MailCode)
    (h : mail_deliver env c msg msgbuf = Outcome.ret code c1) :
    c1.rule = c.rule ∧ c1.stack = c.stack ∧ c1.expritem = c.expritem := by
  unfold mail_deliver at h
  dsimp only at h
  split at h
  · split at h
    · cases h
      exact ⟨rfl, rfl, rfl⟩
    · split at h
      · cases h
        exact ⟨rfl, rfl, rfl⟩
      · split at h
        · split at h
          · cases h
          · rename_i hf
            cases h
            obtain ⟨h1, h2, h3⟩ := finish_action_nav env _ _ _ _ _ _ hf
            exact ⟨h1, h2, h3⟩
          · rename_i hf
            simp only [deliver_done] at h
            cases h
            obtain ⟨h1, h2, h3⟩ := finish_action_nav env _ _ _ _ _ _ hf
            exact ⟨h1, h2, h3⟩
        · cases h
  · split at h
    · cases h
      exact ⟨rfl, rfl, rfl⟩
    · split at h
      · cases h
      · rename_i hs
        cases h
        obtain ⟨h1, h2, h3⟩ := start_action_nav env _ _ _ _ hs
        exact ⟨h1, h2, h3⟩
      · rename_i hs
        cases h
        obtain ⟨h1, h2, h3⟩ := start_action_nav env _ _ _ _ hs
        exact ⟨h1, h2, h3⟩
      · rename_i hs
        simp only [deliver_done] at h
        cases h
        obtain ⟨h1, h2, h3⟩ := start_action_nav env _ _ _ _ hs
        exact ⟨h1, h2, h3⟩

/-- Whatever calls the scheduler makes, the visits of the run are admitted by the
context the run starts from. -/
theorem run_admits (env : Env) (calls : List Call) :
    ∀ c : MailCtx, (c.expritem ≠ [] → c.rule ≠ []) → admits c (run_visits env calls c) := by
  induction calls with
  | nil => exact fun c _ => admits_nil c
  | cons call calls ih =>
    intro c hinv
    cases call with
    | step_match msg msgbuf =>
      simp only [run_visits]
      cases hj : mail_match_to_skip env c msg msgbuf with
      | ret o =>
        obtain ⟨hend, hstep⟩ := match_step_ret env c msg msgbuf o hinv hj
        have hm : mail_match env c msg msgbuf = o := by simp [mail_match, hj]
        rw [hm]
        cases o with
        | ret code c1 =>
          simp only
          split
          · simpa using hend
          · rename_i hcode
            simp only [not_or] at hcode
            obtain ⟨hinv1, hadm⟩ := hstep code c1 rfl hcode.1 hcode.2
            exact hadm _ (ih c1 hinv1)
        | fatalx why => simpa using hend
        | fault => simpa using hend
      | skip c1 =>
        obtain ⟨hend, hstep⟩ := match_step_skip env c c1 msg msgbuf hinv hj
        have hm : mail_match env c msg msgbuf = skip env c1 := by simp [mail_match, hj]
        rw [hm]
        cases hs : skip env c1 with
        | ret code c2 =>
          simp only
          split
          · simpa using hend
          · rename_i hcode
            simp only [not_or] at hcode
            obtain ⟨hinv2, hadm⟩ := hstep code c2 hs hcode.1
            exact hadm _ (ih c2 hinv2)
        | fatalx why => simpa using hend
        | fault => simpa using hend
    | step_deliver msg msgbuf =>
      simp only [run_visits]
      cases hd : mail_deliver env c msg msgbuf with
      | ret code c1 =>
        simp only
        obtain ⟨h1, h2, h3⟩ := mail_deliver_nav env c c1 msg msgbuf code hd
        split
        · exact admits_nil c
        · refine admits_congr c c1 _ h1 h2 h3 (ih c1 ?_)
          rw [h1, h3]
          exact hinv
      | fatalx why => exact admits_nil c
      | fault => exact admits_nil c

/-- C8: a run of scheduler calls on one message that starts at the head of the rule
list `rules` with an empty stack and no expression in progress. Its visits form a
walk over `rules`: rules are started in source order, the nested rules of a rule are
started only after that rule has matched, and after them (or when the rule did not
match) its next sibling follows. So the started rules are a sublist of the pre-order
listing of `rules` (each place of the listing is used at most once, in increasing
order), and when the rule indices are pairwise distinct no rule is started twice. -/
theorem rules_visited_in_preorder (env : Env) (rules : List Rule) (mctx : MailCtx)
    (calls : List Call) (hrule : mctx.rule = rules) (hstack : mctx.stack = [])
    (hexpr : mctx.expritem = []) :
    Trav rules (run_visits env calls mctx) ∧
      (started (run_visits env calls mctx)).Sublist (preorder_list rules) ∧
      (((preorder_list rules).map Rule.idx).Nodup →
        ((started (run_visits env calls mctx)).map Rule.idx).Nodup) := by
  have hadm := (run_admits env calls mctx (fun h => absurd hexpr h)).1 hexpr
  have htrav : Trav rules (run_visits env calls mctx) := by
    simpa [to_go, hrule, hstack] using hadm
  have hsub := htrav.started_sublist
  exact ⟨htrav, hsub, fun hnd => (hsub.map Rule.idx).nodup hnd⟩

/-- Witness of C8: a run over `nested_rules`, including the delivery calls between the
matching calls. -/
theorem rules_visited_in_preorder_witness :
    (fresh_mctx nested_rules).rule = nested_rules ∧
    Trav nested_rules (run_visits sample_env nested_run (fresh_mctx nested_rules)) ∧
      (started (run_visits sample_env nested_run (fresh_mctx nested_rules))).Sublist
        (preorder_list nested_rules) ∧
      (((preorder_list nested_rules).map Rule.idx).Nodup →
        ((started (run_visits sample_env nested_run (fresh_mctx nested_rules))).map
          Rule.idx).Nodup) :=
  ⟨rfl, rules_visited_in_preorder sample_env nested_rules (fresh_mctx nested_rules) nested_run
    rfl rfl rfl⟩

/-! ## User resolution, failing expansion, return code, tagging -/

/-- C11 (as amended): `find_delivery_users` returns the user set of the first level, in
the order rule, action, account, that has `find_uid` set or has a users list, be the
list empty or not: with `find_uid` the users derived from the message (the default
user when none is derived), otherwise the level's list; when no level sets either
knob the result is the one default user. -/
theorem find_delivery_users_by_level (env : Env) (mctx : MailCtx) (t : Action) (r : Rule)
    (rest : List Rule) (hrule : mctx.rule = r :: rest) :
    find_delivery_users env mctx t =
      some (resolved_users env mctx.mail (user_levels r t mctx.account)) := by
  simp only [find_delivery_users, hrule, resolved_users, user_levels, List.find?]
  cases r.find_uid <;> cases hru : r.users <;> cases t.find_uid <;> cases htu : t.users <;>
    cases mctx.account.find_uid <;> cases hau : mctx.account.users <;>
    cases env.find_users mctx.mail <;> simp

/-- Witness of C11 as amended: the rule has no users of its own, the action `mbox`
has. -/
theorem find_delivery_users_by_level_witness :
    (fresh_mctx [rule_keep_mbox]).rule = rule_keep_mbox :: [] ∧
    find_delivery_users sample_env (fresh_mctx [rule_keep_mbox]) mbox_action =
      some (resolved_users sample_env (fresh_mctx [rule_keep_mbox]).mail
        (user_levels rule_keep_mbox mbox_action (fresh_mctx [rule_keep_mbox]).account)) :=
  ⟨rfl, find_delivery_users_by_level sample_env (fresh_mctx [rule_keep_mbox]) mbox_action
    rule_keep_mbox [] rfl⟩

/-- C11 (counterexample to the claim as written): the rule's users list is there but
empty, the action `mbox` has the users 1000 and 1001. The code takes the rule's
empty list; read as claimed, the rule level is passed over and the action's users
are the result. -/
theorem empty_users_list_is_taken :
    find_delivery_users sample_env (fresh_mctx [rule_no_users]) mbox_action = some [] ∧
      claimed_users sample_env (fresh_mctx [rule_no_users]).mail
        (user_levels rule_no_users mbox_action (fresh_mctx [rule_no_users]).account) =
        [1000, 1001] := by
  decide

/-- What `fill_delivery_queue` returns: entries are only added at the tail, warnings
only at the end of the trace, and the value is 1 exactly when some template matches
no action. -/
theorem fill_templates_result (env : Env) (r r0 : Rule) (rest : List Rule) (c : MailCtx)
    (hr : c.rule = r0 :: rest) (tpl : List ReplStr) (q0 : List DeliverCtx)
    (tr0 : List Event) :
    ∃ rc added tr,
      fill_templates env r tpl { c with dqueue := q0, trace := tr0 } =
        some (rc, { c with dqueue := q0 ++ added, trace := tr0 ++ tr }) ∧
      (rc = 1 ↔ ∃ rs ∈ tpl, match_actions env (env.replacestr rs c.mail.tags c.mail) = []) ∧
      (rc = 0 ∨ rc = 1) := by
  induction tpl generalizing q0 with
  | nil => exact ⟨0, [], [], by simp [fill_templates], by simp, Or.inl rfl⟩
  | cons rs tpl ih =>
    simp only [fill_templates]
    by_cases hm : match_actions env (env.replacestr rs c.mail.tags c.mail) = []
    · refine ⟨1, [], [Event.warn "no actions matching"], ?_, ?_, Or.inr rfl⟩
      · simp [hm]
      · simp only [true_iff]
        exact ⟨rs, List.mem_cons_self _ _, hm⟩
    · have h := fill_actions_queue env { c with trace := tr0 } r r0 rest hr
        (match_actions env (env.replacestr rs c.mail.tags c.mail)) q0 q0
      simp only at h
      obtain ⟨X, hX⟩ : ∃ X, fill_actions env { c with dqueue := q0, trace := tr0 } r
          (match_actions env (env.replacestr rs c.mail.tags c.mail)) q0 = some (q0 ++ X) :=
        ⟨_, h⟩
      simp only [List.isEmpty_iff, hm, if_false]
      rw [hX]
      simp only
      obtain ⟨rc, added, tr, hfill, hiff, hrc⟩ := ih (q0 ++ X)
      refine ⟨rc, X ++ added, tr, ?_, ?_, hrc⟩
      · rw [hfill, List.append_assoc]
      · rw [hiff]
        constructor
        · rintro ⟨x, hx, hxm⟩
          exact ⟨x, List.mem_cons_of_mem _ hx, hxm⟩
        · rintro ⟨x, hx, hxm⟩
          rcases List.mem_cons.1 hx with hx | hx
          · subst hx
            exact absurd hxm hm
          · exact ⟨x, hx, hxm⟩

theorem fill_delivery_queue_result (env : Env) (r r0 : Rule) (rest : List Rule)
    (c : MailCtx) (hr : c.rule = r0 :: rest) :
    ∃ rc added tr,
      fill_delivery_queue env c r =
        some (rc, { c with dqueue := c.dqueue ++ added, trace := c.trace ++ tr }) ∧
      (rc = 1 ↔
        ∃ rs ∈ r.actions, match_actions env (env.replacestr rs c.mail.tags c.mail) = []) ∧
      (rc = 0 ∨ rc = 1) :=
  fill_templates_result env r r0 rest c hr r.actions c.dqueue c.trace

theorem tag_mail_eq (env : Env) (c : MailCtx) (r : Rule) :
    tag_mail env c r =
      { c with mail := { c.mail with
          tags := if r.key.str.isSome then tagged env c.mail r else c.mail.tags } } := by
  unfold tag_mail tagged
  dsimp only
  split
  · split
    · split <;> simp_all
    · simp_all
  · simp_all

/-- Label `skip` for a rule that matches and has no nested rules: tagging, then the
delivery queue, then `next_rule`. -/
theorem skip_leaf_exact (env : Env) (c : MailCtx) (r : Rule) (rest : List Rule)
    (hres : c.result = true) (hr : c.rule = r :: rest) (hn : r.rules = []) :
    skip env c =
      (if !r.actions.isEmpty then
        match fill_delivery_queue env
            (tag_mail env { c with matched := true, done := (c.done || r.stop) } r) r with
        | none => Outcome.fault
        | some (rc, mctx) =>
          if rc ≠ 0 then Outcome.ret MailCode.MAIL_ERROR mctx
          else next_rule mctx MailCode.MAIL_DELIVER
      else next_rule
        (tag_mail env { c with matched := true, done := (c.done || r.stop) } r)
        MailCode.MAIL_CONTINUE) := by
  obtain ⟨mail, acct, rule, stack, ei, result, done, matched, dq, msgid, tr0⟩ := c
  simp only at hres hr
  subst hres hr
  cases hs : r.stop <;> simp [skip, hn, hs]

theorem tag_mail_rule (env : Env) (c : MailCtx) (r : Rule) :
    (tag_mail env c r).rule = c.rule ∧ (tag_mail env c r).dqueue = c.dqueue ∧
      (tag_mail env c r).trace = c.trace ∧ (tag_mail env c r).stack = c.stack := by
  rw [tag_mail_eq]
  exact ⟨rfl, rfl, rfl, rfl⟩

theorem tag_mail_after (env : Env) (c1 : MailCtx) (r : Rule) :
    tag_mail env { c1 with matched := true, done := (c1.done || r.stop) } r =
      after_tag env c1 r := by
  rw [tag_mail_eq]
  rfl

/-- The call in which a rule without nested rules matches: with `after_tag` the
context after tagging, the call ends by `next_rule` with `MAIL_CONTINUE` when the
rule has no actions, returns `MAIL_ERROR` when `fill_delivery_queue` returns 1, and
ends by `next_rule` with `MAIL_DELIVER` otherwise. -/
theorem matched_leaf_outcome (env : Env) (mctx : MailCtx) (msg : Option Msg)
    (msgbuf : Option Msgbuf) (c1 : MailCtx) (r : Rule) (rest : List Rule)
    (hskip : mail_match_to_skip env mctx msg msgbuf = Jump.skip c1)
    (hres : c1.result = true) (hrule : mctx.rule = r :: rest) (hleaf : r.rules = []) :
    ∃ rc added tr,
      fill_delivery_queue env (after_tag env c1 r) r =
        some (rc,
          { after_tag env c1 r with
            dqueue := c1.dqueue ++ added, trace := c1.trace ++ tr }) ∧
      (rc = 1 ↔ ∃ rs ∈ r.actions,
        match_actions env (env.replacestr rs (after_tag env c1 r).mail.tags
          (after_tag env c1 r).mail) = []) ∧
      (rc = 0 ∨ rc = 1) ∧
      mail_match env mctx msg msgbuf =
        (if r.actions = [] then next_rule (after_tag env c1 r) MailCode.MAIL_CONTINUE
        else if rc = 1 then
          Outcome.ret MailCode.MAIL_ERROR
            { after_tag env c1 r with
              dqueue := c1.dqueue ++ added, trace := c1.trace ++ tr }
        else
          next_rule
            { after_tag env c1 r with
              dqueue := c1.dqueue ++ added, trace := c1.trace ++ tr }
            MailCode.MAIL_DELIVER) := by
  obtain ⟨b, id, tr1, tags, hc1, _⟩ := to_skip_frame env mctx c1 msg msgbuf hskip
  have hrule1 : c1.rule = r :: rest := by rw [hc1]; exact hrule
  have hrule2 : (after_tag env c1 r).rule = r :: rest := hrule1
  obtain ⟨rc, added, tr, hfill, hiff, hrc⟩ :=
    fill_delivery_queue_result env r r rest (after_tag env c1 r) hrule2
  refine ⟨rc, added, tr, hfill, hiff, hrc, ?_⟩
  simp only [mail_match, hskip]
  rw [skip_leaf_exact env c1 r rest hres hrule1 hleaf, tag_mail_after]
  by_cases ha : r.actions = []
  · simp [ha]
  · simp only [List.isEmpty_iff, ha, if_false, hfill]
    rcases hrc with h0 | h1
    · simp [h0, ha]
      rfl
    · simp [h1, ha]
      exact ⟨rfl, rfl⟩

theorem next_expritem_ret_frame (c c1 : MailCtx) (code : MailCode)
    (h : next_expritem c = Jump.ret (Outcome.ret code c1)) :
    c1.dqueue = c.dqueue ∧ c1.msgid = c.msgid ∧ code = MailCode.MAIL_CONTINUE := by
  unfold next_expritem at h
  split at h
  · cases h
  · dsimp only at h
    split at h
    · cases h
      exact ⟨rfl, rfl, rfl⟩
    · cases h

theorem adjust_result_dqueue (ei : ExprItem) (code : MatchCode) (c : MailCtx) :
    (adjust_result ei code c).dqueue = c.dqueue ∧ (adjust_result ei code c).msgid = c.msgid := by
  obtain ⟨b, hb⟩ := adjust_result_frame ei code c
  rw [hb]
  exact ⟨rfl, rfl⟩

theorem check_expritem_ret_frame (env : Env) (c c1 : MailCtx) (code : MailCode)
    (h : check_expritem env c = Jump.ret (Outcome.ret code c1)) :
    c1.dqueue = c.dqueue ∧
      (code = MailCode.MAIL_CONTINUE ∨ code = MailCode.MAIL_BLOCKED ∨
        code = MailCode.MAIL_ERROR) := by
  unfold check_expritem at h
  split at h
  · cases h
  · dsimp only at h
    split at h
    · cases h
      exact ⟨rfl, Or.inr (Or.inr rfl)⟩
    · cases h
      exact ⟨rfl, Or.inr (Or.inl rfl)⟩
    · obtain ⟨h1, _, h3⟩ := next_expritem_ret_frame _ _ _ h
      rw [(adjust_result_dqueue _ _ _).1] at h1
      exact ⟨h1, Or.inl h3⟩
    · obtain ⟨h1, _, h3⟩ := next_expritem_ret_frame _ _ _ h
      rw [(adjust_result_dqueue _ _ _).1] at h1
      exact ⟨h1, Or.inl h3⟩

theorem match_blocked_ret_frame (env : Env) (c c1 : MailCtx) (msg : Option Msg)
    (msgbuf : Option Msgbuf) (code : MailCode)
    (h : match_blocked env c msg msgbuf = Jump.ret (Outcome.ret code c1)) :
    c1.dqueue = c.dqueue ∧
      ((code = MailCode.MAIL_BLOCKED ∧ c1.msgid = c.msgid) ∨
        ((code = MailCode.MAIL_CONTINUE ∨ code = MailCode.MAIL_ERROR) ∧ c1.msgid = 0)) := by
  unfold match_blocked at h
  split at h
  · cases h
    exact ⟨rfl, Or.inl ⟨rfl, rfl⟩⟩
  · split at h
    · cases h
      exact ⟨rfl, Or.inl ⟨rfl, rfl⟩⟩
    · dsimp only at h
      split at h
      · cases h
      · split at h
        · cases h
        · split at h
          · cases h
          · split at h
            · cases h
            · split at h
              · cases h
                exact ⟨rfl, Or.inr ⟨Or.inr rfl, rfl⟩⟩
              · split at h
                · cases h
                · obtain ⟨h1, h2, h3⟩ := next_expritem_ret_frame _ _ _ h
                  rw [(adjust_result_dqueue _ _ _).1] at h1
                  rw [(adjust_result_dqueue _ _ _).2] at h2
                  exact ⟨h1, Or.inr ⟨Or.inl h3, h2⟩⟩
              · split at h
                · cases h
                · obtain ⟨h1, h2, h3⟩ := next_expritem_ret_frame _ _ _ h
                  rw [(adjust_result_dqueue _ _ _).1] at h1
                  rw [(adjust_result_dqueue _ _ _).2] at h2
                  exact ⟨h1, Or.inr ⟨Or.inl h3, h2⟩⟩
              · cases h

theorem start_expr_ret_frame (env : Env) (c c1 : MailCtx) (r : Rule) (code : MailCode)
    (h : start_expr env c r = Jump.ret (Outcome.ret code c1)) :
    c1.dqueue = c.dqueue ∧
      (code = MailCode.MAIL_CONTINUE ∨ code = MailCode.MAIL_BLOCKED ∨
        code = MailCode.MAIL_ERROR) := by
  unfold start_expr at h
  split at h
  · cases h
  · split at h
    · cases h
    · cases h
    · obtain ⟨h1, h2⟩ := check_expritem_ret_frame env _ c1 code h
      exact ⟨h1, h2⟩

/-- A call that returns before label `skip` leaves the delivery queue alone and returns
`MAIL_CONTINUE`, `MAIL_BLOCKED`, `MAIL_ERROR` or `MAIL_DONE`. -/
theorem to_skip_ret_frame (env : Env) (c c1 : MailCtx) (msg : Option Msg)
    (msgbuf : Option Msgbuf) (code : MailCode)
    (h : mail_match_to_skip env c msg msgbuf = Jump.ret (Outcome.ret code c1)) :
    c1.dqueue = c.dqueue ∧
      (code = MailCode.MAIL_CONTINUE ∨ code = MailCode.MAIL_BLOCKED ∨
        code = MailCode.MAIL_ERROR ∨ code = MailCode.MAIL_DONE) := by
  obtain ⟨mail, acct, rule, stack, ei, result, done, matched, dq, msgid, tr0⟩ := c
  unfold mail_match_to_skip at h
  simp only [wrap] at h
  split at h
  · obtain ⟨h1, h2⟩ := match_blocked_ret_frame env _ c1 msg msgbuf code h
    refine ⟨h1, ?_⟩
    rcases h2 with ⟨h2, _⟩ | ⟨h2 | h2, _⟩
    · exact Or.inr (Or.inl h2)
    · exact Or.inl h2
    · exact Or.inr (Or.inr (Or.inl h2))
  · split at h
    · cases h
      exact ⟨rfl, Or.inr (Or.inr (Or.inr rfl))⟩
    · split at h
      · unfold end_of_ruleset at h
        split at h <;> cases h <;> exact ⟨rfl, Or.inr (Or.inr (Or.inr rfl))⟩
      · split at h
        · obtain ⟨h1, h2⟩ := start_expr_ret_frame env _ c1 _ code h
          refine ⟨h1, ?_⟩
          rcases h2 with h2 | h2 | h2
          · exact Or.inl h2
          · exact Or.inr (Or.inl h2)
          · exact Or.inr (Or.inr (Or.inl h2))
        · obtain ⟨h1, h2⟩ := check_expritem_ret_frame env _ c1 code h
          refine ⟨h1, ?_⟩
          rcases h2 with h2 | h2 | h2
          · exact Or.inl h2
          · exact Or.inr (Or.inl h2)
          · exact Or.inr (Or.inr (Or.inl h2))

theorem skip_no_rule (env : Env) (c : MailCtx) (hr : c.rule = []) :
    skip env c = Outcome.fault := by
  cases hres : c.result <;> simp [skip, next_rule, hr, hres]

/-- C12: when a rule without nested rules matches (control reaches label `skip` with
the result set) and one of its action templates, substituted against the tag store
as it is after tagging, matches no action of the action table, `fill_delivery_queue`
returns 1 and `mail_match` returns `MAIL_ERROR`. -/
theorem unmatched_template_is_error (env : Env) (mctx : MailCtx) (msg : Option Msg)
    (msgbuf : Option Msgbuf) (c1 : MailCtx) (r : Rule) (rest : List Rule)
    (hskip : mail_match_to_skip env mctx msg msgbuf = Jump.skip c1)
    (hres : c1.result = true) (hrule : mctx.rule = r :: rest) (hleaf : r.rules = [])
    (hbad : ∃ rs ∈ r.actions,
      match_actions env (env.replacestr rs (after_tag env c1 r).mail.tags
        (after_tag env c1 r).mail) = []) :
    (∃ c2, fill_delivery_queue env (after_tag env c1 r) r = some (1, c2)) ∧
      ∃ c, mail_match env mctx msg msgbuf = Outcome.ret MailCode.MAIL_ERROR c := by
  obtain ⟨rc, added, tr, hfill, hiff, _, hm⟩ :=
    matched_leaf_outcome env mctx msg msgbuf c1 r rest hskip hres hrule hleaf
  have hrc : rc = 1 := hiff.2 hbad
  have hact : r.actions ≠ [] := by
    obtain ⟨rs, hrs, _⟩ := hbad
    exact List.ne_nil_of_mem hrs
  subst hrc
  refine ⟨⟨_, hfill⟩, ?_⟩
  rw [hm]
  simp only [hact, if_false, if_true]
  exact ⟨_, rfl⟩

/-- Witness of C12: the rule `match all action "nosuch"`. -/
theorem unmatched_template_is_error_witness :
    (∃ rs ∈ rule_nosuch.actions,
      match_actions sample_env
        (sample_env.replacestr rs
          (after_tag sample_env { fresh_mctx [rule_nosuch] with result := true }
            rule_nosuch).mail.tags
          (after_tag sample_env { fresh_mctx [rule_nosuch] with result := true }
            rule_nosuch).mail) = []) ∧
    ((∃ c2, fill_delivery_queue sample_env
        (after_tag sample_env { fresh_mctx [rule_nosuch] with result := true } rule_nosuch)
        rule_nosuch = some (1, c2)) ∧
      ∃ c, mail_match sample_env (fresh_mctx [rule_nosuch]) none none =
        Outcome.ret MailCode.MAIL_ERROR c) :=
  ⟨⟨⟨some "nosuch"⟩, by decide, by decide⟩,
   unmatched_template_is_error sample_env (fresh_mctx [rule_nosuch]) none none
    { fresh_mctx [rule_nosuch] with result := true } rule_nosuch [] rfl rfl rfl rfl
    ⟨⟨some "nosuch"⟩, by decide, by decide⟩⟩

/-- C13 (as amended): for a call of `mail_match` that returns neither `MAIL_ERROR` nor
`MAIL_BLOCKED` nor `MAIL_DONE`: the queue afterwards is the queue before followed by
what the call added; the code is `MAIL_DELIVER` or `MAIL_CONTINUE`; it is
`MAIL_DELIVER` whenever something was added; and it is `MAIL_DELIVER` exactly when
the call is one in which a rule without nested rules and with a non-empty actions
list matched, whether or not entries were added. -/
theorem deliver_code_follows_actions (env : Env) (mctx : MailCtx) (msg : Option Msg)
    (msgbuf : Option Msgbuf) (code : MailCode) (c : MailCtx)
    (h : mail_match env mctx msg msgbuf = Outcome.ret code c)
    (herr : code ≠ MailCode.MAIL_ERROR) (hblk : code ≠ MailCode.MAIL_BLOCKED)
    (hdone : code ≠ MailCode.MAIL_DONE) :
    (∃ added, c.dqueue = mctx.dqueue ++ added ∧ (added ≠ [] → code = MailCode.MAIL_DELIVER)) ∧
      (code = MailCode.MAIL_DELIVER ∨ code = MailCode.MAIL_CONTINUE) ∧
      (code = MailCode.MAIL_DELIVER ↔
        ∃ c1 r rest, mail_match_to_skip env mctx msg msgbuf = Jump.skip c1 ∧
          c1.result = true ∧ mctx.rule = r :: rest ∧ r.rules = [] ∧ r.actions ≠ []) := by
  cases hj : mail_match_to_skip env mctx msg msgbuf with
  | ret o =>
    have hm : mail_match env mctx msg msgbuf = o := by simp [mail_match, hj]
    rw [hm] at h
    subst h
    obtain ⟨hdq, hcode⟩ := to_skip_ret_frame env mctx c msg msgbuf code hj
    have hc : code = MailCode.MAIL_CONTINUE := by
      rcases hcode with hc | hc | hc | hc
      · exact hc
      · exact absurd hc hblk
      · exact absurd hc herr
      · exact absurd hc hdone
    subst hc
    refine ⟨⟨[], by simp [hdq], fun hne => absurd rfl hne⟩, Or.inr rfl, ?_⟩
    constructor
    · intro hcon
      cases hcon
    · rintro ⟨c1, r, rest, hsk, _⟩
      cases hsk
  | skip c1 =>
    have hm : mail_match env mctx msg msgbuf = skip env c1 := by simp [mail_match, hj]
    obtain ⟨b, id, tr1, tags, hc1, _⟩ := to_skip_frame env mctx c1 msg msgbuf hj
    have hdq1 : c1.dqueue = mctx.dqueue := by rw [hc1]
    have hrule1 : c1.rule = mctx.rule := by rw [hc1]
    cases hr : mctx.rule with
    | nil =>
      rw [hm, skip_no_rule env c1 (by rw [hrule1]; exact hr)] at h
      cases h
    | cons r rest =>
      have hr1 : c1.rule = r :: rest := by rw [hrule1]; exact hr
      cases hres : c1.result with
      | false =>
        rw [hm, skip_nomatch env c1 hres, next_rule_eq c1 _ r rest hr1] at h
        cases h
        refine ⟨⟨[], by simp [hdq1], fun hne => absurd rfl hne⟩, Or.inr rfl, ?_⟩
        constructor
        · intro hcon
          cases hcon
        · rintro ⟨c1', r', rest', hsk, hres', _⟩
          cases hsk
          rw [hres] at hres'
          cases hres'
      | true =>
        by_cases hn : r.rules = []
        · obtain ⟨rc, added, tr, _, _, hrc, hmo⟩ :=
            matched_leaf_outcome env mctx msg msgbuf c1 r rest hj hres hr hn
          rw [hmo] at h
          by_cases ha : r.actions = []
          · simp only [ha, if_true] at h
            rw [next_rule_eq (after_tag env c1 r) _ r rest hr1] at h
            cases h
            refine ⟨⟨[], ?_, fun hne => absurd rfl hne⟩, Or.inr rfl, ?_⟩
            · simp only [List.append_nil]
              exact hdq1
            · constructor
              · intro hcon
                cases hcon
              · rintro ⟨c1', r', rest', _, _, hr', _, ha'⟩
                cases hr'
                exact absurd ha ha'
          · simp only [ha, if_false] at h
            split at h
            · cases h
              exact absurd rfl herr
            · rw [next_rule_eq
                { after_tag env c1 r with
                  dqueue := c1.dqueue ++ added, trace := c1.trace ++ tr } _ r rest hr1] at h
              cases h
              refine ⟨⟨added, ?_, fun _ => rfl⟩, Or.inl rfl, ?_⟩
              · show c1.dqueue ++ added = mctx.dqueue ++ added
                rw [hdq1]
              · simp only [true_iff]
                exact ⟨c1, r, rest, rfl, hres, rfl, hn, ha⟩
        · rw [hm, skip_nested env c1 r rest hres hr1 hn] at h
          cases h
          refine ⟨⟨[], by simp [hdq1], fun hne => absurd rfl hne⟩, Or.inr rfl, ?_⟩
          constructor
          · intro hcon
            cases hcon
          · rintro ⟨c1', r', rest', _, _, hr', hn', _⟩
            cases hr'
            exact absurd hn' hn

/-- Witness of C13 as amended: `match all action "keep"` queues one entry and returns
`MAIL_DELIVER`. -/
theorem deliver_code_follows_actions_witness :
    mail_match sample_env (fresh_mctx [rule_keep 1 none]) none none =
      Outcome.ret MailCode.MAIL_DELIVER queued_keep_mctx ∧
    ((∃ added, queued_keep_mctx.dqueue = (fresh_mctx [rule_keep 1 none]).dqueue ++ added ∧
        (added ≠ [] → MailCode.MAIL_DELIVER = MailCode.MAIL_DELIVER)) ∧
      (MailCode.MAIL_DELIVER = MailCode.MAIL_DELIVER ∨
        MailCode.MAIL_DELIVER = MailCode.MAIL_CONTINUE) ∧
      (MailCode.MAIL_DELIVER = MailCode.MAIL_DELIVER ↔
        ∃ c1 r rest,
          mail_match_to_skip sample_env (fresh_mctx [rule_keep 1 none]) none none =
            Jump.skip c1 ∧
          c1.result = true ∧ (fresh_mctx [rule_keep 1 none]).rule = r :: rest ∧
          r.rules = [] ∧ r.actions ≠ [])) :=
  ⟨rfl, deliver_code_follows_actions sample_env (fresh_mctx [rule_keep 1 none]) none none
    MailCode.MAIL_DELIVER queued_keep_mctx rfl (by decide) (by decide) (by decide)⟩

/-- C13 (counterexample to the claim as written): the rule `rule_no_users` matches and
its action `mbox` is found, but the rule's users list is empty, so nothing is queued;
the call still returns `MAIL_DELIVER`. -/
theorem deliver_without_entries :
    (fresh_mctx [rule_no_users]).dqueue = [] ∧
      (mail_match sample_env (fresh_mctx [rule_no_users]) none none).code? =
        some MailCode.MAIL_DELIVER ∧
      (mail_match sample_env (fresh_mctx [rule_no_users]) none none).mctx?.map
          (fun c => c.dqueue.length) = some 0 :=
  ⟨rfl, rfl, rfl⟩

/-- C14 (as amended): when a rule without nested rules and with a key template matches
(control reaches label `skip` with the result set), the call returns, and the tag
(substituted key, substituted value) is added to the tag store exactly when the
substituted key is there and not empty and the substituted value is there, be it
empty or not; otherwise the tag store stays as it is at label `skip`. Tagging never
makes the call fail: the call goes on to the delivery queue and returns
`MAIL_ERROR` only when an action template matches no action. -/
theorem tag_added_for_nonempty_key (env : Env) (mctx : MailCtx) (msg : Option Msg)
    (msgbuf : Option Msgbuf) (c1 : MailCtx) (r : Rule) (rest : List Rule)
    (hskip : mail_match_to_skip env mctx msg msgbuf = Jump.skip c1)
    (hres : c1.result = true) (hrule : mctx.rule = r :: rest) (hleaf : r.rules = [])
    (hkey : r.key.str.isSome = true) :
    ∃ code c, mail_match env mctx msg msgbuf = Outcome.ret code c ∧
      (∀ k v, env.replacestr r.key c1.mail.tags c1.mail = some k →
        env.replacestr r.value c1.mail.tags c1.mail = some v → k ≠ "" →
        c.mail.tags = env.add_tag c1.mail.tags k v) ∧
      (env.replacestr r.key c1.mail.tags c1.mail = none ∨
        env.replacestr r.key c1.mail.tags c1.mail = some "" ∨
        env.replacestr r.value c1.mail.tags c1.mail = none →
        c.mail.tags = c1.mail.tags) ∧
      (code = MailCode.MAIL_ERROR ∨ code = MailCode.MAIL_DELIVER ∨
        code = MailCode.MAIL_CONTINUE) ∧
      (code = MailCode.MAIL_ERROR ↔ ∃ rs ∈ r.actions,
        match_actions env (env.replacestr rs c.mail.tags c.mail) = []) := by
  obtain ⟨b, id, tr1, tags, hc1, _⟩ := to_skip_frame env mctx c1 msg msgbuf hskip
  have hr1 : c1.rule = r :: rest := by rw [hc1]; exact hrule
  obtain ⟨rc, added, tr, _, hiff, hrc, hmo⟩ :=
    matched_leaf_outcome env mctx msg msgbuf c1 r rest hskip hres hrule hleaf
  have htags : (after_tag env c1 r).mail.tags = tagged env c1.mail r := by
    simp [after_tag, hkey]
  have hyes : ∀ k v, env.replacestr r.key c1.mail.tags c1.mail = some k →
      env.replacestr r.value c1.mail.tags c1.mail = some v → k ≠ "" →
      (after_tag env c1 r).mail.tags = env.add_tag c1.mail.tags k v := by
    intro k v hk hv hne
    rw [htags]
    simp [tagged, hk, hv, hne]
  have hno : (env.replacestr r.key c1.mail.tags c1.mail = none ∨
      env.replacestr r.key c1.mail.tags c1.mail = some "" ∨
      env.replacestr r.value c1.mail.tags c1.mail = none) →
      (after_tag env c1 r).mail.tags = c1.mail.tags := by
    intro h
    rw [htags]
    unfold tagged
    split
    · rename_i k v hk hv
      rcases h with h | h | h
      · rw [hk] at h
        cases h
      · rw [hk] at h
        cases h
        simp
      · rw [hv] at h
        cases h
    · rfl
  rw [hmo]
  by_cases ha : r.actions = []
  · simp only [ha, if_true]
    rw [next_rule_eq (after_tag env c1 r) _ r rest hr1]
    refine ⟨_, _, rfl, hyes, hno, Or.inr (Or.inr rfl), ?_⟩
    simp
  · simp only [ha, if_false]
    rcases hrc with h0 | h1
    · have hnone : ¬ ∃ rs ∈ r.actions, match_actions env
          (env.replacestr rs (after_tag env c1 r).mail.tags (after_tag env c1 r).mail) = [] := by
        intro hex
        have := hiff.2 hex
        omega
      simp only [h0, OfNat.zero_ne_ofNat, if_false]
      rw [next_rule_eq
        { after_tag env c1 r with dqueue := c1.dqueue ++ added, trace := c1.trace ++ tr }
        _ r rest hr1]
      refine ⟨_, _, rfl, hyes, hno, Or.inr (Or.inl rfl), ?_⟩
      constructor
      · intro hcon
        cases hcon
      · intro hex
        exact absurd hex hnone
    · simp only [h1, if_true]
      refine ⟨_, _, rfl, hyes, hno, Or.inl rfl, ?_⟩
      simp only [true_iff]
      exact hiff.1 h1

/-- Witness of C14 as amended: the rule `match all tag "k" value "" action "keep"`. -/
theorem tag_added_for_nonempty_key_witness :
    ∃ code c, mail_match sample_env (fresh_mctx [rule_tag_empty_value]) none none =
        Outcome.ret code c ∧
      (∀ k v, sample_env.replacestr rule_tag_empty_value.key sample_mail.tags sample_mail =
          some k →
        sample_env.replacestr rule_tag_empty_value.value sample_mail.tags sample_mail =
          some v → k ≠ "" →
        c.mail.tags = sample_env.add_tag sample_mail.tags k v) ∧
      (sample_env.replacestr rule_tag_empty_value.key sample_mail.tags sample_mail = none ∨
        sample_env.replacestr rule_tag_empty_value.key sample_mail.tags sample_mail =
          some "" ∨
        sample_env.replacestr rule_tag_empty_value.value sample_mail.tags sample_mail = none →
        c.mail.tags = sample_mail.tags) ∧
      (code = MailCode.MAIL_ERROR ∨ code = MailCode.MAIL_DELIVER ∨
        code = MailCode.MAIL_CONTINUE) ∧
      (code = MailCode.MAIL_ERROR ↔ ∃ rs ∈ rule_tag_empty_value.actions,
        match_actions sample_env (sample_env.replacestr rs c.mail.tags c.mail) = []) :=
  tag_added_for_nonempty_key sample_env (fresh_mctx [rule_tag_empty_value]) none none
    { fresh_mctx [rule_tag_empty_value] with result := true } rule_tag_empty_value []
    rfl rfl rfl rfl rfl

/-- C14 (counterexample to the claim as written): the key substitutes to `k` and the
value to the empty string; the tag `k` with the empty value is added all the same. -/
theorem empty_value_still_tags :
    sample_env.replacestr rule_tag_empty_value.value sample_mail.tags sample_mail = some "" ∧
      (fresh_mctx [rule_tag_empty_value]).mail.tags = [] ∧
      (mail_match sample_env (fresh_mctx [rule_tag_empty_value]) none none).mctx?.map
          (fun c => c.mail.tags) = some [("k", "")] := by
  decide

/-! ## Replies and deliveries -/

/-- C15: with `msgid` not 0 and a reply that is absent or carries another id, both
`mail_match` and `mail_deliver` return `MAIL_BLOCKED`; `msgid`, rule, expression
cursor, result, `done`, `matched`, stack, delivery queue, tag store and decision are
as before, and no matcher or deliverer is called (the trace is as before). -/
theorem no_reply_stays_blocked (env : Env) (mctx : MailCtx) (msg : Option Msg)
    (msgbuf : Option Msgbuf) (hid : mctx.msgid ≠ 0)
    (hmsg : msg = none ∨ ∃ m, msg = some m ∧ m.id ≠ mctx.msgid) :
    (∃ c, mail_match env mctx msg msgbuf = Outcome.ret MailCode.MAIL_BLOCKED c ∧
      c.msgid = mctx.msgid ∧ c.rule = mctx.rule ∧ c.expritem = mctx.expritem ∧
      c.result = mctx.result ∧ c.done = mctx.done ∧ c.matched = mctx.matched ∧
      c.stack = mctx.stack ∧ c.dqueue = mctx.dqueue ∧ c.mail.tags = mctx.mail.tags ∧
      c.mail.decision = mctx.mail.decision ∧ c.trace = mctx.trace) ∧
    (∃ c, mail_deliver env mctx msg msgbuf = Outcome.ret MailCode.MAIL_BLOCKED c ∧
      c.msgid = mctx.msgid ∧ c.rule = mctx.rule ∧ c.expritem = mctx.expritem ∧
      c.result = mctx.result ∧ c.done = mctx.done ∧ c.matched = mctx.matched ∧
      c.stack = mctx.stack ∧ c.dqueue = mctx.dqueue ∧ c.mail.tags = mctx.mail.tags ∧
      c.mail.decision = mctx.mail.decision ∧ c.trace = mctx.trace) := by
  constructor
  · refine ⟨wrap env mctx ' ', ?_, rfl, rfl, rfl, rfl, rfl, rfl, rfl, rfl, rfl, rfl, rfl⟩
    rcases hmsg with h | ⟨m, h, hne⟩
    · subst h
      simp [mail_match, mail_match_to_skip, match_blocked, wrap, hid]
    · subst h
      simp [mail_match, mail_match_to_skip, match_blocked, wrap, hid, hne]
  · refine ⟨wrap env mctx '\n', ?_, rfl, rfl, rfl, rfl, rfl, rfl, rfl, rfl, rfl, rfl, rfl⟩
    rcases hmsg with h | ⟨m, h, hne⟩
    · subst h
      simp [mail_deliver, wrap, hid]
    · subst h
      simp [mail_deliver, wrap, hid, hne]

/-- Witness of C15: a context blocked on id 5 gets a reply with id 6. -/
theorem no_reply_stays_blocked_witness :
    blocked_mctx.msgid ≠ 0 ∧
    (∃ c, mail_match sample_env blocked_mctx (some (done_msg 6 1)) (some reply_msgbuf) =
        Outcome.ret MailCode.MAIL_BLOCKED c ∧
      c.msgid = blocked_mctx.msgid ∧ c.rule = blocked_mctx.rule ∧
      c.expritem = blocked_mctx.expritem ∧ c.result = blocked_mctx.result ∧
      c.done = blocked_mctx.done ∧ c.matched = blocked_mctx.matched ∧
      c.stack = blocked_mctx.stack ∧ c.dqueue = blocked_mctx.dqueue ∧
      c.mail.tags = blocked_mctx.mail.tags ∧
      c.mail.decision = blocked_mctx.mail.decision ∧ c.trace = blocked_mctx.trace) :=
  ⟨by decide,
   (no_reply_stays_blocked sample_env blocked_mctx (some (done_msg 6 1)) (some reply_msgbuf)
      (by decide) (Or.inr ⟨done_msg 6 1, rfl, by decide⟩)).1⟩

/-- One call of `mail_deliver` on a queue whose head is an in-child delivery: the
deliverer is called on the mail with the `action` tag and the code follows its
verdict; on success the head leaves the queue. -/
theorem deliver_inchild_step (env : Env) (mail : Mail) (acct : Account) (rule : List Rule)
    (stack : List RuleNode) (ei : List ExprItem) (result done matched : Bool)
    (d : DeliverCtx) (q : List DeliverCtx) (tr0 : List Event)
    (msg : Option Msg) (msgbuf : Option Msgbuf)
    (htype : d.action.deliver.type = DeliverType.DELIVER_INCHILD)
    (hfn : d.action.deliver.deliver_fn = true) :
    mail_deliver env ⟨mail, acct, rule, stack, ei, result, done, matched, d :: q, 0, tr0⟩
        msg msgbuf =
      (if (env.deliver d d.action (mail_for_action env mail d)).1 ≠
          DeliverCode.DELIVER_SUCCESS then
        Outcome.ret MailCode.MAIL_ERROR
          ⟨(env.deliver d d.action (mail_for_action env mail d)).2, acct, rule, stack, ei,
            result, done, matched, d :: q, 0, tr0 ++ [Event.deliverer d]⟩
      else
        Outcome.ret MailCode.MAIL_CONTINUE
          ⟨(env.deliver d d.action (mail_for_action env mail d)).2, acct, rule, stack, ei,
            result, done, matched, q, 0, tr0 ++ [Event.deliverer d]⟩) := by
  by_cases hv : (env.deliver d d.action (mail_for_action env mail d)).1 =
      DeliverCode.DELIVER_SUCCESS
  · simp only [mail_for_action] at hv ⊢
    simp [mail_deliver, wrap, start_action, hfn, htype, deliver_done, hv]
  · simp only [mail_for_action] at hv ⊢
    simp [mail_deliver, wrap, start_action, hfn, htype, deliver_done, hv]

/-- A queue of in-child deliveries that all succeed is drained head first, one entry
per call, and the call after the last one returns `MAIL_MATCH`. -/
theorem deliver_run (env : Env) (acct : Account) (rule : List Rule) (stack : List RuleNode)
    (ei : List ExprItem) (result done matched : Bool) (q : List DeliverCtx) :
    ∀ (mail : Mail) (tr0 : List Event),
      (∀ d ∈ q, d.action.deliver.type = DeliverType.DELIVER_INCHILD ∧
        d.action.deliver.deliver_fn = true) →
      (∀ d ∈ q, ∀ m, (env.deliver d d.action m).1 = DeliverCode.DELIVER_SUCCESS) →
      (∀ k, k ≤ q.length → ∃ mail1,
        deliver_calls env k ⟨mail, acct, rule, stack, ei, result, done, matched, q, 0, tr0⟩ =
          Outcome.ret MailCode.MAIL_CONTINUE
            ⟨mail1, acct, rule, stack, ei, result, done, matched, q.drop k, 0,
              tr0 ++ (q.take k).map Event.deliverer⟩) ∧
      (∃ mail1,
        deliver_calls env (q.length + 1)
            ⟨mail, acct, rule, stack, ei, result, done, matched, q, 0, tr0⟩ =
          Outcome.ret MailCode.MAIL_MATCH
            ⟨mail1, acct, rule, stack, ei, result, done, matched, [], 0,
              tr0 ++ q.map Event.deliverer⟩) := by
  induction q with
  | nil =>
    intro mail tr0 _ _
    constructor
    · intro k hk
      have hk0 : k = 0 := by simpa using hk
      subst hk0
      exact ⟨mail, by simp [deliver_calls]⟩
    · exact ⟨{ mail with body := env.set_wrapped mail.body '\n' },
        by simp [deliver_calls, mail_deliver, wrap]⟩
  | cons d q ih =>
    intro mail tr0 hin hok
    have hd := hin d (List.mem_cons_self _ _)
    have hstep := deliver_inchild_step env mail acct rule stack ei result done matched d q tr0
      none none hd.1 hd.2
    rw [if_neg (by simp [hok d (List.mem_cons_self _ _)])] at hstep
    obtain ⟨ih1, ih2⟩ := ih (env.deliver d d.action (mail_for_action env mail d)).2
      (tr0 ++ [Event.deliverer d])
      (fun x hx => hin x (List.mem_cons_of_mem _ hx))
      (fun x hx => hok x (List.mem_cons_of_mem _ hx))
    constructor
    · intro k hk
      cases k with
      | zero => exact ⟨mail, by simp [deliver_calls]⟩
      | succ k =>
        obtain ⟨mail1, h1⟩ := ih1 k (by simpa using hk)
        refine ⟨mail1, ?_⟩
        simp only [deliver_calls, hstep, h1]
        simp
    · obtain ⟨mail1, h2⟩ := ih2
      refine ⟨mail1, ?_⟩
      rw [List.length_cons, deliver_calls, hstep]
      simp only
      rw [h2]
      simp

/-- C17: with `msgid = 0` and a queue of n entries whose deliverers are in-child, have
a deliver function and succeed: for every k up to n, the first k calls of
`mail_deliver` return `MAIL_CONTINUE`, the first k entries have left the queue and
their deliverers have been called in queue order; call n + 1 returns `MAIL_MATCH`
with the queue empty. And whenever a call of `mail_deliver` returns `MAIL_MATCH`,
the queue was empty on entry and is empty afterwards. -/
theorem deliver_queue_is_fifo (env : Env) (mctx : MailCtx) (hid : mctx.msgid = 0)
    (hin : ∀ d ∈ mctx.dqueue, d.action.deliver.type = DeliverType.DELIVER_INCHILD ∧
      d.action.deliver.deliver_fn = true)
    (hok : ∀ d ∈ mctx.dqueue, ∀ m, (env.deliver d d.action m).1 = DeliverCode.DELIVER_SUCCESS) :
    (∀ k, k ≤ mctx.dqueue.length → ∃ c,
      deliver_calls env k mctx = Outcome.ret MailCode.MAIL_CONTINUE c ∧
      c.dqueue = mctx.dqueue.drop k ∧
      c.trace = mctx.trace ++ (mctx.dqueue.take k).map Event.deliverer ∧ c.msgid = 0) ∧
    (∃ c, deliver_calls env (mctx.dqueue.length + 1) mctx =
        Outcome.ret MailCode.MAIL_MATCH c ∧ c.dqueue = [] ∧
      c.trace = mctx.trace ++ mctx.dqueue.map Event.deliverer) ∧
    (∀ (ctx : MailCtx) (msg : Option Msg) (msgbuf : Option Msgbuf) (c : MailCtx),
      mail_deliver env ctx msg msgbuf = Outcome.ret MailCode.MAIL_MATCH c →
      ctx.dqueue = [] ∧ c.dqueue = []) := by
  obtain ⟨mail, acct, rule, stack, ei, result, done, matched, dq, msgid, tr0⟩ := mctx
  simp only at hid hin hok
  subst hid
  obtain ⟨h1, h2⟩ := deliver_run env acct rule stack ei result done matched dq mail tr0 hin hok
  refine ⟨?_, ?_, ?_⟩
  · intro k hk
    obtain ⟨mail1, h⟩ := h1 k hk
    exact ⟨_, h, rfl, rfl, rfl⟩
  · obtain ⟨mail1, h⟩ := h2
    exact ⟨_, h, rfl, rfl⟩
  · intro ctx msg msgbuf c h
    unfold mail_deliver at h
    dsimp only at h
    split at h
    · split at h
      · cases h
      · split at h
        · cases h
        · split at h
          · split at h
            · cases h
            · cases h
            · simp only [deliver_done] at h
              cases h
          · cases h
    · split at h
      · rename_i hq
        cases h
        exact ⟨hq, hq⟩
      · split at h
        · cases h
        · cases h
        · cases h
        · simp only [deliver_done] at h
          cases h

/-- Witness of C17: two `keep` deliveries. -/
theorem deliver_queue_is_fifo_witness :
    two_keeps_mctx.msgid = 0 ∧
    ((∀ k, k ≤ two_keeps_mctx.dqueue.length → ∃ c,
      deliver_calls sample_env k two_keeps_mctx = Outcome.ret MailCode.MAIL_CONTINUE c ∧
      c.dqueue = two_keeps_mctx.dqueue.drop k ∧
      c.trace = two_keeps_mctx.trace ++ (two_keeps_mctx.dqueue.take k).map Event.deliverer ∧
      c.msgid = 0) ∧
    (∃ c, deliver_calls sample_env (two_keeps_mctx.dqueue.length + 1) two_keeps_mctx =
        Outcome.ret MailCode.MAIL_MATCH c ∧ c.dqueue = [] ∧
      c.trace = two_keeps_mctx.trace ++ two_keeps_mctx.dqueue.map Event.deliverer) ∧
    (∀ (ctx : MailCtx) (msg : Option Msg) (msgbuf : Option Msgbuf) (c : MailCtx),
      mail_deliver sample_env ctx msg msgbuf = Outcome.ret MailCode.MAIL_MATCH c →
      ctx.dqueue = [] ∧ c.dqueue = [])) :=
  ⟨rfl, deliver_queue_is_fifo sample_env two_keeps_mctx rfl
    (by
      intro d hd
      simp only [two_keeps_mctx, List.mem_cons, List.mem_singleton, List.not_mem_nil,
        or_false] at hd
      rcases hd with hd | hd <;> subst hd <;> exact ⟨rfl, rfl⟩)
    (fun _ _ _ => rfl)⟩

/-- C18: with the entry `d` at the head of the queue, `mail_deliver` returns
`MAIL_ERROR` and leaves the queue as it is (a) when `msgid = 0`, `d` is an in-child
delivery with a deliver function and the deliverer does not return success; (b) when
the context is blocked and the reply with the awaited id and a non-empty tag buffer
carries an error field other than 0, whatever the deliverer type. -/
theorem failed_delivery_is_error (env : Env) (mctx : MailCtx) (msg : Option Msg)
    (msgbuf : Option Msgbuf) (d : DeliverCtx) (q : List DeliverCtx)
    (hq : mctx.dqueue = d :: q) :
    (mctx.msgid = 0 → d.action.deliver.type = DeliverType.DELIVER_INCHILD →
      d.action.deliver.deliver_fn = true →
      (env.deliver d d.action (mail_for_action env mctx.mail d)).1 ≠
        DeliverCode.DELIVER_SUCCESS →
      ∃ c, mail_deliver env mctx msg msgbuf = Outcome.ret MailCode.MAIL_ERROR c ∧
        c.dqueue = d :: q) ∧
    (mctx.msgid ≠ 0 → ∀ m buf len, msg = some m → m.id = mctx.msgid →
      msgbuf = some ⟨some buf, len⟩ → len ≠ 0 → m.data.error ≠ 0 →
      ∃ c, mail_deliver env mctx msg msgbuf = Outcome.ret MailCode.MAIL_ERROR c ∧
        c.dqueue = d :: q) := by
  obtain ⟨mail, acct, rule, stack, ei, result, done, matched, dq, msgid, tr0⟩ := mctx
  simp only at hq
  subst hq
  constructor
  · intro hid htype hfn hfail
    simp only at hid hfail
    subst hid
    rw [deliver_inchild_step env mail acct rule stack ei result done matched d q tr0 msg msgbuf
      htype hfn, if_pos hfail]
    exact ⟨_, rfl, rfl⟩
  · intro hid m buf len hm hmid hb hlen herr
    simp only at hid hmid
    subst hm hb
    refine ⟨⟨{ mail with tags := env.update_tags buf, body := env.set_wrapped mail.body '\n' },
      acct, rule, stack, ei, result, done, matched, d :: q, 0, tr0⟩, ?_, rfl⟩
    simp [mail_deliver, wrap, finish_action, hid, hmid, hlen, herr]

/-- Witness of C18: a failing in-child `keep`, and a reply with error field 1 for the
queued `mbox` delivery. -/
theorem failed_delivery_is_error_witness :
    (∃ c, mail_deliver failing_env two_keeps_mctx none none =
        Outcome.ret MailCode.MAIL_ERROR c ∧ c.dqueue = two_keeps_mctx.dqueue) ∧
    (∃ c, mail_deliver sample_env blocked_mctx (some (done_msg 5 1)) (some reply_msgbuf) =
        Outcome.ret MailCode.MAIL_ERROR c ∧ c.dqueue = blocked_mctx.dqueue) :=
  ⟨(failed_delivery_is_error failing_env two_keeps_mctx none none
      ⟨keep_action, sample_account, rule_keep 1 none, 1, 0⟩
      [⟨keep_action, sample_account, rule_keep 2 none, 1, 0⟩] rfl).1 rfl rfl rfl (by decide),
   (failed_delivery_is_error sample_env blocked_mctx (some (done_msg 5 1)) (some reply_msgbuf)
      ⟨mbox_action, sample_account, rule_keep_mbox, 1, 1000⟩ [] rfl).2 (by decide)
      (done_msg 5 1) [("seen", "1")] 2 rfl rfl rfl (by decide) (by decide)⟩

/-- C19: with `msgid = 0`, a queue head `d` whose deliverer has a deliver function and
is of type `ASUSER` or `WRBACK`, and a send that succeeds, `mail_deliver` returns
`MAIL_BLOCKED`; the tag `action` with the action's name has been added; exactly one
message has been sent and no deliverer has been called (the trace has grown by that
one send); the message is of type `MSG_ACTION`, carries the account, the action and
the uid of `d` and, as payload, the tag store as it now is; its id is in `msgid`;
the queue is as before, `d` still at its head. -/
theorem parent_action_is_sent (env : Env) (mctx : MailCtx) (msg : Option Msg)
    (msgbuf : Option Msgbuf) (d : DeliverCtx) (q : List DeliverCtx)
    (hid : mctx.msgid = 0) (hq : mctx.dqueue = d :: q)
    (hfn : d.action.deliver.deliver_fn = true)
    (htype : d.action.deliver.type = DeliverType.DELIVER_ASUSER ∨
      d.action.deliver.type = DeliverType.DELIVER_WRBACK)
    (hsend : ∀ m b, env.privsep_send m b = 0) :
    ∃ c sent payload, mail_deliver env mctx msg msgbuf =
        Outcome.ret MailCode.MAIL_BLOCKED c ∧
      c.mail.tags = env.add_tag mctx.mail.tags "action" d.action.name ∧
      c.trace = mctx.trace ++ [Event.send sent payload] ∧
      sent.type = MsgType.MSG_ACTION ∧ sent.data.account = some d.account ∧
      sent.data.action = some d.action ∧ sent.data.uid = d.uid ∧
      payload.buf = some c.mail.tags ∧ payload.len = env.STRB_SIZE c.mail.tags ∧
      c.msgid = sent.id ∧ c.dqueue = d :: q := by
  obtain ⟨mail, acct, rule, stack, ei, result, done, matched, dq, msgid, tr0⟩ := mctx
  simp only at hid hq
  subst hid hq
  refine ⟨⟨{ mail with tags := env.add_tag mail.tags "action" d.action.name,
                       body := env.set_wrapped mail.body '\n' },
      acct, rule, stack, ei, result, done, matched, d :: q, mail.idx,
      tr0 ++ [Event.send
        { type := MsgType.MSG_ACTION, id := mail.idx,
          data := { error := 0, account := some d.account, action := some d.action,
                    uid := d.uid,
                    mail := env.mail_send
                      { mail with tags := env.add_tag mail.tags "action" d.action.name,
                                  body := env.set_wrapped mail.body '\n' } } }
        { buf := some (env.add_tag mail.tags "action" d.action.name),
          len := env.STRB_SIZE (env.add_tag mail.tags "action" d.action.name) }]⟩,
    _, _, ?_, rfl, rfl, rfl, rfl, rfl, rfl, rfl, rfl, rfl, rfl⟩
  rcases htype with ht | ht <;>
    simp [mail_deliver, wrap, start_action, hfn, ht, hsend]

/-- Witness of C19: the queued `mbox` delivery is of type `ASUSER`. -/
theorem parent_action_is_sent_witness :
    mbox_queued_mctx.msgid = 0 ∧
    ∃ c sent payload, mail_deliver sample_env mbox_queued_mctx none none =
        Outcome.ret MailCode.MAIL_BLOCKED c ∧
      c.mail.tags = sample_env.add_tag mbox_queued_mctx.mail.tags "action" mbox_action.name ∧
      c.trace = mbox_queued_mctx.trace ++ [Event.send sent payload] ∧
      sent.type = MsgType.MSG_ACTION ∧ sent.data.account = some sample_account ∧
      sent.data.action = some mbox_action ∧ sent.data.uid = 1000 ∧
      payload.buf = some c.mail.tags ∧ payload.len = sample_env.STRB_SIZE c.mail.tags ∧
      c.msgid = sent.id ∧
      c.dqueue = ⟨mbox_action, sample_account, rule_keep_mbox, 1, 1000⟩ :: [] :=
  ⟨rfl, parent_action_is_sent sample_env mbox_queued_mctx none none
    ⟨mbox_action, sample_account, rule_keep_mbox, 1, 1000⟩ [] rfl rfl rfl (Or.inl rfl)
    (fun _ _ => rfl)⟩

theorem skip_msgid (env : Env) (c c1 : MailCtx) (code : MailCode)
    (h : skip env c = Outcome.ret code c1) : c1.msgid = c.msgid := by
  cases hrule : c.rule with
  | nil =>
    rw [skip_no_rule env c hrule] at h
    cases h
  | cons r rest =>
    cases hres : c.result with
    | false =>
      rw [skip_nomatch env c hres, next_rule_eq c _ r rest hrule] at h
      cases h
      rfl
    | true =>
      by_cases hn : r.rules = []
      · obtain ⟨tags, q, tr, code1, hs, _⟩ := skip_leaf env c r rest hres hrule hn
        rw [hs] at h
        split at h
        · cases h
          rfl
        · simp only [next_rule, hrule, Outcome.ret.injEq] at h
          obtain ⟨_, h⟩ := h
          subst h
          rfl
      · rw [skip_nested env c r rest hres hrule hn] at h
        cases h
        rfl

theorem check_expritem_msgid (env : Env) (c : MailCtx) (hid : c.msgid = 0)
    (hcons : ∀ e d, d.msgid = 0 →
      ((env.match_fn e d).code = MatchCode.MATCH_PARENT ↔ (env.match_fn e d).msgid ≠ 0)) :
    (∀ code c1, check_expritem env c = Jump.ret (Outcome.ret code c1) →
      (c1.msgid ≠ 0 ↔ code = MailCode.MAIL_BLOCKED)) ∧
    (∀ c1, check_expritem env c = Jump.skip c1 → c1.msgid = 0) := by
  unfold check_expritem
  split
  · exact ⟨fun _ _ h => (by cases h), fun _ h => by cases h⟩
  · rename_i ei rest hei
    have hc := hcons ei c hid
    dsimp only
    split
    · rename_i hcode
      have h0 : (env.match_fn ei c).msgid = 0 := by
        by_contra hne
        have := hc.2 hne
        rw [hcode] at this
        cases this
      refine ⟨fun code c1 h => ?_, fun _ h => by cases h⟩
      cases h
      simp [h0]
    · rename_i hcode
      refine ⟨fun code c1 h => ?_, fun _ h => by cases h⟩
      cases h
      simp only [iff_true]
      exact hc.1 hcode
    · rename_i hcode
      have h0 : (env.match_fn ei c).msgid = 0 := by
        by_contra hne
        have := hc.2 hne
        rw [hcode] at this
        cases this
      constructor
      · intro code c1 h
        obtain ⟨_, h2, h3⟩ := next_expritem_ret_frame _ _ _ h
        rw [(adjust_result_dqueue _ _ _).2] at h2
        rw [h3, h2]
        simp [h0]
      · intro c1 h
        rw [next_expritem_skip _ _ h]
        rw [(adjust_result_dqueue _ _ _).2]
        exact h0
    · rename_i hcode
      have h0 : (env.match_fn ei c).msgid = 0 := by
        by_contra hne
        have := hc.2 hne
        rw [hcode] at this
        cases this
      constructor
      · intro code c1 h
        obtain ⟨_, h2, h3⟩ := next_expritem_ret_frame _ _ _ h
        rw [(adjust_result_dqueue _ _ _).2] at h2
        rw [h3, h2]
        simp [h0]
      · intro c1 h
        rw [next_expritem_skip _ _ h]
        rw [(adjust_result_dqueue _ _ _).2]
        exact h0

theorem start_expr_msgid (env : Env) (c : MailCtx) (r : Rule) (hid : c.msgid = 0)
    (hcons : ∀ e d, d.msgid = 0 →
      ((env.match_fn e d).code = MatchCode.MATCH_PARENT ↔ (env.match_fn e d).msgid ≠ 0)) :
    (∀ code c1, start_expr env c r = Jump.ret (Outcome.ret code c1) →
      (c1.msgid ≠ 0 ↔ code = MailCode.MAIL_BLOCKED)) ∧
    (∀ c1, start_expr env c r = Jump.skip c1 → c1.msgid = 0) := by
  unfold start_expr
  split
  · refine ⟨fun _ _ h => (by cases h), fun c1 h => ?_⟩
    cases h
    exact hid
  · split
    · refine ⟨fun _ _ h => (by cases h), fun c1 h => ?_⟩
      cases h
      exact hid
    · refine ⟨fun _ _ h => (by cases h), fun c1 h => ?_⟩
      cases h
      exact hid
    · exact check_expritem_msgid env _ hid hcons

/-- With matchers that return `MATCH_PARENT` exactly when they leave a message id,
`msgid` is not 0 after the part of `mail_match` above label `skip` exactly when that
part returns `MAIL_BLOCKED`, and it is 0 at label `skip`. -/
theorem to_skip_msgid (env : Env) (c : MailCtx) (msg : Option Msg) (msgbuf : Option Msgbuf)
    (hcons : ∀ e d, d.msgid = 0 →
      ((env.match_fn e d).code = MatchCode.MATCH_PARENT ↔ (env.match_fn e d).msgid ≠ 0)) :
    (∀ code c1, mail_match_to_skip env c msg msgbuf = Jump.ret (Outcome.ret code c1) →
      (c1.msgid ≠ 0 ↔ code = MailCode.MAIL_BLOCKED)) ∧
    (∀ c1, mail_match_to_skip env c msg msgbuf = Jump.skip c1 → c1.msgid = 0) := by
  obtain ⟨mail, acct, rule, stack, ei, result, done, matched, dq, msgid, tr0⟩ := c
  unfold mail_match_to_skip
  simp only [wrap]
  split
  · rename_i hid
    constructor
    · intro code c1 h
      obtain ⟨_, h2⟩ := match_blocked_ret_frame env _ c1 msg msgbuf code h
      rcases h2 with ⟨h2, h3⟩ | ⟨h2 | h2, h3⟩
      · rw [h2, h3]
        simpa using hid
      · rw [h2, h3]
        simp
      · rw [h2, h3]
        simp
    · intro c1 h
      obtain ⟨b, tags, hc⟩ := match_blocked_skip env _ c1 msg msgbuf h
      rw [hc]
  · rename_i hid
    have hid0 : msgid = 0 := by simpa using hid
    subst hid0
    split
    · refine ⟨fun code c1 h => ?_, fun _ h => by cases h⟩
      cases h
      simp
    · split
      · refine ⟨fun code c1 h => ?_, fun _ h => by cases h⟩
        unfold end_of_ruleset at h
        split at h <;> cases h <;> simp
      · split
        · exact start_expr_msgid env _ _ rfl hcons
        · exact check_expritem_msgid env _ rfl hcons

theorem start_action_msgid (env : Env) (c c1 : MailCtx) (d : DeliverCtx) (ac : ActionCode)
    (h : start_action env c d = ActionOutcome.ret ac c1) :
    (ac = ActionCode.ACTION_PARENT ∧ c1.msgid = c.mail.idx) ∨
    (ac ≠ ActionCode.ACTION_PARENT ∧ c1.msgid = c.msgid) := by
  unfold start_action at h
  dsimp only at h
  split at h
  · cases h
    exact Or.inr ⟨by decide, rfl⟩
  · split at h
    · split at h
      · cases h
        exact Or.inr ⟨by decide, rfl⟩
      · cases h
        exact Or.inr ⟨by decide, rfl⟩
    · split at h
      · cases h
      · cases h
        exact Or.inl ⟨rfl, rfl⟩

theorem finish_action_msgid (env : Env) (c c1 : MailCtx) (d : DeliverCtx) (msg : Msg)
    (mb : Msgbuf) (ac : ActionCode)
    (h : finish_action env c d msg mb = ActionOutcome.ret ac c1) :
    ac ≠ ActionCode.ACTION_PARENT ∧ c1.msgid = c.msgid := by
  unfold finish_action at h
  dsimp only at h
  split at h
  · cases h
  · split at h
    · cases h
    · split at h
      · cases h
        exact ⟨by decide, rfl⟩
      · split at h
        · cases h
          exact ⟨by decide, rfl⟩
        · cases h
          exact ⟨by decide, rfl⟩

theorem mail_deliver_msgid (env : Env) (c : MailCtx) (msg : Option Msg)
    (msgbuf : Option Msgbuf) (code : MailCode) (c1 : MailCtx)
    (h : mail_deliver env c msg msgbuf = Outcome.ret code c1) :
    (code = MailCode.MAIL_BLOCKED ∧ c.msgid ≠ 0 ∧ c1.msgid = c.msgid) ∨
    (code = MailCode.MAIL_BLOCKED ∧ c.msgid = 0 ∧ c1.msgid = c.mail.idx) ∨
    (code ≠ MailCode.MAIL_BLOCKED ∧ c1.msgid = 0) := by
  obtain ⟨mail, acct, rule, stack, ei, result, done, matched, dq, msgid, tr0⟩ := c
  simp only [mail_deliver, wrap] at h
  split at h
  · rename_i hid
    split at h
    · cases h
      exact Or.inl ⟨rfl, hid, rfl⟩
    · split at h
      · cases h
        exact Or.inl ⟨rfl, hid, rfl⟩
      · split at h
        · rename_i dctx q mb
          generalize hf : finish_action env _ dctx _ mb = fo at h
          cases fo with
          | fatalx why => cases h
          | ret ac c2 =>
            obtain ⟨hac, hm⟩ := finish_action_msgid env _ c2 dctx _ mb ac hf
            simp only at hm
            cases ac
            · simp only [deliver_done, Outcome.ret.injEq] at h
              obtain ⟨h1, h2⟩ := h
              subst h1 h2
              exact Or.inr (Or.inr ⟨by decide, hm⟩)
            · cases h
              exact Or.inr (Or.inr ⟨by decide, hm⟩)
            · exact absurd rfl hac
        · cases h
  · rename_i hid
    have hid0 : msgid = 0 := by simpa using hid
    subst hid0
    split at h
    · cases h
      exact Or.inr (Or.inr ⟨by decide, rfl⟩)
    · rename_i dctx q
      generalize hf : start_action env _ dctx = so at h
      cases so with
      | fatalx why => cases h
      | ret ac c2 =>
        have hs := start_action_msgid env _ c2 dctx ac hf
        simp only at hs
        cases ac
        · simp only [deliver_done, Outcome.ret.injEq] at h
          obtain ⟨h1, h2⟩ := h
          subst h1 h2
          rcases hs with ⟨hs, _⟩ | ⟨_, hs⟩
          · cases hs
          · exact Or.inr (Or.inr ⟨by decide, hs⟩)
        · cases h
          rcases hs with ⟨hs, _⟩ | ⟨_, hs⟩
          · cases hs
          · exact Or.inr (Or.inr ⟨by decide, hs⟩)
        · cases h
          rcases hs with ⟨_, hs⟩ | ⟨hs, _⟩
          · exact Or.inr (Or.inl ⟨rfl, rfl, hs⟩)
          · exact absurd rfl hs

/-- Counterexample to C20 as stated: for a mail whose index is 0, `mail_deliver`
sends the queued `ASUSER` action to the parent and returns `MAIL_BLOCKED`, and `msgid`
(the index of the mail) is 0 after the call. -/
theorem blocked_with_zero_msgid :
    mbox_queued_idx0_mctx.msgid = 0 ∧
    (mail_deliver sample_env mbox_queued_idx0_mctx none none).code? =
      some MailCode.MAIL_BLOCKED ∧
    (mail_deliver sample_env mbox_queued_idx0_mctx none none).mctx?.map MailCtx.msgid =
      some 0 :=
  ⟨rfl, rfl, rfl⟩

/-- C20 (amended): with matchers that store a message id exactly when they return
`MATCH_PARENT`, `msgid` is not 0 after a returning call of `mail_match` exactly when
the call returned `MAIL_BLOCKED`; the same holds for a returning call of
`mail_deliver` on a mail whose index is not 0; and when `mail_deliver`, entered with
`msgid` 0, returns `MAIL_BLOCKED`, `msgid` is the index of the mail (so it is nonzero
exactly for the mails whose index is nonzero). -/
theorem msgid_nonzero_iff_blocked (env : Env) (mctx : MailCtx) (msg : Option Msg)
    (msgbuf : Option Msgbuf)
    (hcons : ∀ e d, d.msgid = 0 →
      ((env.match_fn e d).code = MatchCode.MATCH_PARENT ↔ (env.match_fn e d).msgid ≠ 0)) :
    (∀ code c1, mail_match env mctx msg msgbuf = Outcome.ret code c1 →
      (c1.msgid ≠ 0 ↔ code = MailCode.MAIL_BLOCKED)) ∧
    (mctx.mail.idx ≠ 0 → ∀ code c1, mail_deliver env mctx msg msgbuf = Outcome.ret code c1 →
      (c1.msgid ≠ 0 ↔ code = MailCode.MAIL_BLOCKED)) ∧
    (mctx.msgid = 0 → ∀ c1, mail_deliver env mctx msg msgbuf =
        Outcome.ret MailCode.MAIL_BLOCKED c1 → c1.msgid = mctx.mail.idx) := by
  refine ⟨?_, ?_, ?_⟩
  · intro code c1 h
    unfold mail_match at h
    obtain ⟨hret, hskip⟩ := to_skip_msgid env mctx msg msgbuf hcons
    cases hj : mail_match_to_skip env mctx msg msgbuf with
    | ret o =>
      rw [hj] at h
      simp only at h
      subst h
      exact hret code c1 hj
    | skip c2 =>
      rw [hj] at h
      simp only at h
      have h0 := hskip c2 hj
      have h1 := skip_msgid env c2 c1 code h
      have h2 := skip_code env c2 c1 code h
      rw [h1, h0]
      rcases h2 with h2 | h2 | h2 <;> simp [h2]
  · intro hidx code c1 h
    rcases mail_deliver_msgid env mctx msg msgbuf code c1 h with
      ⟨h1, h2, h3⟩ | ⟨h1, _, h3⟩ | ⟨h1, h3⟩
    · rw [h3]
      simp [h1, h2]
    · rw [h3]
      simp [h1, hidx]
    · rw [h3]
      simp [h1]
  · intro hid c1 h
    rcases mail_deliver_msgid env mctx msg msgbuf _ c1 h with
      ⟨_, h2, _⟩ | ⟨_, _, h3⟩ | ⟨h1, _⟩
    · exact absurd hid h2
    · exact h3
    · exact absurd rfl h1

/-- Witness of C20: `first_char_matcher` never stores a message id; the mail of
`mbox_queued_mctx` has index 7, and after the dispatch of its `ASUSER` action `msgid`
is 7. -/
theorem msgid_nonzero_iff_blocked_witness :
    (∀ e d, d.msgid = 0 →
      ((sample_env.match_fn e d).code = MatchCode.MATCH_PARENT ↔
        (sample_env.match_fn e d).msgid ≠ 0)) ∧
    mbox_queued_mctx.mail.idx ≠ 0 ∧
    ∃ c1, mail_deliver sample_env mbox_queued_mctx none none =
        Outcome.ret MailCode.MAIL_BLOCKED c1 ∧ c1.msgid ≠ 0 ∧ c1.msgid = 7 := by
  have hcons : ∀ e d, d.msgid = 0 →
      ((sample_env.match_fn e d).code = MatchCode.MATCH_PARENT ↔
        (sample_env.match_fn e d).msgid ≠ 0) := by
    intro e d hd
    simp only [sample_env, first_char_matcher]
    split
    · split <;> simp [hd]
    · simp [hd]
  have hthm := msgid_nonzero_iff_blocked sample_env mbox_queued_mctx none none hcons
  exact ⟨hcons, by decide, _, rfl, (hthm.2.1 (by decide) _ _ rfl).2 rfl,
    hthm.2.2 rfl _ rfl⟩

theorem fill_actions_congr (env : Env) (c d : MailCtx) (r : Rule)
    (hr : d.rule = c.rule) (ha : d.account = c.account) (hm : d.mail = c.mail) :
    ∀ (ta : List Action) (q : List DeliverCtx),
      fill_actions env d r ta q = fill_actions env c r ta q := by
  intro ta
  induction ta with
  | nil => intro q; rfl
  | cons t ta ih =>
    intro q
    simp only [fill_actions, find_delivery_users_congr env c d t hr ha hm, ha, hm]
    split
    · rfl
    · exact ih _

theorem fill_actions_match_fn (env : Env) (f : ExprItem → MailCtx → MatchOutcome)
    (c : MailCtx) (r : Rule) :
    ∀ (ta : List Action) (q : List DeliverCtx),
      fill_actions { env with match_fn := f } c r ta q = fill_actions env c r ta q := by
  intro ta
  induction ta with
  | nil => intro q; rfl
  | cons t ta ih =>
    intro q
    have hf : find_delivery_users { env with match_fn := f } c t =
        find_delivery_users env c t := rfl
    simp only [fill_actions, hf]
    split
    · rfl
    · exact ih _

theorem fill_templates_match_fn (env : Env) (f : ExprItem → MailCtx → MatchOutcome)
    (r : Rule) :
    ∀ (tpl : List ReplStr) (c : MailCtx),
      fill_templates { env with match_fn := f } r tpl c = fill_templates env r tpl c := by
  intro tpl
  induction tpl with
  | nil => intro c; rfl
  | cons rs rest ih =>
    intro c
    have hm : ∀ s, match_actions { env with match_fn := f } s = match_actions env s :=
      fun _ => rfl
    simp only [fill_templates, hm, fill_actions_match_fn]
    split
    · rfl
    · split
      · rfl
      · exact ih _

theorem skip_match_fn (env : Env) (f : ExprItem → MailCtx → MatchOutcome) (c : MailCtx) :
    skip { env with match_fn := f } c = skip env c := by
  have ht : ∀ d r, tag_mail { env with match_fn := f } d r = tag_mail env d r :=
    fun _ _ => rfl
  simp only [skip, fill_delivery_queue, fill_templates_match_fn, ht]

/-- The templates of a rule are expanded alike whatever the trace so far: the same
return value, the same queue, and the same events added to the trace. -/
theorem fill_templates_trace (env : Env) (r : Rule) :
    ∀ (tpl : List ReplStr) (c : MailCtx),
      ∃ res : Option (Nat × List DeliverCtx × List Event), ∀ tr,
        fill_templates env r tpl { c with trace := tr } =
          res.map (fun p => (p.1, { c with dqueue := p.2.1, trace := tr ++ p.2.2 })) := by
  intro tpl
  induction tpl with
  | nil =>
    intro c
    refine ⟨some (0, c.dqueue, []), fun tr => ?_⟩
    simp [fill_templates]
  | cons rs rest ih =>
    intro c
    by_cases he : (match_actions env (env.replacestr rs c.mail.tags c.mail)).isEmpty = true
    · refine ⟨some (1, c.dqueue, [Event.warn "no actions matching"]), fun tr => ?_⟩
      simp [fill_templates, he]
    · cases hfa : fill_actions env c r
          (match_actions env (env.replacestr rs c.mail.tags c.mail)) c.dqueue with
      | none =>
        refine ⟨none, fun tr => ?_⟩
        have h := fill_actions_congr env c { c with trace := tr } r rfl rfl rfl
          (match_actions env (env.replacestr rs c.mail.tags c.mail)) c.dqueue
        simp only [fill_templates, he]
        rw [hfa] at h
        simp [h]
      | some q =>
        obtain ⟨res, hres⟩ := ih { c with dqueue := q }
        refine ⟨res, fun tr => ?_⟩
        have h := fill_actions_congr env c { c with trace := tr } r rfl rfl rfl
          (match_actions env (env.replacestr rs c.mail.tags c.mail)) c.dqueue
        rw [hfa] at h
        simp only [fill_templates, he]
        simp only [h]
        exact hres tr

/-- Label `skip` does not read the trace: from two contexts that differ in the trace
only it ends alike, up to the trace. -/
theorem skip_trace (env : Env) (c : MailCtx) (tr : List Event) :
    forget_trace (skip env { c with trace := tr }) = forget_trace (skip env c) := by
  obtain ⟨mail, acct, rule, stack, ei, result, done, matched, dq, msgid, tr0⟩ := c
  cases result with
  | false =>
    cases rule <;> simp [skip, next_rule, forget_trace]
  | true =>
    cases rule with
    | nil => simp [skip, forget_trace]
    | cons r rest =>
      by_cases hn : r.rules = []
      · obtain ⟨res, hres⟩ := fill_templates_trace env r r.actions
          (tag_mail env ⟨mail, acct, r :: rest, stack, ei, true, (done || r.stop), true, dq,
            msgid, tr0⟩ r)
        have h1 := hres tr
        have h0 := hres tr0
        rw [tag_mail_eq] at h1 h0
        simp only at h1 h0
        have hs : ∀ t, skip env ⟨mail, acct, r :: rest, stack, ei, true, done, matched, dq,
              msgid, t⟩ =
            (if !r.actions.isEmpty then
              match fill_templates env r r.actions
                  ⟨{ mail with tags := if r.key.str.isSome then tagged env mail r
                      else mail.tags }, acct, r :: rest, stack, ei, true, (done || r.stop),
                    true, dq, msgid, t⟩ with
              | none => Outcome.fault
              | some (rc, mctx) =>
                if rc ≠ 0 then Outcome.ret MailCode.MAIL_ERROR mctx
                else next_rule mctx MailCode.MAIL_DELIVER
            else next_rule
              ⟨{ mail with tags := if r.key.str.isSome then tagged env mail r
                  else mail.tags }, acct, r :: rest, stack, ei, true, (done || r.stop),
                true, dq, msgid, t⟩ MailCode.MAIL_CONTINUE) := by
          intro t
          have ht := tag_mail_eq env
            ⟨mail, acct, r :: rest, stack, ei, true, (done || r.stop), true, dq, msgid, t⟩ r
          simp only at ht
          rw [← ht]
          cases hst : r.stop <;> simp [skip, hn, hst, fill_delivery_queue]
        show forget_trace (skip env ⟨mail, acct, r :: rest, stack, ei, true, done, matched, dq,
          msgid, tr⟩) = _
        rw [hs tr, hs tr0]
        by_cases ha : r.actions.isEmpty = true
        · simp [ha, next_rule, forget_trace]
        · simp only [ha, Bool.not_false, if_true]
          rw [h1, h0]
          cases res with
          | none => rfl
          | some p =>
            obtain ⟨rc, q, w⟩ := p
            by_cases hrc : rc = 0
            · simp [hrc, next_rule, forget_trace]
            · simp [hrc, forget_trace]
      · have h1 := skip_nested env
          ⟨mail, acct, r :: rest, stack, ei, true, done, matched, dq, msgid, tr⟩ r rest
          rfl rfl hn
        have h0 := skip_nested env
          ⟨mail, acct, r :: rest, stack, ei, true, done, matched, dq, msgid, tr0⟩ r rest
          rfl rfl hn
        show forget_trace (skip env ⟨mail, acct, r :: rest, stack, ei, true, done, matched, dq,
          msgid, tr⟩) = _
        rw [h1, h0]
        rfl

theorem skip_returns (env : Env) (c : MailCtx) (r : Rule) (rest : List Rule)
    (hr : c.rule = r :: rest) : ∃ code c1, skip env c = Outcome.ret code c1 := by
  cases hres : c.result with
  | false =>
    rw [skip_nomatch env c hres, next_rule_eq c _ r rest hr]
    exact ⟨_, _, rfl⟩
  | true =>
    by_cases hn : r.rules = []
    · obtain ⟨tags, q, tr, code1, hs, _⟩ := skip_leaf env c r rest hres hr hn
      rw [hs]
      split
      · exact ⟨_, _, rfl⟩
      · simp only [next_rule, hr]
        exact ⟨_, _, rfl⟩
    · rw [skip_nested env c r rest hres hr hn]
      exact ⟨_, _, rfl⟩

/-- C16: a context blocked on item `e` of the current rule takes a `MSG_DONE` reply
with its id and a non-empty tag buffer: with error field `TRUE` or `FALSE`, `msgid`
is cleared and the tag store replaced by the buffer before the verdict is combined
into the result, the call returns with `msgid` 0, and it ends as the call without
reply does from the same context with `msgid` 0 and that tag store when the matcher
of `e` returns the same verdict there (same code, same context but for the trace,
which only the direct call extends by the matcher call); with error field `ERROR` the
call returns `MAIL_ERROR`. -/
theorem reply_resumes_as_direct_verdict (env : Env) (mctx : MailCtx) (msg : Msg)
    (buf : Tags) (len : Nat) (e : ExprItem) (es : List ExprItem) (r : Rule)
    (rest : List Rule)
    (hid : mctx.msgid ≠ 0) (hei : mctx.expritem = e :: es) (hdone : mctx.done = false)
    (hrule : mctx.rule = r :: rest)
    (htype : msg.type = MsgType.MSG_DONE) (hmid : msg.id = mctx.msgid) (hlen : len ≠ 0) :
    (∀ (b : Bool) (f : ExprItem → MailCtx → MatchOutcome),
      env.match_code msg.data.error = some (code_of b) →
      f e (wrap env (unblocked mctx buf) ' ') = ⟨code_of b, 0⟩ →
      mail_match_to_skip env mctx (some msg) (some ⟨some buf, len⟩) =
        next_expritem (adjust_result e (code_of b) (wrap env (unblocked mctx buf) ' ')) ∧
      forget_trace (mail_match env mctx (some msg) (some ⟨some buf, len⟩)) =
        forget_trace
          (mail_match { env with match_fn := f } (unblocked mctx buf) none none) ∧
      ∃ code c1, mail_match env mctx (some msg) (some ⟨some buf, len⟩) =
        Outcome.ret code c1 ∧ c1.msgid = 0) ∧
    (env.match_code msg.data.error = some MatchCode.MATCH_ERROR →
      mail_match env mctx (some msg) (some ⟨some buf, len⟩) =
        Outcome.ret MailCode.MAIL_ERROR (wrap env (unblocked mctx buf) ' ')) := by
  obtain ⟨mail, acct, rule, stack, ei, result, done, matched, dq, msgid, tr0⟩ := mctx
  simp only at hid hei hdone hrule hmid
  subst hei hdone hrule
  constructor
  · intro b f hv hf
    have hblocked : mail_match_to_skip env
        ⟨mail, acct, r :: rest, stack, e :: es, result, false, matched, dq, msgid, tr0⟩
        (some msg) (some ⟨some buf, len⟩) =
        next_expritem (adjust_result e (code_of b)
          (wrap env (unblocked
            ⟨mail, acct, r :: rest, stack, e :: es, result, false, matched, dq, msgid, tr0⟩
            buf) ' ')) := by
      cases b <;>
        simp [mail_match_to_skip, wrap, match_blocked, unblocked, hid, hmid, htype, hlen,
          hv, code_of] at hv ⊢
    have hdirect : mail_match_to_skip { env with match_fn := f }
        (unblocked
          ⟨mail, acct, r :: rest, stack, e :: es, result, false, matched, dq, msgid, tr0⟩ buf)
        none none =
        next_expritem (adjust_result e (code_of b)
          { wrap env (unblocked
            ⟨mail, acct, r :: rest, stack, e :: es, result, false, matched, dq, msgid, tr0⟩
            buf) ' ' with trace := tr0 ++ [Event.matcher e] }) := by
      have hc := check_expritem_verdict { env with match_fn := f }
        (wrap env (unblocked
          ⟨mail, acct, r :: rest, stack, e :: es, result, false, matched, dq, msgid, tr0⟩
          buf) ' ') e es b rfl hf
      rw [adjust_result_code_of]
      simp only [mail_match_to_skip, wrap, unblocked] at hc ⊢
      simpa using hc
    refine ⟨hblocked, ?_, ?_⟩
    · unfold mail_match
      rw [hblocked, hdirect, adjust_result_code_of, adjust_result_code_of]
      cases es with
      | nil =>
        simp only [next_expritem, wrap, unblocked, List.isEmpty_nil, Bool.not_true,
          Bool.false_eq_true, if_false]
        rw [skip_match_fn env f]
        exact (skip_trace env _ _).symm
      | cons e2 es2 =>
        simp [next_expritem, wrap, unblocked, forget_trace]
    · unfold mail_match
      rw [hblocked, adjust_result_code_of]
      cases es with
      | nil =>
        simp only [next_expritem, wrap, unblocked, List.isEmpty_nil, Bool.not_true,
          Bool.false_eq_true, if_false]
        obtain ⟨code, c1, hs⟩ := skip_returns env
          ⟨{ mail with tags := buf, body := env.set_wrapped mail.body ' ' }, acct, r :: rest,
            stack, [], combine e b result, false, matched, dq, 0, tr0⟩ r rest rfl
        refine ⟨code, c1, ?_, ?_⟩
        · exact hs
        · exact skip_msgid env _ c1 code hs
      | cons e2 es2 =>
        exact ⟨_, _, by simp [next_expritem, wrap, unblocked]; exact ⟨rfl, rfl⟩, rfl⟩
  · intro hv
    simp [mail_match, mail_match_to_skip, wrap, match_blocked, unblocked, hid, hmid, htype,
      hlen, hv]

/-- Witness of C16: the context blocked on the only item of `rule_not_x` takes the
reply `TRUE`; the rule matches and its `keep` delivery is queued, as in the direct
call. -/
theorem reply_resumes_as_direct_verdict_witness :
    blocked_on_item_mctx.msgid ≠ 0 ∧
    sample_env.match_code (done_msg 5 1).data.error = some (code_of true) ∧
    (mail_match sample_env blocked_on_item_mctx (some (done_msg 5 1))
      (some ⟨some [("seen", "1")], 2⟩)).code? = some MailCode.MAIL_DELIVER ∧
    forget_trace (mail_match sample_env blocked_on_item_mctx (some (done_msg 5 1))
        (some ⟨some [("seen", "1")], 2⟩)) =
      forget_trace
        (mail_match { sample_env with match_fn := fun _ _ => ⟨MatchCode.MATCH_TRUE, 0⟩ }
          (unblocked blocked_on_item_mctx [("seen", "1")]) none none) :=
  ⟨by decide, rfl, rfl,
    ((reply_resumes_as_direct_verdict sample_env blocked_on_item_mctx (done_msg 5 1)
      [("seen", "1")] 2 item_not_x [] rule_not_x [] (by decide) rfl rfl rfl rfl rfl
      (by decide)).1 true (fun _ _ => ⟨MatchCode.MATCH_TRUE, 0⟩) rfl rfl).2.1⟩

/-! ## Replies to actions -/

/-- Function `finish_action` on a reply with a non-empty tag buffer. -/
theorem finish_action_spec (env : Env) (c : MailCtx) (d : DeliverCtx) (msg : Msg)
    (buf : Tags) (len : Nat) (hlen : len ≠ 0) :
    finish_action env c d msg ⟨some buf, len⟩ =
      if msg.data.error ≠ 0 then
        ActionOutcome.ret ActionCode.ACTION_ERROR
          { c with mail := { c.mail with tags := env.update_tags buf } }
      else if d.action.deliver.type ≠ DeliverType.DELIVER_WRBACK then
        ActionOutcome.ret ActionCode.ACTION_DONE
          { c with mail := { c.mail with tags := env.update_tags buf } }
      else
        ActionOutcome.ret ActionCode.ACTION_DONE
          { c with mail := { c.mail with
              tags := env.update_tags buf,
              body := env.fill_wrapped (env.trim_from (env.mail_receive c.mail.body msg)) } } := by
  simp [finish_action, hlen]

/-- Function `mail_deliver` on the reply with the awaited id, a non-empty tag buffer
and an entry at the head of the queue. -/
theorem mail_deliver_reply (env : Env) (c : MailCtx) (d : DeliverCtx) (q : List DeliverCtx)
    (msg : Msg) (buf : Tags) (len : Nat) (hid : c.msgid ≠ 0) (hmid : msg.id = c.msgid)
    (hq : c.dqueue = d :: q) (hlen : len ≠ 0) :
    mail_deliver env c (some msg) (some ⟨some buf, len⟩) =
      if msg.data.error ≠ 0 then
        Outcome.ret MailCode.MAIL_ERROR
          { c with msgid := 0, mail := { c.mail with
              tags := env.update_tags buf, body := env.set_wrapped c.mail.body '\n' } }
      else if d.action.deliver.type ≠ DeliverType.DELIVER_WRBACK then
        Outcome.ret MailCode.MAIL_CONTINUE
          { c with msgid := 0, dqueue := q, mail := { c.mail with
              tags := env.update_tags buf, body := env.set_wrapped c.mail.body '\n' } }
      else
        Outcome.ret MailCode.MAIL_CONTINUE
          { c with msgid := 0, dqueue := q, mail := { c.mail with
              tags := env.update_tags buf,
              body := env.fill_wrapped (env.trim_from
                (env.mail_receive (env.set_wrapped c.mail.body '\n') msg)) } } := by
  obtain ⟨mail, acct, rule, stack, ei, result, done, matched, dq, msgid, tr0⟩ := c
  simp only at hid hmid hq
  subst hq
  simp only [mail_deliver, wrap, hid, hmid, ne_eq, not_false_eq_true, if_true,
    not_true_eq_false, if_false]
  rw [finish_action_spec env _ d msg buf len hlen]
  by_cases herr : msg.data.error = 0
  · by_cases ht : d.action.deliver.type = DeliverType.DELIVER_WRBACK
    · simp [herr, ht, deliver_done]
    · simp [herr, ht, deliver_done]
  · simp [herr]

/-- C21 (as amended): when `mail_deliver` takes the reply with the awaited id (a
non-empty tag buffer `buf` comes with it) for the entry `d` at the head of the queue,
the call returns; the tag store afterwards is what `update_tags` makes of the reply's
buffer, in every case; the body is the one that came with the reply, trimmed by
`trim_from` and indexed anew by `fill_wrapped`, when `d` is of type `DELIVER_WRBACK`
and the error field is 0; in every other case `finish_action` leaves the body alone
(it is as the wrapping at the head of `mail_deliver` left it). -/
theorem reply_rewrites_body_for_wrback (env : Env) (mctx : MailCtx) (msg : Msg)
    (buf : Tags) (len : Nat) (d : DeliverCtx) (q : List DeliverCtx)
    (hid : mctx.msgid ≠ 0) (hmid : msg.id = mctx.msgid) (hq : mctx.dqueue = d :: q)
    (hlen : len ≠ 0) :
    (∃ code c, finish_action env mctx d msg ⟨some buf, len⟩ = ActionOutcome.ret code c ∧
      c.mail.tags = env.update_tags buf ∧
      (d.action.deliver.type = DeliverType.DELIVER_WRBACK ∧ msg.data.error = 0 →
        c.mail.body = env.fill_wrapped (env.trim_from (env.mail_receive mctx.mail.body msg))) ∧
      (¬ (d.action.deliver.type = DeliverType.DELIVER_WRBACK ∧ msg.data.error = 0) →
        c.mail.body = mctx.mail.body)) ∧
    (∃ code c, mail_deliver env mctx (some msg) (some ⟨some buf, len⟩) =
        Outcome.ret code c ∧
      c.mail.tags = env.update_tags buf ∧
      (d.action.deliver.type = DeliverType.DELIVER_WRBACK ∧ msg.data.error = 0 →
        c.mail.body = env.fill_wrapped (env.trim_from
          (env.mail_receive (env.set_wrapped mctx.mail.body '\n') msg))) ∧
      (¬ (d.action.deliver.type = DeliverType.DELIVER_WRBACK ∧ msg.data.error = 0) →
        c.mail.body = env.set_wrapped mctx.mail.body '\n')) := by
  rw [finish_action_spec env mctx d msg buf len hlen,
    mail_deliver_reply env mctx d q msg buf len hid hmid hq hlen]
  by_cases herr : msg.data.error = 0
  · by_cases ht : d.action.deliver.type = DeliverType.DELIVER_WRBACK
    · simp only [herr, ht, ne_eq, not_true_eq_false, if_false]
      exact ⟨⟨_, _, rfl, rfl, fun _ => rfl, fun h => absurd ⟨trivial, trivial⟩ h⟩,
        ⟨_, _, rfl, rfl, fun _ => rfl, fun h => absurd ⟨trivial, trivial⟩ h⟩⟩
    · simp only [herr, ht, ne_eq, not_true_eq_false, not_false_eq_true, if_false, if_true]
      exact ⟨⟨_, _, rfl, rfl, fun h => absurd h.1 (by simp), fun _ => rfl⟩,
        ⟨_, _, rfl, rfl, fun h => absurd h.1 (by simp), fun _ => rfl⟩⟩
  · simp only [herr, ne_eq, not_false_eq_true, if_true]
    exact ⟨⟨_, _, rfl, rfl, fun h => absurd h.2 (by simp), fun _ => rfl⟩,
      ⟨_, _, rfl, rfl, fun h => absurd h.2 (by simp), fun _ => rfl⟩⟩

/-- Witness of C21 as amended: the reply for the queued `rewrite` delivery brings the
body `new`; the one for the queued `mbox` delivery leaves the body alone. -/
theorem reply_rewrites_body_for_wrback_witness :
    blocked_wrback_mctx.msgid ≠ 0 ∧
    (mail_deliver sample_env blocked_wrback_mctx (some (body_msg 5 0 "new"))
      (some ⟨some [("seen", "1")], 2⟩)).mctx?.map (fun c => (c.mail.body, c.mail.tags)) =
      some ("new", [("seen", "1")]) ∧
    (mail_deliver sample_env blocked_mctx (some (body_msg 5 0 "new"))
      (some ⟨some [("seen", "1")], 2⟩)).mctx?.map (fun c => (c.mail.body, c.mail.tags)) =
      some ("Y: 1", [("seen", "1")]) ∧
    ∃ code c, mail_deliver sample_env blocked_wrback_mctx (some (body_msg 5 0 "new"))
        (some ⟨some [("seen", "1")], 2⟩) = Outcome.ret code c ∧
      c.mail.tags = sample_env.update_tags [("seen", "1")] :=
  ⟨by decide, rfl, rfl,
    match (reply_rewrites_body_for_wrback sample_env blocked_wrback_mctx (body_msg 5 0 "new")
      [("seen", "1")] 2 ⟨wrback_action, sample_account, rule_keep 1 none, 1, 0⟩ []
      (by decide) rfl rfl (by decide)).2 with
    | ⟨code, c, h1, h2, _⟩ => ⟨code, c, h1, h2⟩⟩

/-- C21 (counterexample to the claim as written): with a tag update hook that
refreshes the derived tag `deliveries`, the reply for the queued `mbox` delivery
brings the buffer `seen = 1`, and the tag store after the call holds the tag
`deliveries` too: it is not the reply's buffer. -/
theorem hook_runs_on_reply_buffer :
    reply_msgbuf.buf = some [("seen", "1")] ∧
    (mail_deliver counting_env blocked_mctx (some (done_msg 5 0)) (some reply_msgbuf)).code? =
      some MailCode.MAIL_CONTINUE ∧
    (mail_deliver counting_env blocked_mctx (some (done_msg 5 0))
      (some reply_msgbuf)).mctx?.map (fun c => c.mail.tags) =
      some [("seen", "1"), ("deliveries", "1")] ∧
    ([("seen", "1"), ("deliveries", "1")] : Tags) ≠ [("seen", "1")] :=
  ⟨rfl, rfl, rfl, by decide⟩

/-- Function `mail_deliver` on an entry for the parent: the action is sent and the
call returns `MAIL_BLOCKED`. -/
theorem mail_deliver_dispatch (env : Env) (c : MailCtx) (msg : Option Msg)
    (msgbuf : Option Msgbuf) (d : DeliverCtx) (q : List DeliverCtx)
    (hid : c.msgid = 0) (hq : c.dqueue = d :: q)
    (hfn : d.action.deliver.deliver_fn = true)
    (htype : d.action.deliver.type ≠ DeliverType.DELIVER_INCHILD)
    (hsend : ∀ m b, env.privsep_send m b = 0) :
    mail_deliver env c msg msgbuf =
      Outcome.ret MailCode.MAIL_BLOCKED
        { c with
          mail := mail_for_action env c.mail d,
          msgid := c.mail.idx,
          trace := c.trace ++ [Event.send
            { type := MsgType.MSG_ACTION, id := c.mail.idx,
              data := { error := 0, account := some d.account, action := some d.action,
                        uid := d.uid, mail := env.mail_send (mail_for_action env c.mail d) } }
            { buf := some (env.add_tag c.mail.tags "action" d.action.name),
              len := env.STRB_SIZE (env.add_tag c.mail.tags "action" d.action.name) }] } := by
  obtain ⟨mail, acct, rule, stack, ei, result, done, matched, dq, msgid, tr0⟩ := c
  simp only at hid hq
  subst hid hq
  cases ht : d.action.deliver.type with
  | DELIVER_INCHILD => exact absurd ht htype
  | DELIVER_ASUSER => simp [mail_deliver, wrap, start_action, hfn, ht, hsend, mail_for_action]
  | DELIVER_WRBACK => simp [mail_deliver, wrap, start_action, hfn, ht, hsend, mail_for_action]

/-- C22 (as amended): an `ASUSER` action at the head of the queue is sent with the
tag store that holds the tag `action`; when the reply with the id of that message
reports success and brings back the buffer exactly as it was sent, the tag store
after the second call is what `update_tags` makes of the store as sent, so it equals
the store as sent when `update_tags` leaves that store as it is. -/
theorem tags_round_trip_up_to_hooks (env : Env) (mctx : MailCtx) (d : DeliverCtx)
    (q : List DeliverCtx) (reply : Msg)
    (hid : mctx.msgid = 0) (hq : mctx.dqueue = d :: q)
    (hfn : d.action.deliver.deliver_fn = true)
    (htype : d.action.deliver.type = DeliverType.DELIVER_ASUSER)
    (hsend : ∀ m b, env.privsep_send m b = 0) (hidx : mctx.mail.idx ≠ 0)
    (hsize : ∀ tags, env.STRB_SIZE tags ≠ 0)
    (hrid : reply.id = mctx.mail.idx) (hok : reply.data.error = 0) :
    ∃ c1 sent payload c2,
      mail_deliver env mctx none none = Outcome.ret MailCode.MAIL_BLOCKED c1 ∧
      c1.trace = mctx.trace ++ [Event.send sent payload] ∧
      payload.buf = some c1.mail.tags ∧
      c1.mail.tags = env.add_tag mctx.mail.tags "action" d.action.name ∧
      mail_deliver env c1 (some reply) (some payload) =
        Outcome.ret MailCode.MAIL_CONTINUE c2 ∧
      c2.mail.tags = env.update_tags c1.mail.tags ∧
      (env.update_tags c1.mail.tags = c1.mail.tags → c2.mail.tags = c1.mail.tags) := by
  have h1 := mail_deliver_dispatch env mctx none none d q hid hq hfn
    (by rw [htype]; decide) hsend
  have h2 := mail_deliver_reply env
    { mctx with
      mail := mail_for_action env mctx.mail d,
      msgid := mctx.mail.idx,
      trace := mctx.trace ++ [Event.send
        { type := MsgType.MSG_ACTION, id := mctx.mail.idx,
          data := { error := 0, account := some d.account, action := some d.action,
                    uid := d.uid, mail := env.mail_send (mail_for_action env mctx.mail d) } }
        { buf := some (env.add_tag mctx.mail.tags "action" d.action.name),
          len := env.STRB_SIZE (env.add_tag mctx.mail.tags "action" d.action.name) }] }
    d q reply (env.add_tag mctx.mail.tags "action" d.action.name)
    (env.STRB_SIZE (env.add_tag mctx.mail.tags "action" d.action.name))
    hidx hrid hq (hsize _)
  rw [if_neg (by simp [hok]), if_pos (by rw [htype]; decide)] at h2
  exact ⟨_, _, _, _, h1, rfl, rfl, rfl, h2, rfl, fun h => h⟩

/-- Witness of C22 as amended: with the hooks of `sample_env`, which change nothing,
the tag store after the reply is the store as sent. -/
theorem tags_round_trip_up_to_hooks_witness :
    mbox_queued_mctx.mail.idx ≠ 0 ∧
    round_trip sample_env mbox_queued_mctx =
      some ([], [("action", "mbox")], [("action", "mbox")]) ∧
    ∃ c1 sent payload c2,
      mail_deliver sample_env mbox_queued_mctx none none =
        Outcome.ret MailCode.MAIL_BLOCKED c1 ∧
      c1.trace = mbox_queued_mctx.trace ++ [Event.send sent payload] ∧
      payload.buf = some c1.mail.tags ∧
      c1.mail.tags = sample_env.add_tag mbox_queued_mctx.mail.tags "action" mbox_action.name ∧
      mail_deliver sample_env c1 (some (done_msg 7 0)) (some payload) =
        Outcome.ret MailCode.MAIL_CONTINUE c2 ∧
      c2.mail.tags = sample_env.update_tags c1.mail.tags ∧
      (sample_env.update_tags c1.mail.tags = c1.mail.tags → c2.mail.tags = c1.mail.tags) :=
  ⟨by decide, rfl,
    tags_round_trip_up_to_hooks sample_env mbox_queued_mctx
      ⟨mbox_action, sample_account, rule_keep_mbox, 1, 1000⟩ [] (done_msg 7 0) rfl rfl rfl rfl
      (fun _ _ => rfl) (by decide) (fun _ => Nat.succ_ne_zero _) rfl rfl⟩

/-- C22 (counterexample to the claim as written): with a tag update hook that
refreshes the derived tag `deliveries`, the `mbox` action is sent with the tag store
`action = mbox`, the reply reports success and brings that buffer back unchanged, and
the tag store after the reply holds the tag `deliveries` too: it is neither the store
as sent nor the store before the call. -/
theorem hooks_break_round_trip :
    round_trip counting_env mbox_queued_mctx =
      some ([], [("action", "mbox")], [("action", "mbox"), ("deliveries", "1")]) ∧
    ([("action", "mbox"), ("deliveries", "1")] : Tags) ≠ [("action", "mbox")] ∧
    ([("action", "mbox"), ("deliveries", "1")] : Tags) ≠ [] :=
  ⟨rfl, by decide, by decide⟩

/-- What holds of replies that break the protocol: `mail_match` ends in `fatalx` on a
reply with the awaited id whose type is not `MSG_DONE` or whose tag buffer is `NULL`
or empty; `mail_deliver`, with an entry at the head of the queue, ends in `fatalx`
when the tag buffer is `NULL` or empty. -/
theorem bad_reply_is_fatal (env : Env) (mctx : MailCtx) (msg : Msg) (mb : Msgbuf)
    (hid : mctx.msgid ≠ 0) (hmid : msg.id = mctx.msgid) :
    (msg.type ≠ MsgType.MSG_DONE ∨ mb.buf = none ∨ mb.len = 0 →
      ∃ why, mail_match env mctx (some msg) (some mb) = Outcome.fatalx why) ∧
    (mb.buf = none ∨ mb.len = 0 → mctx.dqueue ≠ [] →
      ∃ why, mail_deliver env mctx (some msg) (some mb) = Outcome.fatalx why) := by
  obtain ⟨mail, acct, rule, stack, ei, result, done, matched, dq, msgid, tr0⟩ := mctx
  obtain ⟨buf, len⟩ := mb
  simp only at hid hmid
  constructor
  · intro h
    by_cases ht : msg.type = MsgType.MSG_DONE
    · rcases h with h | h | h
      · exact absurd ht h
      · simp only at h
        subst h
        exact ⟨"child: bad tags",
          by simp [mail_match, mail_match_to_skip, wrap, match_blocked, hid, hmid, ht]⟩
      · simp only at h
        subst h
        cases buf with
        | none =>
          exact ⟨"child: bad tags",
          by simp [mail_match, mail_match_to_skip, wrap, match_blocked, hid, hmid, ht]⟩
        | some b =>
          exact ⟨"child: bad tags",
          by simp [mail_match, mail_match_to_skip, wrap, match_blocked, hid, hmid, ht]⟩
    · exact ⟨"child: unexpected message",
        by simp [mail_match, mail_match_to_skip, wrap, match_blocked, hid, hmid, ht]⟩
  · intro h hq
    cases dq with
    | nil => exact absurd rfl hq
    | cons d q =>
      rcases h with h | h
      · simp only at h
        subst h
        exact ⟨"child: bad tags", by simp [mail_deliver, wrap, finish_action, hid, hmid]⟩
      · simp only at h
        subst h
        cases buf with
        | none => exact ⟨"child: bad tags", by simp [mail_deliver, wrap, finish_action, hid, hmid]⟩
        | some b => exact ⟨"child: bad tags", by simp [mail_deliver, wrap, finish_action, hid, hmid]⟩

/-- C23: a reply of type `MSG_ACTION` with the awaited id, a non-empty tag buffer and
error field 0. `mail_match` ends in `fatalx` ("child: unexpected message");
`mail_deliver` takes the same reply for the queued `mbox` delivery, returns
`MAIL_CONTINUE`, and the delivery has left the queue. -/
theorem deliver_takes_reply_of_wrong_type :
    (action_msg 5).type ≠ MsgType.MSG_DONE ∧
    blocked_on_item_mctx.msgid = 5 ∧ blocked_mctx.msgid = 5 ∧
    mail_match sample_env blocked_on_item_mctx (some (action_msg 5)) (some reply_msgbuf) =
      Outcome.fatalx "child: unexpected message" ∧
    (mail_deliver sample_env blocked_mctx (some (action_msg 5)) (some reply_msgbuf)).code? =
      some MailCode.MAIL_CONTINUE ∧
    (mail_deliver sample_env blocked_mctx (some (action_msg 5)) (some reply_msgbuf)).mctx?.map
      (fun c => (c.msgid, c.dqueue.length, c.mail.tags)) = some (0, 0, [("seen", "1")]) :=
  ⟨by decide, rfl, rfl, rfl, rfl, rfl⟩

/-! ## Users without duplicates -/

theorem item_at_front_length (pre suf : List Nat) (x : Nat) :
    (pre ++ x :: suf)[pre.length]? = some x := by
  rw [List.getElem?_append_right (Nat.le_refl _)]
  simp

theorem weed_inner_eq (NOUSR uid : Nat) :
    ∀ (suf pre : List Nat) (fuel : Nat), suf.length ≤ fuel →
      weed_inner NOUSR uid fuel pre.length (pre ++ suf) =
        some (pre ++ suf.map (fun y => if y = uid then NOUSR else y)) := by
  intro suf
  induction suf with
  | nil =>
    intro pre fuel _
    cases fuel <;> simp [weed_inner]
  | cons x suf ih =>
    intro pre fuel hf
    cases fuel with
    | zero => simp at hf
    | succ k =>
      have hk : suf.length ≤ k := by simpa using hf
      have hstep : (if (pre ++ x :: suf)[pre.length]? = some uid
          then (pre ++ x :: suf).set pre.length NOUSR else pre ++ x :: suf) =
          (pre ++ [if x = uid then NOUSR else x]) ++ suf := by
        rw [item_at_front_length]
        by_cases hx : x = uid
        · simp [hx]
        · simp [hx]
      have h := ih (pre ++ [if x = uid then NOUSR else x]) k hk
      simp only [List.length_append, List.length_singleton] at h
      simp only [weed_inner, List.length_append, List.length_cons]
      rw [if_pos (by omega), hstep, h]
      simp

theorem weed_remove_eq (NOUSR : Nat) :
    ∀ (suf pre : List Nat) (fuel : Nat), suf.length ≤ fuel →
      weed_remove NOUSR fuel pre.length (pre ++ suf) =
        some (pre ++ suf.filter (fun y => y ≠ NOUSR)) := by
  intro suf
  induction suf with
  | nil =>
    intro pre fuel _
    cases fuel <;> simp [weed_remove]
  | cons x suf ih =>
    intro pre fuel hf
    cases fuel with
    | zero => simp at hf
    | succ k =>
      have hk : suf.length ≤ k := by simpa using hf
      simp only [weed_remove, List.length_append, List.length_cons]
      rw [if_pos (by omega), item_at_front_length]
      by_cases hx : x = NOUSR
      · have he : (pre ++ x :: suf).eraseIdx pre.length = pre ++ suf := by
          simp [List.eraseIdx_append_of_length_le]
        rw [if_pos (by simp [hx]), he, ih pre k hk]
        simp [hx]
      · have h := ih (pre ++ [x]) k hk
        simp only [List.length_append, List.length_singleton] at h
        rw [if_neg (by simp [hx])]
        have hl : pre ++ x :: suf = (pre ++ [x]) ++ suf := by simp
        rw [hl, h]
        simp [hx]

theorem filter_ne_comm (a b : Nat) (l : List Nat) :
    (l.filter (fun y => y ≠ a)).filter (fun y => y ≠ b) =
      (l.filter (fun y => y ≠ b)).filter (fun y => y ≠ a) := by
  simp only [List.filter_filter]
  congr 1
  funext y
  exact Bool.and_comm _ _

theorem first_occurrences_filter (x : Nat) (zs : List Nat) :
    first_occurrences (zs.filter (fun y => y ≠ x)) =
      (first_occurrences zs).filter (fun y => y ≠ x) := by
  induction zs with
  | nil => rfl
  | cons z zs ih =>
    by_cases hz : z = x
    · subst hz
      have h1 : (z :: zs).filter (fun y => y ≠ z) = zs.filter (fun y => y ≠ z) := by simp
      rw [h1, ih]
      simp [first_occurrences, List.filter_filter]
    · have h1 : (z :: zs).filter (fun y => y ≠ x) = z :: zs.filter (fun y => y ≠ x) := by
        simp [hz]
      rw [h1]
      simp only [first_occurrences, ih]
      rw [List.filter_cons_of_pos (by simp [hz])]
      rw [filter_ne_comm]

theorem filter_map_overwrite (NOUSR x : Nat) (hx : x ≠ NOUSR) (ys : List Nat) :
    (ys.map (fun y => if y = x then NOUSR else y)).filter (fun y => y ≠ NOUSR) =
      (ys.filter (fun y => y ≠ NOUSR)).filter (fun y => y ≠ x) := by
  induction ys with
  | nil => rfl
  | cons y ys ih =>
    by_cases hy : y = x
    · subst hy
      rw [List.map_cons, if_pos rfl, List.filter_cons_of_neg (by simp), ih,
        List.filter_cons_of_pos (by simp [hx]), List.filter_cons_of_neg (by simp)]
    · by_cases hn : y = NOUSR
      · rw [List.map_cons, if_neg hy, List.filter_cons_of_neg (by simp [hn]), ih,
          List.filter_cons_of_neg (by simp [hn])]
      · rw [List.map_cons, if_neg hy, List.filter_cons_of_pos (by simp [hn]), ih,
          List.filter_cons_of_pos (by simp [hn]), List.filter_cons_of_pos (by simp [hy])]

/-- The loop over `i` leaves the items before `i` alone and, once the `NOUSR` items
are taken out, leaves of the others their first occurrences. -/
theorem weed_outer_eq (NOUSR : Nat) :
    ∀ (n : Nat) (suf pre : List Nat) (fuel : Nat), suf.length ≤ n → suf.length ≤ fuel →
      ∃ out, weed_outer NOUSR fuel pre.length (pre ++ suf) = some (pre ++ out) ∧
        out.length = suf.length ∧
        out.filter (fun y => y ≠ NOUSR) =
          first_occurrences (suf.filter (fun y => y ≠ NOUSR)) := by
  intro n
  induction n with
  | zero =>
    intro suf pre fuel hn _
    have hs : suf = [] := List.length_eq_zero.mp (Nat.le_zero.mp hn)
    subst hs
    refine ⟨[], ?_, rfl, rfl⟩
    cases fuel <;> simp [weed_outer]
  | succ n ih =>
    intro suf pre fuel hn hf
    match suf, hn, hf with
    | [], _, _ =>
      refine ⟨[], ?_, rfl, rfl⟩
      cases fuel <;> simp [weed_outer]
    | [x], _, _ =>
      refine ⟨[x], ?_, rfl, ?_⟩
      · cases fuel <;> simp [weed_outer]
      · by_cases hx : x = NOUSR <;> simp [hx, first_occurrences]
    | x :: y :: ys, hn, hf =>
      cases fuel with
      | zero => simp at hf
      | succ k =>
        have hk : (y :: ys).length ≤ k := by simpa using hf
        have hn1 : (y :: ys).length ≤ n := by simpa using hn
        have htest : pre.length < (pre ++ x :: y :: ys).length - 1 := by
          simp only [List.length_append, List.length_cons]
          omega
        simp only [weed_outer]
        rw [if_pos htest, item_at_front_length]
        simp only
        by_cases hx : x = NOUSR
        · rw [if_pos hx]
          obtain ⟨out, h1, h2, h3⟩ := ih (y :: ys) (pre ++ [x]) k hn1 hk
          simp only [List.length_append, List.length_singleton] at h1
          have hl : pre ++ x :: y :: ys = (pre ++ [x]) ++ (y :: ys) := by simp
          refine ⟨x :: out, ?_, by simp [h2], ?_⟩
          · rw [hl, h1]
            simp
          · have e1 : (x :: out).filter (fun y => y ≠ NOUSR) =
                out.filter (fun y => y ≠ NOUSR) := List.filter_cons_of_neg (by simp [hx])
            have e2 : (x :: y :: ys).filter (fun y => y ≠ NOUSR) =
                (y :: ys).filter (fun y => y ≠ NOUSR) :=
              List.filter_cons_of_neg (by simp [hx])
            rw [e1, e2, h3]
        · rw [if_neg hx]
          have hin := weed_inner_eq NOUSR x (y :: ys) (pre ++ [x])
            (pre ++ x :: y :: ys).length (by simp only [List.length_append, List.length_cons]; omega)
          simp only [List.length_append, List.length_singleton] at hin
          have hl : pre ++ x :: y :: ys = (pre ++ [x]) ++ (y :: ys) := by simp
          have hin2 : weed_inner NOUSR x (pre ++ x :: y :: ys).length (pre.length + 1)
              (pre ++ x :: y :: ys) =
              some ((pre ++ [x]) ++ (y :: ys).map (fun z => if z = x then NOUSR else z)) := by
            rw [← hin]
            simp
          rw [hin2]
          simp only
          obtain ⟨out, h1, h2, h3⟩ := ih ((y :: ys).map (fun z => if z = x then NOUSR else z))
            (pre ++ [x]) k (by simpa using hn1) (by simpa using hk)
          simp only [List.length_append, List.length_singleton] at h1
          refine ⟨x :: out, ?_, by simpa using h2, ?_⟩
          · rw [h1]
            simp
          · have e1 : (x :: out).filter (fun y => y ≠ NOUSR) =
                x :: out.filter (fun y => y ≠ NOUSR) := List.filter_cons_of_pos (by simp [hx])
            have e2 : (x :: y :: ys).filter (fun y => y ≠ NOUSR) =
                x :: (y :: ys).filter (fun y => y ≠ NOUSR) :=
              List.filter_cons_of_pos (by simp [hx])
            rw [e1, e2, h3, filter_map_overwrite NOUSR x hx, first_occurrences_filter]
            rfl

/-- What `weed_users` returns: the items other than `NOUSR`, each once, in the order
of their first occurrence. -/
theorem weed_users_eq (NOUSR : Nat) (up : List Nat) :
    weed_users NOUSR up = some (first_occurrences (up.filter (fun y => y ≠ NOUSR))) := by
  unfold weed_users
  by_cases h0 : up.length = 0
  · have hs : up = [] := List.length_eq_zero.mp h0
    subst hs
    rfl
  · rw [if_neg h0]
    obtain ⟨out, h1, _, h3⟩ := weed_outer_eq NOUSR up.length up [] up.length
      (Nat.le_refl _) (Nat.le_refl _)
    simp only [List.length_nil, List.nil_append] at h1
    rw [h1]
    simp only
    have h4 := weed_remove_eq NOUSR out [] out.length (Nat.le_refl _)
    simp only [List.length_nil, List.nil_append] at h4
    rw [h4, h3]

theorem mem_first_occurrences (u : Nat) (l : List Nat) :
    u ∈ first_occurrences l ↔ u ∈ l := by
  induction l with
  | nil => simp [first_occurrences]
  | cons x xs ih =>
    simp only [first_occurrences, List.mem_cons, List.mem_filter, ih]
    by_cases hu : u = x <;> simp [hu]

theorem first_occurrences_nodup (l : List Nat) : (first_occurrences l).Nodup := by
  induction l with
  | nil => simp [first_occurrences]
  | cons x xs ih =>
    simp only [first_occurrences, List.nodup_cons]
    exact ⟨by simp [List.mem_filter], ih.filter _⟩

theorem first_occurrences_take (l : List Nat) :
    ∀ k, first_occurrences (l.take k) <+: first_occurrences l := by
  induction l with
  | nil => intro k; simp [first_occurrences]
  | cons x xs ih =>
    intro k
    cases k with
    | zero => simp [first_occurrences]
    | succ k =>
      simp only [List.take_succ_cons, first_occurrences]
      obtain ⟨t, ht⟩ := ih k
      refine ⟨t.filter (fun y => y ≠ x), ?_⟩
      rw [← ht]
      simp

/-- C24 (as amended): `weed_users` returns; the list it returns has no repeated uid,
holds exactly the uids of the input other than `NOUSR`, and holds them in the order
of their first occurrence (it is `first_occurrences` of the input without `NOUSR`,
and what a shorter input gives is a prefix of it); for an input that does not hold
`NOUSR` these are exactly the uids of the input. -/
theorem weed_users_first_occurrences (NOUSR : Nat) (up : List Nat) :
    ∃ out, weed_users NOUSR up = some out ∧ out.Nodup ∧
      (∀ u, u ∈ out ↔ u ∈ up ∧ u ≠ NOUSR) ∧
      out = first_occurrences (up.filter (fun y => y ≠ NOUSR)) ∧
      (∀ k, first_occurrences ((up.filter (fun y => y ≠ NOUSR)).take k) <+: out) ∧
      (NOUSR ∉ up → (∀ u, u ∈ out ↔ u ∈ up) ∧ out = first_occurrences up) := by
  refine ⟨_, weed_users_eq NOUSR up, first_occurrences_nodup _, ?_, rfl,
    first_occurrences_take _, ?_⟩
  · intro u
    simp [mem_first_occurrences, List.mem_filter]
  · intro hno
    have hf : up.filter (fun y => y ≠ NOUSR) = up := by
      rw [List.filter_eq_self]
      intro a ha
      have : a ≠ NOUSR := fun h => hno (h ▸ ha)
      simpa using this
    rw [hf]
    exact ⟨fun u => mem_first_occurrences u up, rfl⟩

/-- Witness of C24 as amended: 5, 3, 5, 7, 3 gives 5, 3, 7. -/
theorem weed_users_first_occurrences_witness :
    4294967295 ∉ [5, 3, 5, 7, 3] ∧
    weed_users 4294967295 [5, 3, 5, 7, 3] = some [5, 3, 7] ∧
    ∃ out, weed_users 4294967295 [5, 3, 5, 7, 3] = some out ∧ out.Nodup ∧
      (∀ u, u ∈ out ↔ u ∈ [5, 3, 5, 7, 3]) ∧ out = first_occurrences [5, 3, 5, 7, 3] :=
  ⟨by decide, by decide,
    match weed_users_first_occurrences 4294967295 [5, 3, 5, 7, 3] with
    | ⟨out, h1, h2, _, _, _, h6⟩ => ⟨out, h1, h2, (h6 (by decide)).1, (h6 (by decide)).2⟩⟩

/-- C24 (counterexample to the claim as written): a uid list that holds the value of
`NOUSR` (here the largest 32-bit value) comes back without it, though it occurs in
the input. -/
theorem weed_users_drops_nousr :
    weed_users 4294967295 [4294967295, 5] = some [5] ∧
    4294967295 ∈ [4294967295, 5] ∧ 4294967295 ∉ [5] :=
  ⟨by decide, by decide, by decide⟩

/-! ## Every item of an expression is checked -/

theorem fill_templates_warns (env : Env) (r : Rule) :
    ∀ (tpl : List ReplStr) (c c1 : MailCtx) (rc : Nat),
      fill_templates env r tpl c = some (rc, c1) →
      ∃ tr, c1.trace = c.trace ++ tr ∧ ∀ ev ∈ tr, ∃ s, ev = Event.warn s := by
  intro tpl
  induction tpl with
  | nil =>
    intro c c1 rc h
    simp only [fill_templates, Option.some.injEq, Prod.mk.injEq] at h
    obtain ⟨_, h⟩ := h
    subst h
    exact ⟨[], by simp, by simp⟩
  | cons rs rest ih =>
    intro c c1 rc h
    simp only [fill_templates] at h
    split at h
    · simp only [Option.some.injEq, Prod.mk.injEq] at h
      obtain ⟨_, h⟩ := h
      subst h
      exact ⟨[Event.warn "no actions matching"], rfl, by simp⟩
    · split at h
      · cases h
      · rename_i q _
        exact ih { c with dqueue := q } c1 rc h

/-- Label `skip` calls no matcher and no deliverer and sends nothing: what it adds to
the trace are warnings. -/
theorem skip_adds_warnings (env : Env) (c c1 : MailCtx) (code : MailCode)
    (h : skip env c = Outcome.ret code c1) :
    ∃ tr, c1.trace = c.trace ++ tr ∧ ∀ ev ∈ tr, ∃ s, ev = Event.warn s := by
  cases hrule : c.rule with
  | nil =>
    rw [skip_no_rule env c hrule] at h
    cases h
  | cons r rest =>
    cases hres : c.result with
    | false =>
      rw [skip_nomatch env c hres, next_rule_eq c _ r rest hrule] at h
      cases h
      exact ⟨[], by simp, by simp⟩
    | true =>
      by_cases hn : r.rules = []
      · rw [skip_leaf_exact env c r rest hres hrule hn, tag_mail_eq] at h
        split at h
        · unfold fill_delivery_queue at h
          split at h
          · cases h
          · rename_i rc c2 hfill
            obtain ⟨tr, htr, hw⟩ := fill_templates_warns env r _ _ _ _ hfill
            have hr2 : c2.rule = r :: rest := by
              obtain ⟨rc1, q, tr1, hfr⟩ := fill_templates_frame env r r rest r.actions
                { c with matched := true, done := (c.done || r.stop), mail :=
                  { c.mail with tags := if r.key.str.isSome then tagged env c.mail r
                      else c.mail.tags } } hrule
              rw [hfr] at hfill
              simp only [Option.some.injEq, Prod.mk.injEq] at hfill
              rw [← hfill.2]
              exact hrule
            split at h
            · cases h
              exact ⟨tr, htr, hw⟩
            · rw [next_rule_eq c2 _ r rest hr2] at h
              cases h
              exact ⟨tr, htr, hw⟩
        · simp only [next_rule, hrule] at h
          cases h
          exact ⟨[], by simp, by simp⟩
      · rw [skip_nested env c r rest hres hrule hn] at h
        cases h
        exact ⟨[], by simp, by simp⟩

/-- A call in the middle of an expression, with a further item to come, when the
matcher returns a verdict and stores no message id. -/
theorem match_step_more (env : Env)
    (hmatch : ∀ e d, d.msgid = 0 → ∃ b, env.match_fn e d = ⟨code_of b, 0⟩)
    (c : MailCtx) (r : Rule) (rest : List Rule) (e e2 : ExprItem) (es : List ExprItem)
    (hid : c.msgid = 0) (hdone : c.done = false) (hrule : c.rule = r :: rest)
    (he : c.expritem = e :: e2 :: es) :
    ∃ c1, mail_match env c none none = Outcome.ret MailCode.MAIL_CONTINUE c1 ∧
      c1.msgid = 0 ∧ c1.done = false ∧ c1.rule = c.rule ∧ c1.stack = c.stack ∧
      c1.expritem = e2 :: es ∧ c1.trace = c.trace ++ [Event.matcher e] := by
  obtain ⟨mail, acct, rule, stack, ei, result, done, matched, dq, msgid, tr0⟩ := c
  simp only at hid hdone hrule he
  subst hid hdone hrule he
  obtain ⟨b, hb⟩ := hmatch e
    ⟨{ mail with body := env.set_wrapped mail.body ' ' }, acct, r :: rest, stack,
      e :: e2 :: es, result, false, matched, dq, 0, tr0⟩ rfl
  rw [check_step_more env (fun _ => b) mail acct r rest stack e e2 es result matched dq tr0 hb]
  exact ⟨_, rfl, rfl, rfl, rfl, rfl, rfl, rfl⟩

/-- The call that checks the last item of an expression, when the matcher returns a
verdict and stores no message id: control goes on at label `skip`. -/
theorem match_step_last (env : Env)
    (hmatch : ∀ e d, d.msgid = 0 → ∃ b, env.match_fn e d = ⟨code_of b, 0⟩)
    (c : MailCtx) (r : Rule) (rest : List Rule) (e : ExprItem)
    (hid : c.msgid = 0) (hdone : c.done = false) (hrule : c.rule = r :: rest)
    (he : c.expritem = [e]) :
    ∃ c0, mail_match env c none none = skip env c0 ∧
      c0.rule = c.rule ∧ c0.stack = c.stack ∧ c0.expritem = [] ∧
      c0.trace = c.trace ++ [Event.matcher e] := by
  obtain ⟨mail, acct, rule, stack, ei, result, done, matched, dq, msgid, tr0⟩ := c
  simp only at hid hdone hrule he
  subst hid hdone hrule he
  obtain ⟨b, hb⟩ := hmatch e
    ⟨{ mail with body := env.set_wrapped mail.body ' ' }, acct, r :: rest, stack,
      [e], result, false, matched, dq, 0, tr0⟩ rfl
  rw [check_step_last env (fun _ => b) mail acct r rest stack e result matched dq tr0 hb]
  exact ⟨_, rfl, rfl, rfl, rfl, rfl⟩

theorem match_calls_succ (env : Env) :
    ∀ (k : Nat) (c c1 : MailCtx),
      match_calls env k c = Outcome.ret MailCode.MAIL_CONTINUE c1 →
      match_calls env (k + 1) c = mail_match env c1 none none := by
  intro k
  induction k with
  | zero =>
    intro c c1 h
    simp only [match_calls, Outcome.ret.injEq, true_and] at h
    subst h
    exact match_calls_one env c
  | succ k ih =>
    intro c c1 h
    rw [match_calls] at h
    rw [match_calls]
    split at h
    · rename_i c2 hc
      exact ih c2 c1 h
    · rename_i o hne
      exact absurd h (hne c1)

/-- From the first item of an expression, k calls with k at most the number of items
that follow it return `MAIL_CONTINUE` and have checked the first k items, one per
call, when the matchers return verdicts and store no message id. -/
theorem items_prefix_run (env : Env)
    (hmatch : ∀ e d, d.msgid = 0 → ∃ b, env.match_fn e d = ⟨code_of b, 0⟩)
    (r : Rule) (rest : List Rule) :
    ∀ (k : Nat) (c : MailCtx) (e : ExprItem) (items : List ExprItem),
      c.msgid = 0 → c.done = false → c.rule = r :: rest → c.expritem = e :: items →
      k ≤ items.length →
      ∃ c1, match_calls env k c = Outcome.ret MailCode.MAIL_CONTINUE c1 ∧
        c1.msgid = 0 ∧ c1.done = false ∧ c1.rule = c.rule ∧ c1.stack = c.stack ∧
        c1.expritem = (e :: items).drop k ∧
        c1.trace = c.trace ++ ((e :: items).take k).map Event.matcher := by
  intro k
  induction k with
  | zero =>
    intro c e items hid hdone hrule he _
    exact ⟨c, rfl, hid, hdone, rfl, rfl, by simpa using he, by simp⟩
  | succ k ih =>
    intro c e items hid hdone hrule he hk
    cases items with
    | nil => simp at hk
    | cons e2 es =>
      obtain ⟨c1, h1, h2, h3, h4, h5, h6, h7⟩ :=
        match_step_more env hmatch c r rest e e2 es hid hdone hrule he
      obtain ⟨c2, k1, k2, k3, k4, k5, k6, k7⟩ := ih c1 e2 es h2 h3 (h4.trans hrule) h6
        (by simpa using hk)
      refine ⟨c2, ?_, k2, k3, k4.trans h4, k5.trans h5, by simpa using k6, ?_⟩
      · rw [match_calls, h1]
        exact k1
      · rw [k7, h7]
        simp

/-- C25: for a rule whose account list lets the account pass and whose expression has
the n items `ei :: items`, with matchers that return a verdict (`MATCH_TRUE` or
`MATCH_FALSE`) and store no message id: for every k from 1 to n - 1 the first k
calls of `mail_match` return `MAIL_CONTINUE`, rule and stack are as before, the
cursor stands after the k-th item and exactly the matchers of the first k items have
been called, in order, one per call; the n-th call has called the matchers of all n
items in order, each once, whatever the verdicts, and goes on at label `skip` with
the cursor `NULL`, where the rule is concluded: the call returns, and `skip` adds
nothing but warnings to the trace. -/
theorem every_item_is_checked_once (env : Env) (mctx : MailCtx) (r : Rule)
    (rest : List Rule) (ei : ExprItem) (items : List ExprItem)
    (hmatch : ∀ e d, d.msgid = 0 → ∃ b, env.match_fn e d = ⟨code_of b, 0⟩)
    (hmsgid : mctx.msgid = 0) (hdone : mctx.done = false) (hrule : mctx.rule = r :: rest)
    (hexpr : mctx.expritem = []) (hacc : account_excluded env mctx r = false)
    (hitems : r.expr = some (ei :: items)) :
    (∀ k, 1 ≤ k → k ≤ items.length →
      ∃ c, match_calls env k mctx = Outcome.ret MailCode.MAIL_CONTINUE c ∧
        c.rule = mctx.rule ∧ c.stack = mctx.stack ∧ c.expritem = (ei :: items).drop k ∧
        c.trace = mctx.trace ++ ((ei :: items).take k).map Event.matcher) ∧
    (∃ c0, c0.rule = mctx.rule ∧ c0.stack = mctx.stack ∧ c0.expritem = [] ∧
      c0.trace = mctx.trace ++ (ei :: items).map Event.matcher ∧
      match_calls env (items.length + 1) mctx = skip env c0 ∧
      ∃ code c tr, skip env c0 = Outcome.ret code c ∧ c.trace = c0.trace ++ tr ∧
        ∀ ev ∈ tr, ∃ s, ev = Event.warn s) := by
  have hstart := start_is_check env mctx r rest ei items hmsgid hdone hrule hexpr hacc hitems
  have hcalls : ∀ k, match_calls env (k + 1) mctx =
      match_calls env (k + 1) { mctx with result := false, expritem := ei :: items } := by
    intro k
    simp only [match_calls, hstart]
  have hrun := fun k => items_prefix_run env hmatch r rest k
    { mctx with result := false, expritem := ei :: items } ei items hmsgid hdone hrule rfl
  constructor
  · intro k hk1 hk
    obtain ⟨k0, rfl⟩ : ∃ k0, k = k0 + 1 := ⟨k - 1, by omega⟩
    obtain ⟨c1, h1, _, _, h4, h5, h6, h7⟩ := hrun (k0 + 1) hk
    exact ⟨c1, (hcalls k0).trans h1, h4, h5, h6, h7⟩
  · obtain ⟨c1, h1, h2, h3, h4, h5, h6, h7⟩ := hrun items.length (Nat.le_refl _)
    have hlen : ((ei :: items).drop items.length).length = 1 := by simp
    obtain ⟨x, hx⟩ := List.length_eq_one.mp hlen
    have hsplit : (ei :: items).take items.length ++ [x] = ei :: items := by
      rw [← hx]
      exact List.take_append_drop _ _
    obtain ⟨c0, g1, g2, g3, g4, g5⟩ := match_step_last env hmatch c1 r rest x h2 h3
      (h4.trans hrule) (h6.trans hx)
    obtain ⟨code, c, hs⟩ := skip_returns env c0 r rest (g2.trans (h4.trans hrule))
    obtain ⟨tr, htr, hw⟩ := skip_adds_warnings env c0 c code hs
    refine ⟨c0, g2.trans h4, g3.trans h5, g4, ?_, ?_, code, c, tr, hs, htr, hw⟩
    · rw [g5, h7]
      simp only [List.append_assoc]
      rw [← List.map_singleton, ← List.map_append, hsplit]
    · rw [hcalls items.length, match_calls_succ env items.length _ c1 h1]
      exact g1

/-- Witness of C25: the three items of `regexp "^Y" and regexp "^X" or regexp "^Y"`;
the second verdict is false, the third item is checked all the same. -/
theorem every_item_is_checked_once_witness :
    account_excluded sample_env (fresh_mctx [rule_y_and_x_or_y]) rule_y_and_x_or_y = false ∧
    (match_calls sample_env 3 (fresh_mctx [rule_y_and_x_or_y])).mctx?.map
        (fun c => c.trace.take 3) = some (items_y_and_x_or_y.map Event.matcher) ∧
    ∃ c, match_calls sample_env 2 (fresh_mctx [rule_y_and_x_or_y]) =
        Outcome.ret MailCode.MAIL_CONTINUE c ∧
      c.rule = (fresh_mctx [rule_y_and_x_or_y]).rule ∧
      c.stack = (fresh_mctx [rule_y_and_x_or_y]).stack ∧
      c.expritem = items_y_and_x_or_y.drop 2 ∧
      c.trace = (fresh_mctx [rule_y_and_x_or_y]).trace ++
        (items_y_and_x_or_y.take 2).map Event.matcher :=
  ⟨rfl, rfl,
    (every_item_is_checked_once sample_env (fresh_mctx [rule_y_and_x_or_y])
      rule_y_and_x_or_y []
      { op := Op.OP_NONE, inverted := false, matcher := "regexp", data := "^Y" }
      items_y_and_x_or_y.tail
      (by
        intro e d hd
        simp only [sample_env, first_char_matcher]
        split
        · split
          · exact ⟨true, by rw [hd]; rfl⟩
          · exact ⟨false, by rw [hd]; rfl⟩
        · exact ⟨false, by rw [hd]; rfl⟩)
      rfl rfl rfl rfl rfl rfl).1 2 (by decide) (by decide)⟩

/-! ## The expression cursor -/

theorem next_expritem_ret_cursor (c c1 : MailCtx) (code : MailCode)
    (h : next_expritem c = Jump.ret (Outcome.ret code c1)) :
    c1.rule = c.rule ∧ c1.stack = c.stack ∧ c1.expritem ≠ [] ∧
      ∃ e, c.expritem = e :: c1.expritem := by
  unfold next_expritem at h
  split at h
  · cases h
  · rename_i e next hnext
    dsimp only at h
    split at h
    · rename_i hne
      cases h
      exact ⟨rfl, rfl, by simpa using hne, e, hnext⟩
    · cases h

theorem check_expritem_ret_cursor (env : Env) (c c1 : MailCtx) (code : MailCode)
    (h : check_expritem env c = Jump.ret (Outcome.ret code c1)) :
    c1.rule = c.rule ∧ c1.stack = c.stack ∧ c1.expritem ≠ [] ∧
      (c1.expritem = c.expritem ∨ ∃ e, c.expritem = e :: c1.expritem) := by
  unfold check_expritem at h
  split at h
  · cases h
  · rename_i ei rest hei
    dsimp only at h
    split at h
    · cases h
      exact ⟨rfl, rfl, by simp [hei], Or.inl rfl⟩
    · cases h
      exact ⟨rfl, rfl, by simp [hei], Or.inl rfl⟩
    · obtain ⟨b, hb⟩ := adjust_result_frame ei MatchCode.MATCH_TRUE
        { c with msgid := (env.match_fn ei c).msgid, trace := c.trace ++ [Event.matcher ei] }
      rw [hb] at h
      obtain ⟨h1, h2, h3, h4⟩ := next_expritem_ret_cursor _ _ _ h
      exact ⟨h1, h2, h3, Or.inr h4⟩
    · obtain ⟨b, hb⟩ := adjust_result_frame ei MatchCode.MATCH_FALSE
        { c with msgid := (env.match_fn ei c).msgid, trace := c.trace ++ [Event.matcher ei] }
      rw [hb] at h
      obtain ⟨h1, h2, h3, h4⟩ := next_expritem_ret_cursor _ _ _ h
      exact ⟨h1, h2, h3, Or.inr h4⟩

theorem match_blocked_ret_cursor (env : Env) (c c1 : MailCtx) (msg : Option Msg)
    (msgbuf : Option Msgbuf) (code : MailCode)
    (h : match_blocked env c msg msgbuf = Jump.ret (Outcome.ret code c1)) :
    c1.rule = c.rule ∧ c1.stack = c.stack ∧
      (c1.expritem = c.expritem ∨ ∃ e, c.expritem = e :: c1.expritem) := by
  unfold match_blocked at h
  split at h
  · cases h
    exact ⟨rfl, rfl, Or.inl rfl⟩
  · split at h
    · cases h
      exact ⟨rfl, rfl, Or.inl rfl⟩
    · dsimp only at h
      split at h
      · cases h
      · split at h
        · cases h
        · split at h
          · cases h
          · split at h
            · cases h
            · split at h
              · cases h
                exact ⟨rfl, rfl, Or.inl rfl⟩
              · split at h
                · cases h
                · rename_i ei rest hei
                  obtain ⟨b, hb⟩ := adjust_result_frame ei MatchCode.MATCH_TRUE
                    { c with msgid := 0, mail := { c.mail with tags := ‹Tags› } }
                  rw [hb] at h
                  obtain ⟨h1, h2, _, h4⟩ := next_expritem_ret_cursor _ _ _ h
                  exact ⟨h1, h2, Or.inr h4⟩
              · split at h
                · cases h
                · rename_i ei rest hei
                  obtain ⟨b, hb⟩ := adjust_result_frame ei MatchCode.MATCH_FALSE
                    { c with msgid := 0, mail := { c.mail with tags := ‹Tags› } }
                  rw [hb] at h
                  obtain ⟨h1, h2, _, h4⟩ := next_expritem_ret_cursor _ _ _ h
                  exact ⟨h1, h2, Or.inr h4⟩
              · cases h

theorem start_expr_ret_cursor (env : Env) (c c1 : MailCtx) (r : Rule) (code : MailCode)
    (h : start_expr env c r = Jump.ret (Outcome.ret code c1)) :
    c1.rule = c.rule ∧ c1.stack = c.stack ∧ c1.expritem ≠ [] ∧
      ∃ items, r.expr = some items ∧ (c1.expritem = items ∨ ∃ e, items = e :: c1.expritem) := by
  unfold start_expr at h
  split at h
  · cases h
  · split at h
    · cases h
    · cases h
    · rename_i ei items hexpr
      obtain ⟨h1, h2, h3, h4⟩ := check_expritem_ret_cursor env _ c1 code h
      exact ⟨h1, h2, h3, ei :: items, hexpr, h4⟩

/-- A call that returns before label `skip` leaves rule and stack alone and moves the
cursor by `cursor_step`; when it was entered with `msgid = 0` and returns
`MAIL_BLOCKED`, the cursor is not `NULL`. -/
theorem to_skip_ret_cursor (env : Env) (c c1 : MailCtx) (msg : Option Msg)
    (msgbuf : Option Msgbuf) (code : MailCode)
    (h : mail_match_to_skip env c msg msgbuf = Jump.ret (Outcome.ret code c1)) :
    c1.rule = c.rule ∧ c1.stack = c.stack ∧ cursor_step c c1 ∧
      (c.msgid = 0 → code = MailCode.MAIL_BLOCKED → c1.expritem ≠ []) := by
  obtain ⟨mail, acct, rule, stack, ei, result, done, matched, dq, msgid, tr0⟩ := c
  unfold mail_match_to_skip at h
  simp only [wrap] at h
  split at h
  · rename_i hid
    obtain ⟨h1, h2, h3⟩ := match_blocked_ret_cursor env _ c1 msg msgbuf code h
    refine ⟨h1, h2, ?_, fun h0 => absurd h0 (by simpa using hid)⟩
    rcases h3 with h3 | h3
    · exact Or.inl h3
    · exact Or.inr (Or.inl h3)
  · split at h
    · cases h
      exact ⟨rfl, rfl, Or.inl rfl, fun _ hb => by cases hb⟩
    · split at h
      · unfold end_of_ruleset at h
        split at h <;> cases h <;> exact ⟨rfl, rfl, Or.inl rfl, fun _ hb => by cases hb⟩
      · rename_i r rest
        split at h
        · obtain ⟨h1, h2, h3, items, h4, h5⟩ := start_expr_ret_cursor env _ c1 r code h
          exact ⟨h1, h2, Or.inr (Or.inr ⟨rfl, r, rest, items, rfl, h4, h5⟩), fun _ _ => h3⟩
        · obtain ⟨h1, h2, h3, h4⟩ := check_expritem_ret_cursor env _ c1 code h
          refine ⟨h1, h2, ?_, fun _ _ => h3⟩
          rcases h4 with h4 | h4
          · exact Or.inl h4
          · exact Or.inr (Or.inl h4)

theorem skip_expritem (env : Env) (c c1 : MailCtx) (code : MailCode)
    (h : skip env c = Outcome.ret code c1) : c1.expritem = c.expritem := by
  cases hrule : c.rule with
  | nil =>
    rw [skip_no_rule env c hrule] at h
    cases h
  | cons r rest =>
    cases hres : c.result with
    | false =>
      rw [skip_nomatch env c hres, next_rule_eq c _ r rest hrule] at h
      cases h
      rfl
    | true =>
      by_cases hn : r.rules = []
      · obtain ⟨tags, q, tr, code1, hs, _⟩ := skip_leaf env c r rest hres hrule hn
        rw [hs] at h
        split at h
        · cases h
          rfl
        · simp only [next_rule, hrule, Outcome.ret.injEq] at h
          obtain ⟨_, h⟩ := h
          subst h
          rfl
      · rw [skip_nested env c r rest hres hrule hn] at h
        cases h
        rfl

/-- C27: when `mail_match` is entered with the expression cursor `NULL` or at an item
of the current rule's expression and returns, the cursor is again `NULL` or at an
item of the current rule's expression, and when it is not `NULL` rule and stack are
the ones on entry; whenever rule or stack have changed, the call has returned
`MAIL_DELIVER`, or control has reached label `skip` (where the rule is concluded), the
cursor is `NULL`; and when a call entered with `msgid = 0` returns `MAIL_BLOCKED` (a
matcher has returned `MATCH_PARENT`), the cursor is not `NULL`. -/
theorem cursor_stays_in_expression (env : Env) (mctx : MailCtx) (msg : Option Msg)
    (msgbuf : Option Msgbuf) (code : MailCode) (c1 : MailCtx)
    (hin : in_expression mctx)
    (h : mail_match env mctx msg msgbuf = Outcome.ret code c1) :
    in_expression c1 ∧
    (c1.expritem ≠ [] → c1.rule = mctx.rule ∧ c1.stack = mctx.stack) ∧
    (c1.rule ≠ mctx.rule ∨ c1.stack ≠ mctx.stack ∨ code = MailCode.MAIL_DELIVER →
      c1.expritem = []) ∧
    (∀ c0, mail_match_to_skip env mctx msg msgbuf = Jump.skip c0 → c1.expritem = []) ∧
    (mctx.msgid = 0 → code = MailCode.MAIL_BLOCKED → c1.expritem ≠ []) := by
  unfold mail_match at h
  cases hj : mail_match_to_skip env mctx msg msgbuf with
  | ret o =>
    rw [hj] at h
    simp only at h
    subst h
    obtain ⟨h1, h2, h3, h4⟩ := to_skip_ret_cursor env mctx c1 msg msgbuf code hj
    obtain ⟨_, hcode⟩ := to_skip_ret_frame env mctx c1 msg msgbuf code hj
    have hinv : in_expression c1 := by
      rcases h3 with h3 | ⟨e, h3⟩ | ⟨_, r, rest, items, hr, hx, h3⟩
      · rcases hin with hin | ⟨r, rest, items, hr, hx, hs⟩
        · exact Or.inl (h3.trans hin)
        · exact Or.inr ⟨r, rest, items, h1.trans hr, hx, h3 ▸ hs⟩
      · rcases hin with hin | ⟨r, rest, items, hr, hx, hs⟩
        · rw [h3] at hin
          cases hin
        · refine Or.inr ⟨r, rest, items, h1.trans hr, hx, ?_⟩
          rw [h3] at hs
          exact (List.suffix_cons e _).trans hs
      · refine Or.inr ⟨r, rest, items, h1.trans hr, hx, ?_⟩
        rcases h3 with h3 | ⟨e, h3⟩
        · rw [h3]
        · rw [h3]
          exact List.suffix_cons e _
    refine ⟨hinv, fun _ => ⟨h1, h2⟩, ?_, fun c0 hc => (by cases hc), h4⟩
    intro hch
    rcases hch with hch | hch | hch
    · exact absurd h1 hch
    · exact absurd h2 hch
    · subst hch
      rcases hcode with hcode | hcode | hcode | hcode <;> cases hcode
  | skip c0 =>
    rw [hj] at h
    simp only at h
    obtain ⟨b, id, tr, tags, hc0, _⟩ := to_skip_frame env mctx c0 msg msgbuf hj
    have he0 : c0.expritem = [] := by rw [hc0]
    have he1 : c1.expritem = [] := (skip_expritem env c0 c1 code h).trans he0
    refine ⟨Or.inl he1, fun hne => absurd he1 hne, fun _ => he1, fun _ _ => he1, ?_⟩
    intro _ hb
    subst hb
    rcases skip_code env c0 c1 _ h with hc | hc | hc <;> cases hc

/-- Witness of C27: the first call on `rule_y_and_x_or_y` checks the first item and
leaves the cursor at the second. -/
theorem cursor_stays_in_expression_witness :
    in_expression (fresh_mctx [rule_y_and_x_or_y]) ∧
    ∃ c1, mail_match sample_env (fresh_mctx [rule_y_and_x_or_y]) none none =
        Outcome.ret MailCode.MAIL_CONTINUE c1 ∧
      c1.expritem = items_y_and_x_or_y.tail ∧ in_expression c1 ∧
      (c1.expritem ≠ [] → c1.rule = (fresh_mctx [rule_y_and_x_or_y]).rule ∧
        c1.stack = (fresh_mctx [rule_y_and_x_or_y]).stack) :=
  ⟨Or.inl rfl, _, rfl, rfl,
    (cursor_stays_in_expression sample_env (fresh_mctx [rule_y_and_x_or_y]) none none _ _
      (Or.inl rfl) rfl).1,
    (cursor_stays_in_expression sample_env (fresh_mctx [rule_y_and_x_or_y]) none none _ _
      (Or.inl rfl) rfl).2.1⟩

/-! ## The head of the queue while blocked -/

theorem start_action_parent (env : Env) (c c1 : MailCtx) (d : DeliverCtx)
    (h : start_action env c d = ActionOutcome.ret ActionCode.ACTION_PARENT c1) :
    ∃ sent payload, c1.trace = c.trace ++ [Event.send sent payload] ∧
      c1.dqueue = c.dqueue ∧ c1.msgid = sent.id ∧ sent.type = MsgType.MSG_ACTION ∧
      sent.data.action = some d.action ∧ sent.data.account = some d.account ∧
      sent.data.uid = d.uid := by
  unfold start_action at h
  dsimp only at h
  split at h
  · cases h
  · split at h
    · split at h <;> cases h
    · split at h
      · cases h
      · cases h
        exact ⟨_, _, rfl, rfl, rfl, rfl, rfl, rfl, rfl⟩

/-- A call of `mail_deliver` that returns `MAIL_BLOCKED` either was entered blocked and
has changed nothing but the wrapping of the body, or has just sent the action of the
head entry. -/
theorem mail_deliver_blocked_forms (env : Env) (c c1 : MailCtx) (msg : Option Msg)
    (msgbuf : Option Msgbuf)
    (h : mail_deliver env c msg msgbuf = Outcome.ret MailCode.MAIL_BLOCKED c1) :
    (c.msgid ≠ 0 ∧ c1 = wrap env c '\n') ∨
    (c.msgid = 0 ∧ ∃ d q sent payload, c.dqueue = d :: q ∧ c1.dqueue = d :: q ∧
      c1.trace = c.trace ++ [Event.send sent payload] ∧ c1.msgid = sent.id ∧
      sent.type = MsgType.MSG_ACTION ∧ sent.data.action = some d.action ∧
      sent.data.account = some d.account ∧ sent.data.uid = d.uid) := by
  obtain ⟨mail, acct, rule, stack, ei, result, done, matched, dq, msgid, tr0⟩ := c
  simp only [mail_deliver, wrap] at h
  split at h
  · rename_i hid
    left
    refine ⟨hid, ?_⟩
    split at h
    · cases h
      rfl
    · split at h
      · cases h
        rfl
      · split at h
        · rename_i dctx q mb
          generalize hf : finish_action env _ dctx _ mb = fo at h
          cases fo with
          | fatalx why => cases h
          | ret ac c2 =>
            cases ac
            · simp only [deliver_done] at h
              cases h
            · cases h
            · simp only [deliver_done] at h
              cases h
        · cases h
  · rename_i hid
    have hid0 : msgid = 0 := by simpa using hid
    subst hid0
    right
    refine ⟨rfl, ?_⟩
    split at h
    · cases h
    · rename_i dctx q
      generalize hf : start_action env _ dctx = so at h
      cases so with
      | fatalx why => cases h
      | ret ac c2 =>
        cases ac
        · simp only [deliver_done] at h
          cases h
        · cases h
        · cases h
          obtain ⟨sent, payload, h1, h2, h3, h4, h5, h6, h7⟩ :=
            start_action_parent env _ c1 dctx hf
          exact ⟨dctx, q, sent, payload, rfl, h2, h1, h3, h4, h5, h6, h7⟩

theorem deliver_step_awaits_head (env : Env) (c c1 : MailCtx) (msg : Option Msg)
    (msgbuf : Option Msgbuf) (code : MailCode) (hinv : awaits_head c)
    (h : mail_deliver env c msg msgbuf = Outcome.ret code c1) : awaits_head c1 := by
  intro hid1
  rcases mail_deliver_msgid env c msg msgbuf code c1 h with
    ⟨hc, _, _⟩ | ⟨hc, _, _⟩ | ⟨_, h0⟩
  · subst hc
    rcases mail_deliver_blocked_forms env c c1 msg msgbuf h with ⟨hid, hc1⟩ | ⟨_, hd⟩
    · obtain ⟨d, q, sent, payload, tr, h1, h2, h3, h4, h5, h6, h7⟩ := hinv hid
      subst hc1
      exact ⟨d, q, sent, payload, tr, h1, h2, h3, h4, h5, h6, h7⟩
    · obtain ⟨d, q, sent, payload, _, h2, h3, h4, h5, h6, h7, h8⟩ := hd
      exact ⟨d, q, sent, payload, c.trace, h2, h3, h5, h4.symm, h6, h7, h8⟩
  · subst hc
    rcases mail_deliver_blocked_forms env c c1 msg msgbuf h with ⟨hid, hc1⟩ | ⟨_, hd⟩
    · obtain ⟨d, q, sent, payload, tr, h1, h2, h3, h4, h5, h6, h7⟩ := hinv hid
      subst hc1
      exact ⟨d, q, sent, payload, tr, h1, h2, h3, h4, h5, h6, h7⟩
    · obtain ⟨d, q, sent, payload, _, h2, h3, h4, h5, h6, h7, h8⟩ := hd
      exact ⟨d, q, sent, payload, c.trace, h2, h3, h5, h4.symm, h6, h7, h8⟩
  · exact absurd h0 hid1

theorem deliver_seq_awaits_head (env : Env) :
    ∀ (calls : List (Option Msg × Option Msgbuf)) (c0 c : MailCtx), awaits_head c0 →
      deliver_seq env calls c0 = some c → awaits_head c := by
  intro calls
  induction calls with
  | nil =>
    intro c0 c h0 h
    simp only [deliver_seq, Option.some.injEq] at h
    subst h
    exact h0
  | cons call calls ih =>
    intro c0 c h0 h
    obtain ⟨msg, msgbuf⟩ := call
    simp only [deliver_seq] at h
    split at h
    · rename_i code c1 hstep
      exact ih c1 c (deliver_step_awaits_head env c0 c1 msg msgbuf code h0 hstep) h
    · cases h

theorem mail_deliver_no_fault (env : Env) (c : MailCtx) (msg : Option Msg) (mb : Msgbuf)
    (hinv : awaits_head c) : mail_deliver env c msg (some mb) ≠ Outcome.fault := by
  by_cases hid : c.msgid = 0
  · obtain ⟨mail, acct, rule, stack, ei, result, done, matched, dq, msgid, tr0⟩ := c
    simp only at hid
    subst hid
    simp only [mail_deliver, wrap, ne_eq, not_true_eq_false, if_false]
    split
    · simp
    · rename_i dctx q
      generalize start_action env _ dctx = so
      cases so with
      | fatalx why => simp
      | ret ac c2 => cases ac <;> simp [deliver_done]
  · obtain ⟨d, q, _, _, _, hq, _⟩ := hinv hid
    obtain ⟨mail, acct, rule, stack, ei, result, done, matched, dq, msgid, tr0⟩ := c
    simp only at hid hq
    subst hq
    simp only [mail_deliver, wrap, ne_eq, hid, not_false_eq_true, if_true]
    split
    · simp
    · split
      · simp
      · generalize finish_action env _ d _ mb = fo
        cases fo with
        | fatalx why => simp
        | ret ac c2 => cases ac <;> simp [deliver_done]

/-- C28: in a context reached from one with `msgid = 0` by calls of `mail_deliver`
(with whatever replies) in which `msgid` is not 0, the queue is not empty and its
head is the entry whose action, account and uid were sent to the parent under the id
`msgid` by the last thing the context did; so no call with a message buffer ends in
the dereference of a missing head entry, and the reply with the awaited id (and a
non-empty tag buffer) is taken for the head entry: the call returns `MAIL_ERROR`
with the queue as it is or `MAIL_CONTINUE` with the head entry removed. -/
theorem blocked_head_is_the_sent_entry (env : Env) (c0 c : MailCtx)
    (calls : List (Option Msg × Option Msgbuf))
    (h0 : c0.msgid = 0) (hrun : deliver_seq env calls c0 = some c) (hid : c.msgid ≠ 0) :
    ∃ d q sent payload tr, c.dqueue = d :: q ∧ c.trace = tr ++ [Event.send sent payload] ∧
      sent.type = MsgType.MSG_ACTION ∧ sent.id = c.msgid ∧
      sent.data.action = some d.action ∧ sent.data.account = some d.account ∧
      sent.data.uid = d.uid ∧
      (∀ msg mb, mail_deliver env c msg (some mb) ≠ Outcome.fault) ∧
      (∀ (reply : Msg) (buf : Tags) (len : Nat), reply.id = c.msgid → len ≠ 0 →
        ∃ code c1, mail_deliver env c (some reply) (some ⟨some buf, len⟩) =
            Outcome.ret code c1 ∧
          ((code = MailCode.MAIL_ERROR ∧ c1.dqueue = d :: q) ∨
            (code = MailCode.MAIL_CONTINUE ∧ c1.dqueue = q))) := by
  have hinv : awaits_head c :=
    deliver_seq_awaits_head env calls c0 c (fun h => absurd h0 h) hrun
  obtain ⟨d, q, sent, payload, tr, h1, h2, h3, h4, h5, h6, h7⟩ := hinv hid
  refine ⟨d, q, sent, payload, tr, h1, h2, h3, h4, h5, h6, h7,
    fun msg mb => mail_deliver_no_fault env c msg mb hinv, ?_⟩
  intro reply buf len hrid hlen
  rw [mail_deliver_reply env c d q reply buf len hid hrid h1 hlen]
  by_cases herr : reply.data.error = 0
  · by_cases ht : d.action.deliver.type = DeliverType.DELIVER_WRBACK
    · simp only [herr, ht, ne_eq, not_true_eq_false, if_false]
      exact ⟨_, _, rfl, Or.inr ⟨rfl, rfl⟩⟩
    · simp only [herr, ht, ne_eq, not_true_eq_false, not_false_eq_true, if_false, if_true]
      exact ⟨_, _, rfl, Or.inr ⟨rfl, rfl⟩⟩
  · simp only [herr, ne_eq, not_false_eq_true, if_true]
    exact ⟨_, _, rfl, Or.inl ⟨rfl, h1⟩⟩

/-- Witness of C28: the `mbox` delivery is sent by the first call; the second call,
without a reply, leaves the context blocked, the `mbox` entry still at the head. -/
theorem blocked_head_is_the_sent_entry_witness :
    mbox_queued_mctx.msgid = 0 ∧
    (deliver_seq sample_env [(none, none), (none, none)] mbox_queued_mctx).map
        (fun c => (c.msgid, c.dqueue.map (fun d => d.action.name))) = some (7, ["mbox"]) ∧
    ∃ c, deliver_seq sample_env [(none, none), (none, none)] mbox_queued_mctx = some c ∧
      ∃ d q sent payload tr, c.dqueue = d :: q ∧
        c.trace = tr ++ [Event.send sent payload] ∧ sent.data.action = some d.action :=
  ⟨rfl, rfl, _, rfl,
    match blocked_head_is_the_sent_entry sample_env mbox_queued_mctx _
      [(none, none), (none, none)] rfl rfl (by decide) with
    | ⟨d, q, sent, payload, tr, h1, h2, _, _, h5, _⟩ => ⟨d, q, sent, payload, tr, h1, h2, h5⟩⟩

/-! ## No rollback on a failed expansion -/

/-- The loop over the templates when the template after `pre` is the first that
matches no action: the entries for `pre` are queued, a warning is logged and the
value is 1. -/
theorem fill_templates_first_unmatched (env : Env) (r r0 : Rule) (rest : List Rule)
    (c : MailCtx) (hr : c.rule = r0 :: rest) (bad : ReplStr) (post : List ReplStr)
    (hbad : match_actions env (env.replacestr bad c.mail.tags c.mail) = []) :
    ∀ (pre : List ReplStr) (q0 : List DeliverCtx),
      (∀ rs ∈ pre, match_actions env (env.replacestr rs c.mail.tags c.mail) ≠ []) →
      fill_templates env r (pre ++ bad :: post) { c with dqueue := q0 } =
        some (1, { c with dqueue := q0 ++ expected_dctxs env c r pre,
                          trace := c.trace ++ [Event.warn "no actions matching"] }) := by
  intro pre
  induction pre with
  | nil =>
    intro q0 _
    simp [fill_templates, hbad, expected_dctxs]
  | cons rs pre ih =>
    intro q0 hall
    have h1 : match_actions env (env.replacestr rs c.mail.tags c.mail) ≠ [] :=
      hall rs (List.mem_cons_self _ _)
    have h2 : ∀ x ∈ pre, match_actions env (env.replacestr x c.mail.tags c.mail) ≠ [] :=
      fun x hx => hall x (List.mem_cons_of_mem _ hx)
    simp only [List.cons_append, fill_templates, List.isEmpty_iff, h1, if_false]
    have h := fill_actions_queue env c r r0 rest hr
      (match_actions env (env.replacestr rs c.mail.tags c.mail)) q0 q0
    simp only at h
    rw [h]
    simp only
    refine (ih _ h2).trans ?_
    simp [expected_dctxs, List.append_assoc]

/-- C29: when a rule without nested rules matches (control reaches label `skip` with
the result set) and the template after `pre` is the first of its action templates
that matches no action, `mail_match` returns `MAIL_ERROR` and rolls nothing back:
rule and stack are the ones on entry (the rule is not advanced), the entries for the
templates `pre` are in the queue behind what was there, the tag store is the one
after tagging (the rule's tag is in it when key and value were substituted and the
key is not empty), the matched flag is set and `done` is set when the rule is a stop
rule. -/
theorem failed_expansion_is_not_rolled_back (env : Env) (mctx : MailCtx)
    (msg : Option Msg) (msgbuf : Option Msgbuf) (c1 : MailCtx) (r : Rule)
    (rest : List Rule) (pre post : List ReplStr) (bad : ReplStr)
    (hskip : mail_match_to_skip env mctx msg msgbuf = Jump.skip c1)
    (hres : c1.result = true) (hrule : mctx.rule = r :: rest) (hleaf : r.rules = [])
    (hact : r.actions = pre ++ bad :: post)
    (hpre : ∀ rs ∈ pre, match_actions env
      (env.replacestr rs (after_tag env c1 r).mail.tags (after_tag env c1 r).mail) ≠ [])
    (hbad : match_actions env
      (env.replacestr bad (after_tag env c1 r).mail.tags (after_tag env c1 r).mail) = []) :
    ∃ c, mail_match env mctx msg msgbuf = Outcome.ret MailCode.MAIL_ERROR c ∧
      c.rule = mctx.rule ∧ c.stack = mctx.stack ∧ c.expritem = [] ∧
      c.dqueue = mctx.dqueue ++ expected_dctxs env (after_tag env c1 r) r pre ∧
      c.mail.tags = (after_tag env c1 r).mail.tags ∧
      (∀ k v, r.key.str.isSome = true →
        env.replacestr r.key c1.mail.tags c1.mail = some k →
        env.replacestr r.value c1.mail.tags c1.mail = some v → k ≠ "" →
        c.mail.tags = env.add_tag c1.mail.tags k v) ∧
      c.matched = true ∧ c.done = (mctx.done || r.stop) := by
  obtain ⟨b, id, tr1, tags, hc1, _⟩ := to_skip_frame env mctx c1 msg msgbuf hskip
  have hrule1 : c1.rule = r :: rest := by rw [hc1]; exact hrule
  have hq1 : c1.dqueue = mctx.dqueue := by rw [hc1]
  have hd1 : c1.done = mctx.done := by rw [hc1]
  have hs1 : c1.stack = mctx.stack := by rw [hc1]
  have he1 : c1.expritem = [] := by rw [hc1]
  have hfill := fill_templates_first_unmatched env r r rest (after_tag env c1 r) hrule1
    bad post hbad pre (after_tag env c1 r).dqueue hpre
  have hne : r.actions.isEmpty = false := by rw [hact]; cases pre <;> rfl
  refine ⟨{ after_tag env c1 r with
      dqueue := (after_tag env c1 r).dqueue ++ expected_dctxs env (after_tag env c1 r) r pre,
      trace := (after_tag env c1 r).trace ++ [Event.warn "no actions matching"] },
    ?_, ?_, hs1, he1, ?_, rfl, ?_, rfl, ?_⟩
  · simp only [mail_match, hskip]
    rw [skip_leaf_exact env c1 r rest hres hrule1 hleaf, tag_mail_after]
    simp only [hne, Bool.not_false, if_true, fill_delivery_queue]
    rw [hact]
    have hfill2 : fill_templates env r (pre ++ bad :: post) (after_tag env c1 r) = _ := hfill
    rw [hfill2]
    simp
  · exact hrule1.trans hrule.symm
  · show c1.dqueue ++ _ = _
    rw [hq1]
  · intro k v hkey hk hv hne0
    show (if r.key.str.isSome then tagged env c1.mail r else c1.mail.tags) = _
    rw [if_pos hkey]
    simp [tagged, hk, hv, hne0]
  · show (c1.done || r.stop) = _
    rw [hd1]

/-- Witness of C29: the stop rule `rule_keep_nosuch_mbox`; the entry for `keep` stays
queued, the tag `k` stays, `matched` and `done` are set, and the rule is still the
current one. -/
theorem failed_expansion_is_not_rolled_back_witness :
    (mail_match sample_env (fresh_mctx [rule_keep_nosuch_mbox]) none none).code? =
      some MailCode.MAIL_ERROR ∧
    (mail_match sample_env (fresh_mctx [rule_keep_nosuch_mbox]) none none).mctx?.map
      (fun c => (c.rule.map Rule.idx, c.dqueue.map (fun d => d.action.name), c.mail.tags,
        c.matched, c.done)) = some ([10], ["keep"], [("k", "v")], true, true) ∧
    ∃ c, mail_match sample_env (fresh_mctx [rule_keep_nosuch_mbox]) none none =
        Outcome.ret MailCode.MAIL_ERROR c ∧
      c.rule = (fresh_mctx [rule_keep_nosuch_mbox]).rule ∧ c.matched = true ∧
      c.done = ((fresh_mctx [rule_keep_nosuch_mbox]).done || rule_keep_nosuch_mbox.stop) :=
  ⟨rfl, rfl,
    match failed_expansion_is_not_rolled_back sample_env (fresh_mctx [rule_keep_nosuch_mbox])
      none none { fresh_mctx [rule_keep_nosuch_mbox] with result := true }
      rule_keep_nosuch_mbox [] [⟨some "keep"⟩] [⟨some "mbox"⟩] ⟨some "nosuch"⟩ rfl rfl rfl rfl
      rfl (by decide) (by decide) with
    | ⟨c, h1, h2, _, _, _, _, _, h8, h9⟩ => ⟨c, h1, h2, h8, h9⟩⟩

/-! ## The scheduler loop ends -/

theorem rule_weight_eq (r : Rule) :
    rule_weight r = 2 + (r.expr.getD []).length + rules_weight r.rules := by
  cases r
  simp [rule_weight, Rule.expr, Rule.rules]

theorem rules_weight_append (xs ys : List Rule) :
    rules_weight (xs ++ ys) = rules_weight xs + rules_weight ys := by
  induction xs with
  | nil => simp [rules_weight]
  | cons x xs ih => simp [rules_weight, ih, Nat.add_assoc]

theorem work_left_le (c : MailCtx) (he : c.expritem = []) :
    work_left c ≤ rules_weight (to_go c.rule c.stack) := by
  unfold work_left
  cases hr : c.rule with
  | nil => simp
  | cons r rest =>
    simp only [he, if_true]
    rw [to_go_cons]
    simp only [rules_weight]
    rw [rule_weight_eq]

theorem work_left_gt (c : MailCtx) (r : Rule) (rest : List Rule) (hr : c.rule = r :: rest) :
    rules_weight r.rules + rules_weight (to_go rest c.stack) < work_left c := by
  unfold work_left
  rw [hr]
  simp only
  split <;> omega

theorem templates_match_mono (env : Env) (xs ys : List Rule)
    (h : ∀ r ∈ preorder_list xs, r ∈ preorder_list ys) (hy : templates_match env ys) :
    templates_match env xs :=
  fun r hr => hy r (h r hr)

/-- One call of `mail_deliver` on an in-child delivery that succeeds: the head entry
leaves the queue, and rule, stack, cursor, `done` and `msgid` stay. -/
theorem deliver_inchild_ok (env : Env) (c : MailCtx) (d : DeliverCtx) (q : List DeliverCtx)
    (hid : c.msgid = 0) (hq : c.dqueue = d :: q)
    (htype : d.action.deliver.type = DeliverType.DELIVER_INCHILD)
    (hok : ∀ d t m, (env.deliver d t m).1 = DeliverCode.DELIVER_SUCCESS) :
    ∃ c1, mail_deliver env c none none = Outcome.ret MailCode.MAIL_CONTINUE c1 ∧
      c1.dqueue = q ∧ c1.rule = c.rule ∧ c1.stack = c.stack ∧ c1.expritem = c.expritem ∧
      c1.done = c.done ∧ c1.msgid = 0 := by
  obtain ⟨mail, acct, rule, stack, ei, result, done, matched, dq, msgid, tr0⟩ := c
  simp only at hid hq
  subst hid hq
  by_cases hfn : d.action.deliver.deliver_fn = true
  · rw [deliver_inchild_step env mail acct rule stack ei result done matched d q tr0 none none
      htype hfn, if_neg (by simp [hok])]
    exact ⟨_, rfl, rfl, rfl, rfl, rfl, rfl, rfl⟩
  · refine ⟨⟨{ mail with body := env.set_wrapped mail.body '\n' }, acct, rule, stack, ei,
      result, done, matched, q, 0, tr0⟩, ?_, rfl, rfl, rfl, rfl, rfl, rfl⟩
    simp [mail_deliver, wrap, start_action, hfn, deliver_done]

/-- A queue of in-child deliveries that succeed is drained by the scheduler, which
then goes back to matching with the queue empty and rule, stack, cursor and `done` as
they were. -/
theorem deliver_phase (env : Env)
    (hok : ∀ d t m, (env.deliver d t m).1 = DeliverCode.DELIVER_SUCCESS) :
    ∀ (q : List DeliverCtx) (c : MailCtx), c.dqueue = q → c.msgid = 0 →
      (∀ d ∈ q, d.action.deliver.type = DeliverType.DELIVER_INCHILD) →
      ∃ n c1, (∀ m, scheduler env (m + n) Phase.delivering c =
          scheduler env m Phase.matching c1) ∧
        c1.dqueue = [] ∧ c1.rule = c.rule ∧ c1.stack = c.stack ∧
        c1.expritem = c.expritem ∧ c1.done = c.done ∧ c1.msgid = 0 := by
  intro q
  induction q with
  | nil =>
    intro c hq hid _
    obtain ⟨mail, acct, rule, stack, ei, result, done, matched, dq, msgid, tr0⟩ := c
    simp only at hq hid
    subst hq hid
    refine ⟨1, ⟨{ mail with body := env.set_wrapped mail.body '\n' }, acct, rule, stack, ei,
      result, done, matched, [], 0, tr0⟩, ?_, rfl, rfl, rfl, rfl, rfl, rfl⟩
    intro m
    simp [scheduler, mail_deliver, wrap]
  | cons d q ih =>
    intro c hq hid hin
    obtain ⟨c1, h1, h2, h3, h4, h5, h6, h7⟩ := deliver_inchild_ok env c d q hid hq
      (hin d (List.mem_cons_self _ _)) hok
    obtain ⟨n, c2, hn, k1, k2, k3, k4, k5, k6⟩ := ih c1 h2 h7
      (fun x hx => hin x (List.mem_cons_of_mem _ hx))
    refine ⟨n + 1, c2, ?_, k1, k2.trans h3, k3.trans h4, k4.trans h5, k5.trans h6, k6⟩
    intro m
    rw [← Nat.add_assoc]
    simp only [scheduler, h1]
    exact hn m

theorem mem_expected_dctxs (env : Env) (c : MailCtx) (r : Rule) (tpl : List ReplStr)
    (d : DeliverCtx) (h : d ∈ expected_dctxs env c r tpl) : d.action ∈ env.actions := by
  simp only [expected_dctxs, List.mem_flatMap, List.mem_map] at h
  obtain ⟨rs, _, t, ht, uid, _, hd⟩ := h
  rw [← hd]
  simp only [match_actions, List.mem_filter] at ht
  exact ht.1

theorem mem_preorder_list_head (r : Rule) (rs : List Rule) : r ∈ preorder_list (r :: rs) := by
  rw [preorder_list_cons]
  exact List.mem_cons_self _ _

/-- Label `skip` under the conditions of the scheduler run: it returns `MAIL_CONTINUE`
or `MAIL_DELIVER`, the rules still to go are among the nested rules of the current
rule and the rules after it, and what it queues are in-child deliveries. -/
theorem skip_progress (env : Env)
    (hact : ∀ t ∈ env.actions, t.deliver.type = DeliverType.DELIVER_INCHILD)
    (cs : MailCtx) (r : Rule) (rest : List Rule) (hr : cs.rule = r :: rest)
    (hid : cs.msgid = 0) (hq : cs.dqueue = []) (he : cs.expritem = [])
    (hT : templates_match env (to_go cs.rule cs.stack)) :
    ∃ code c1, skip env cs = Outcome.ret code c1 ∧
      (code = MailCode.MAIL_CONTINUE ∨ code = MailCode.MAIL_DELIVER) ∧
      c1.msgid = 0 ∧ c1.expritem = [] ∧
      templates_match env (to_go c1.rule c1.stack) ∧
      rules_weight (to_go c1.rule c1.stack) ≤
        rules_weight r.rules + rules_weight (to_go rest cs.stack) ∧
      (∀ d ∈ c1.dqueue, d.action.deliver.type = DeliverType.DELIVER_INCHILD) ∧
      (code = MailCode.MAIL_CONTINUE → c1.dqueue = []) := by
  obtain ⟨mail, acct, rule, stack, ei, result, done, matched, dq, msgid, tr0⟩ := cs
  simp only at hr hid hq he hT
  subst hr hid hq he
  rw [to_go_cons] at hT
  have hTrest : templates_match env (to_go rest stack) := by
    refine templates_match_mono env _ _ ?_ hT
    intro x hx
    rw [preorder_list_cons]
    exact List.mem_cons_of_mem _ (List.mem_append_right _ hx)
  have hpop : to_go (pop_stack rest stack).1 (pop_stack rest stack).2 = to_go rest stack :=
    to_go_pop_stack rest stack
  cases result with
  | false =>
    rw [skip_nomatch env _ rfl, next_rule_eq _ _ r rest rfl]
    refine ⟨_, _, rfl, Or.inl rfl, rfl, rfl, ?_, ?_, ?_, fun _ => rfl⟩
    · simp only
      rw [hpop]
      exact hTrest
    · simp only
      rw [hpop]
      omega
    · intro d hd
      simp at hd
  | true =>
    by_cases hn : r.rules = []
    · rw [skip_leaf_exact _ _ r rest rfl rfl hn, tag_mail_eq]
      simp only
      by_cases ha : r.actions.isEmpty = true
      · simp only [ha, Bool.not_true, Bool.false_eq_true, if_false]
        rw [next_rule_eq _ _ r rest rfl]
        refine ⟨_, _, rfl, Or.inl rfl, rfl, rfl, ?_, ?_, ?_, fun _ => rfl⟩
        · simp only
          rw [hpop]
          exact hTrest
        · simp only
          rw [hpop]
          omega
        · intro d hd
          simp at hd
      · have hall : ∀ (c : MailCtx), ∀ rs ∈ r.actions,
            match_actions env (env.replacestr rs c.mail.tags c.mail) ≠ [] :=
          fun c rs hrs => hT r (mem_preorder_list_head r _) rs hrs _ _
        have hfill := fill_templates_all_matched env r r rest r.actions
          ⟨{ mail with tags := if r.key.str.isSome then tagged env mail r else mail.tags },
            acct, r :: rest, stack, [], true, (done || r.stop), true, [], 0, tr0⟩ rfl
          (hall _)
        simp only [ha, Bool.not_false, if_true, fill_delivery_queue]
        rw [hfill]
        simp only [ne_eq, not_true_eq_false, if_false]
        rw [next_rule_eq _ _ r rest rfl]
        refine ⟨_, _, rfl, Or.inr rfl, rfl, rfl, ?_, ?_, ?_, fun h => by cases h⟩
        · simp only
          rw [hpop]
          exact hTrest
        · simp only
          rw [hpop]
          omega
        · intro d hd
          simp only [List.nil_append] at hd
          exact hact _ (mem_expected_dctxs env _ r _ d hd)
    · rw [skip_nested _ _ r rest rfl rfl hn]
      refine ⟨_, _, rfl, Or.inl rfl, rfl, rfl, ?_, ?_, ?_, fun _ => rfl⟩
      · simp only
        rw [to_go_push]
        refine templates_match_mono env _ _ ?_ hT
        intro x hx
        rw [preorder_list_append] at hx
        rw [preorder_list_cons]
        exact List.mem_cons_of_mem _ hx
      · simp only
        rw [to_go_push, rules_weight_append]
      · intro d hd
        simp at hd

/-- The check of an item under the conditions of the scheduler run: either a further
item is left and the call returns `MAIL_CONTINUE` with the cursor on it, or the rule
is concluded at label `skip`. -/
theorem check_progress (env : Env)
    (hmatch : ∀ e d, d.msgid = 0 → ∃ b, env.match_fn e d = ⟨code_of b, 0⟩)
    (hact : ∀ t ∈ env.actions, t.deliver.type = DeliverType.DELIVER_INCHILD)
    (cw : MailCtx) (r : Rule) (rest : List Rule) (e : ExprItem) (es : List ExprItem)
    (hr : cw.rule = r :: rest) (hid : cw.msgid = 0) (hq : cw.dqueue = [])
    (he : cw.expritem = e :: es) (hT : templates_match env (to_go cw.rule cw.stack)) :
    ∃ code c1,
      (match check_expritem env cw with
        | Jump.ret o => o
        | Jump.skip c => skip env c) = Outcome.ret code c1 ∧
      (code = MailCode.MAIL_CONTINUE ∨ code = MailCode.MAIL_DELIVER) ∧
      c1.msgid = 0 ∧ templates_match env (to_go c1.rule c1.stack) ∧
      ((c1.expritem = [] ∧ rules_weight (to_go c1.rule c1.stack) ≤
          rules_weight r.rules + rules_weight (to_go rest cw.stack)) ∨
        (c1.rule = cw.rule ∧ c1.stack = cw.stack ∧ c1.expritem = es ∧ es ≠ [])) ∧
      (∀ d ∈ c1.dqueue, d.action.deliver.type = DeliverType.DELIVER_INCHILD) ∧
      (code = MailCode.MAIL_CONTINUE → c1.dqueue = []) := by
  obtain ⟨b, hb⟩ := hmatch e cw hid
  have hb2 : env.match_fn e cw = ⟨code_of b, cw.msgid⟩ := by rw [hb, hid]
  rw [check_expritem_verdict env cw e es b he hb2]
  obtain ⟨mail, acct, rule, stack, ei, result, done, matched, dq, msgid, tr0⟩ := cw
  simp only at hr hid hq he hT
  subst hr hid hq he
  cases es with
  | nil =>
    simp only [next_expritem, List.isEmpty_nil, Bool.not_true, Bool.false_eq_true, if_false]
    obtain ⟨code, c1, h1, h2, h3, h4, h5, h6, h7, h8⟩ := skip_progress env hact
      ⟨mail, acct, r :: rest, stack, [], combine e b result, done, matched, [], 0,
        tr0 ++ [Event.matcher e]⟩ r rest rfl rfl rfl rfl hT
    exact ⟨code, c1, h1, h2, h3, h5, Or.inl ⟨h4, h6⟩, h7, h8⟩
  | cons e2 es2 =>
    simp only [next_expritem, List.isEmpty_cons, Bool.not_false, if_true]
    exact ⟨_, _, rfl, Or.inl rfl, rfl, hT, Or.inr ⟨rfl, rfl, rfl, by simp⟩,
      fun d hd => by simp at hd, fun _ => rfl⟩

/-- One call of `mail_match` under the conditions of the scheduler run: it returns
`MAIL_DONE` with the queue empty, or it returns `MAIL_CONTINUE` or `MAIL_DELIVER`
with less work left, and what it has queued are in-child deliveries. -/
theorem match_progress (env : Env)
    (hmatch : ∀ e d, d.msgid = 0 → ∃ b, env.match_fn e d = ⟨code_of b, 0⟩)
    (hact : ∀ t ∈ env.actions, t.deliver.type = DeliverType.DELIVER_INCHILD)
    (c : MailCtx) (hid : c.msgid = 0) (hq : c.dqueue = [])
    (hT : templates_match env (to_go c.rule c.stack)) :
    ∃ code c1, mail_match env c none none = Outcome.ret code c1 ∧
      ((code = MailCode.MAIL_DONE ∧ c1.dqueue = [] ∧ c1.msgid = 0) ∨
        ((code = MailCode.MAIL_CONTINUE ∨ code = MailCode.MAIL_DELIVER) ∧ c1.msgid = 0 ∧
          templates_match env (to_go c1.rule c1.stack) ∧ work_left c1 < work_left c ∧
          (∀ d ∈ c1.dqueue, d.action.deliver.type = DeliverType.DELIVER_INCHILD) ∧
          (code = MailCode.MAIL_CONTINUE → c1.dqueue = []))) := by
  obtain ⟨mail, acct, rule, stack, ei, result, done, matched, dq, msgid, tr0⟩ := c
  simp only at hid hq hT
  subst hid hq
  simp only [mail_match, mail_match_to_skip, wrap, ne_eq, not_true_eq_false, if_false]
  cases done with
  | true => exact ⟨_, _, rfl, Or.inl ⟨rfl, rfl, rfl⟩⟩
  | false =>
    simp only [Bool.false_eq_true, if_false]
    cases rule with
    | nil =>
      simp only
      obtain ⟨d, tr, hd, _⟩ := end_of_ruleset_spec env
        ⟨{ mail with body := env.set_wrapped mail.body ' ' }, acct, [], stack, ei, result,
          false, matched, [], 0, tr0⟩
      rw [hd]
      exact ⟨_, _, rfl, Or.inl ⟨rfl, rfl, rfl⟩⟩
    | cons r rest =>
      have hwl : ∀ (c1 : MailCtx) (x : List ExprItem), c1.expritem = [] →
          rules_weight (to_go c1.rule c1.stack) ≤
            rules_weight r.rules + rules_weight (to_go rest stack) →
          work_left c1 < work_left
            ⟨mail, acct, r :: rest, stack, x, result, false, matched, [], 0, tr0⟩ := by
        intro c1 x h1 h2
        have h3 := work_left_le c1 h1
        have h4 := work_left_gt
          ⟨mail, acct, r :: rest, stack, x, result, false, matched, [], 0, tr0⟩ r rest rfl
        simp only at h4
        omega
      cases ei with
      | nil =>
        simp only [start_expr]
        by_cases hex : account_excluded env
            ⟨{ mail with body := env.set_wrapped mail.body ' ' }, acct, r :: rest, stack, [],
              result, false, matched, [], 0, tr0⟩ r = true
        · simp only [hex, if_true]
          obtain ⟨code, c1, h1, h2, h3, h4, h5, h6, h7, h8⟩ := skip_progress env hact
            ⟨{ mail with body := env.set_wrapped mail.body ' ' }, acct, r :: rest, stack, [],
              false, false, matched, [], 0, tr0⟩ r rest rfl rfl rfl rfl hT
          exact ⟨code, c1, h1, Or.inr ⟨h2, h3, h5, hwl c1 [] h4 h6, h7, h8⟩⟩
        · simp only [hex, Bool.false_eq_true, if_false]
          have hskip_true : ∃ code c1, skip env
              ⟨{ mail with body := env.set_wrapped mail.body ' ' }, acct, r :: rest, stack, [],
                true, false, matched, [], 0, tr0⟩ = Outcome.ret code c1 ∧
              ((code = MailCode.MAIL_DONE ∧ c1.dqueue = [] ∧ c1.msgid = 0) ∨
                ((code = MailCode.MAIL_CONTINUE ∨ code = MailCode.MAIL_DELIVER) ∧
                  c1.msgid = 0 ∧ templates_match env (to_go c1.rule c1.stack) ∧
                  work_left c1 < work_left
                    ⟨mail, acct, r :: rest, stack, [], result, false, matched, [], 0, tr0⟩ ∧
                  (∀ d ∈ c1.dqueue, d.action.deliver.type = DeliverType.DELIVER_INCHILD) ∧
                  (code = MailCode.MAIL_CONTINUE → c1.dqueue = []))) := by
            obtain ⟨code, c1, h1, h2, h3, h4, h5, h6, h7, h8⟩ := skip_progress env hact
              ⟨{ mail with body := env.set_wrapped mail.body ' ' }, acct, r :: rest, stack, [],
                true, false, matched, [], 0, tr0⟩ r rest rfl rfl rfl rfl hT
            exact ⟨code, c1, h1, Or.inr ⟨h2, h3, h5, hwl c1 [] h4 h6, h7, h8⟩⟩
          cases hexpr : r.expr with
          | none =>
            simp only
            exact hskip_true
          | some items =>
            cases items with
            | nil =>
              simp only
              exact hskip_true
            | cons e es =>
              simp only
              obtain ⟨code, c1, h1, h2, h3, h4, h5, h6, h7⟩ := check_progress env hmatch hact
                ⟨{ mail with body := env.set_wrapped mail.body ' ' }, acct, r :: rest, stack,
                  e :: es, false, false, matched, [], 0, tr0⟩ r rest e es rfl rfl rfl rfl hT
              refine ⟨code, c1, h1, Or.inr ⟨h2, h3, h4, ?_, h6, h7⟩⟩
              rcases h5 with ⟨k1, k2⟩ | ⟨k1, k2, k3, k4⟩
              · exact hwl c1 [] k1 k2
              · simp only [work_left, k1, k2, k3, k4, if_false, if_true, hexpr,
                  Option.getD_some, List.length_cons]
                omega
      | cons e es =>
        simp only
        obtain ⟨code, c1, h1, h2, h3, h4, h5, h6, h7⟩ := check_progress env hmatch hact
          ⟨{ mail with body := env.set_wrapped mail.body ' ' }, acct, r :: rest, stack,
            e :: es, result, false, matched, [], 0, tr0⟩ r rest e es rfl rfl rfl rfl hT
        refine ⟨code, c1, h1, Or.inr ⟨h2, h3, h4, ?_, h6, h7⟩⟩
        rcases h5 with ⟨k1, k2⟩ | ⟨k1, k2, k3, k4⟩
        · exact hwl c1 (e :: es) k1 k2
        · simp only [work_left, k1, k2, k3, k4, if_false, List.length_cons]
          simp

theorem work_left_congr (c d : MailCtx) (hr : d.rule = c.rule) (hs : d.stack = c.stack)
    (he : d.expritem = c.expritem) : work_left d = work_left c := by
  simp only [work_left, hr, hs, he]

/-- C26: with matchers that return `MATCH_TRUE` or `MATCH_FALSE` and store no message
id, every action template of every rule still to go (nested rules included) matching
some action, and all actions in-child with deliverers that succeed, the scheduler
loop started on a context with `msgid = 0` and an empty queue ends after finitely
many calls with `mail_match` returning `MAIL_DONE`, and the delivery queue is empty
then. -/
theorem scheduler_reaches_done (env : Env) (c0 : MailCtx)
    (hmatch : ∀ e d, d.msgid = 0 → ∃ b, env.match_fn e d = ⟨code_of b, 0⟩)
    (hact : ∀ t ∈ env.actions, t.deliver.type = DeliverType.DELIVER_INCHILD)
    (hok : ∀ d t m, (env.deliver d t m).1 = DeliverCode.DELIVER_SUCCESS)
    (hid : c0.msgid = 0) (hq : c0.dqueue = [])
    (hT : templates_match env (to_go c0.rule c0.stack)) :
    ∃ n c, scheduler env n Phase.matching c0 = some (Outcome.ret MailCode.MAIL_DONE c) ∧
      c.dqueue = [] ∧ c.msgid = 0 := by
  suffices hmain : ∀ (w : Nat) (c : MailCtx), work_left c ≤ w → c.msgid = 0 →
      c.dqueue = [] → templates_match env (to_go c.rule c.stack) →
      ∃ n c1, scheduler env n Phase.matching c = some (Outcome.ret MailCode.MAIL_DONE c1) ∧
        c1.dqueue = [] ∧ c1.msgid = 0 from
    hmain (work_left c0) c0 (Nat.le_refl _) hid hq hT
  intro w
  induction w with
  | zero =>
    intro c hw hcid hcq hcT
    obtain ⟨code, c1, h1, h2⟩ := match_progress env hmatch hact c hcid hcq hcT
    rcases h2 with ⟨h2, h3, h4⟩ | ⟨_, _, _, h5, _⟩
    · subst h2
      exact ⟨1, c1, by simp [scheduler, h1], h3, h4⟩
    · omega
  | succ w ih =>
    intro c hw hcid hcq hcT
    obtain ⟨code, c1, h1, h2⟩ := match_progress env hmatch hact c hcid hcq hcT
    rcases h2 with ⟨h2, h3, h4⟩ | ⟨h2, h3, h4, h5, h6, h7⟩
    · subst h2
      exact ⟨1, c1, by simp [scheduler, h1], h3, h4⟩
    · rcases h2 with h2 | h2
      · subst h2
        obtain ⟨n, c2, k1, k2, k3⟩ := ih c1 (by omega) h3 (h7 rfl) h4
        exact ⟨n + 1, c2, by simp only [scheduler, h1]; exact k1, k2, k3⟩
      · subst h2
        obtain ⟨k, c2, hk, g1, g2, g3, g4, _, g6⟩ := deliver_phase env hok c1.dqueue c1 rfl h3 h6
        have hw2 : work_left c2 ≤ w := by
          rw [work_left_congr c1 c2 g2 g3 g4]
          omega
        have hT2 : templates_match env (to_go c2.rule c2.stack) := by
          rw [g2, g3]
          exact h4
        obtain ⟨n, c3, k1, k2, k3⟩ := ih c2 hw2 g6 g1 hT2
        refine ⟨n + k + 1, c3, ?_, k2, k3⟩
        simp only [scheduler, h1]
        rw [hk n]
        exact k1

/-- Witness of C26: the ruleset `nested_keep_rules` with the action `keep` only; ten
calls end the run. -/
theorem scheduler_reaches_done_witness :
    (scheduler inchild_env 10 Phase.matching (fresh_mctx nested_keep_rules)).map
      (fun o => (o.code?, o.mctx?.map (fun c => c.dqueue.length))) =
      some (some MailCode.MAIL_DONE, some 0) ∧
    ∃ n c, scheduler inchild_env n Phase.matching (fresh_mctx nested_keep_rules) =
        some (Outcome.ret MailCode.MAIL_DONE c) ∧ c.dqueue = [] ∧ c.msgid = 0 :=
  ⟨rfl,
    scheduler_reaches_done inchild_env (fresh_mctx nested_keep_rules)
      (by
        intro e d hd
        simp only [inchild_env, sample_env, first_char_matcher]
        split
        · split
          · exact ⟨true, by rw [hd]; rfl⟩
          · exact ⟨false, by rw [hd]; rfl⟩
        · exact ⟨false, by rw [hd]; rfl⟩)
      (by
        intro t ht
        simp only [inchild_env, List.mem_singleton] at ht
        subst ht
        rfl)
      (fun _ _ _ => rfl) rfl rfl
      (by
        intro r hr rs hrs tags m
        simp only [fresh_mctx, to_go, List.flatMap_nil, List.append_nil, nested_keep_rules,
          rule_all, rule_keep, rule_y_and_x_or_y, preorder_list, Rule.preorder,
          List.cons_append, List.nil_append, List.append_nil, List.mem_cons,
          List.mem_singleton, List.not_mem_nil, or_false] at hr
        rcases hr with hr | hr | hr
        · subst hr
          simp [Rule.actions] at hrs
        · subst hr
          simp only [Rule.actions, List.mem_singleton] at hrs
          subst hrs
          show match_actions inchild_env (some "keep") ≠ []
          decide
        · subst hr
          simp only [Rule.actions, List.mem_singleton] at hrs
          subst hrs
          show match_actions inchild_env (some "keep") ≠ []
          decide)⟩

end Fdm
